import Mathlib

/-!
# Pothos blocks: the test feeder (`src/testers/FeederSource.cpp`), `Repeat` (`src/stream/Repeat.cpp`) and the binary file source (`src/file/BinaryFileSource.cpp`)

A shallow embedding of the `FeederSource` block (the four queues, the drain step `work`
and the plan builder `feedTestPlan`), of the step of the `Repeat` block and of the
`BinaryFileSource` block with its memory mapped container, followed by the properties
proved about them.

Conventions of the embedding.

* Queues (`std::queue`) are lists whose head is the front; `push` appends at the end.
* The random number generator is replaced by a record of draws (`RandomDraws`): one
  field per distribution, indexed by the position of the draw in the loop that makes
  it.  A property that holds "for every outcome of the random draws" is a property
  for every such record whose draws lie in the ranges of their distributions.
* `int`, `size_t` and `unsigned long long` values are integers (`Int`, `Nat`).  C++ `/`
  on `int` is truncating division (`Int.tdiv`).  Arithmetic is exact where the machine
  cannot leave the range in a run with defined behaviour (signed overflow is undefined
  in C++, 64-bit element counters do not reach `2 ^ 64`).  What small inputs do reach
  is modelled: a negative `int` converted to an unsigned type becomes the value plus
  `2 ^ 64` (`toUnsigned`), and the unsigned subtraction `index -= totalElements` of
  `work` wraps modulo `2 ^ 64` (`subU64`).
* Where the C++ run does not return (an exception, an integer division by zero, an
  allocation with a negative element count) the embedding returns `Except.error`.
* Types of the Pothos framework (`DType`, `BufferChunk`, `Label`, `Packet`, `Object`,
  the output port) are records of the members the block reads and writes.
* The answers of the operating system about a path (`Poco::File`, `::open`, `::mmap`,
  `::close`) are a parameter of the embedding (`FileSystem`).
-/

namespace Pothos

/-! ## Framework types -/

/-- Element type of a stream: byte width and numeric category (`Pothos::DType`). -/
structure DType where
  size : Nat
  isSigned : Bool
  isFloat : Bool
deriving DecidableEq, Repr

/-- One sample drawn by `valueDist` (a `float`). -/
abbrev Sample := Rat

/-- Conversion of a floating point sample to an integer type: truncation toward zero. -/
def truncate (value : Sample) : Int := Int.tdiv value.num value.den

/-- One element as stored in a buffer by `feedTestPlan`, tagged by the C++ type it was
written through. -/
inductive Element where
  | char (v : Int)
  | short (v : Int)
  | int (v : Int)
  | float (v : Sample)
deriving DecidableEq, Repr

/-- A typed buffer (`Pothos::BufferChunk`): `length` is in bytes. -/
structure BufferChunk where
  dtype : DType
  length : Nat
  data : List Element
deriving DecidableEq, Repr

/-- Number of elements held: `length / dtype.size()`. -/
def BufferChunk.elements (b : BufferChunk) : Nat := b.length / b.dtype.size

/-- A positional annotation (`Pothos::Label`). -/
structure Label where
  id : String
  data : String
  index : Nat
deriving DecidableEq, Repr

/-- A framed payload with labels relative to the payload start (`Pothos::Packet`). -/
structure Packet where
  payload : BufferChunk
  labels : List Label
deriving DecidableEq, Repr

/-- An opaque message payload (`Pothos::Object`): the block handles strings and packets. -/
inductive Object where
  | string (s : String)
  | packet (p : Packet)
deriving DecidableEq, Repr

/-- What the block reads from its output port during one call. -/
structure OutputPort where
  dtype : DType
  totalElements : Nat
  elements : Nat
deriving DecidableEq, Repr

/-- One call made on the output port. -/
inductive Posted where
  | label (l : Label)
  | buffer (b : BufferChunk)
  | message (m : Object)
deriving DecidableEq, Repr

/-- Ways in which a call does not return. -/
inductive Exception where
  | parseError
  | assertionViolation
  | outOfRange
  | badAlloc
  | divisionByZero
deriving DecidableEq, Repr

/-- Subtraction on `size_t`: wraps modulo `2 ^ 64` when the result would be negative. -/
def subU64 (a b : Nat) : Nat := if b ≤ a then a - b else a + 2 ^ 64 - b

/-- Conversion of a signed value to `size_t` or `unsigned long long` (64 bits): a
negative value wraps to the value plus `2 ^ 64`. -/
def toUnsigned (x : Int) : Int := if x < 0 then x + 2 ^ 64 else x

/-- Conversion of an `int` to `size_t`, as a natural number. -/
def toSizeT (x : Int) : Nat := (toUnsigned x).toNat

/-! ## The block state and the drain step -/

/-- The four queues of the block (private members). -/
structure FeederSource where
  _buffers : List BufferChunk
  _labels : List Label
  _messages : List Object
  _packets : List Packet
deriving DecidableEq, Repr

namespace FeederSource

def feedBuffer (self : FeederSource) (buffer : BufferChunk) : FeederSource :=
  { self with _buffers := self._buffers ++ [buffer] }

def feedLabel (self : FeederSource) (label : Label) : FeederSource :=
  { self with _labels := self._labels ++ [label] }

def feedMessage (self : FeederSource) (message : Object) : FeederSource :=
  { self with _messages := self._messages ++ [message] }

def feedPacket (self : FeederSource) (packet : Packet) : FeederSource :=
  { self with _packets := self._packets ++ [packet] }

/-- Outcome of one `work` call: the queues afterwards, the calls made on the output
port in order, and whether the call reached the backoff (`sleep_for` then `yield`). -/
structure WorkResult where
  self : FeederSource
  posted : List Posted
  backoff : Bool
deriving DecidableEq, Repr

/-- The label loop of `work` (source lines 60-68) run on the label queue: the labels
posted, in order, and the label queue left behind. -/
def workLabels (_buffers : List BufferChunk) (outputPort : OutputPort) :
    List Label → List Posted × List Label
  | [] => ([], [])
  | front :: rest =>
    let buffElems :=
      match _buffers with
      | [] => 0
      | b :: _ => b.length / outputPort.dtype.size
    if front.index ≥ buffElems + outputPort.totalElements then ([], front :: rest)
    else
      let r := workLabels _buffers outputPort rest
      (Posted.label { front with index := subU64 front.index outputPort.totalElements } :: r.1,
        r.2)

/-- The drain step `FeederSource::work` (source lines 55-91). -/
def work (self : FeederSource) (outputPort : OutputPort) : WorkResult :=
  let r := workLabels self._buffers outputPort self._labels
  let self := { self with _labels := r.2 }
  match self._buffers with
  | b :: rest => ⟨{ self with _buffers := rest }, r.1 ++ [Posted.buffer b], false⟩
  | [] =>
    match self._messages with
    | m :: rest => ⟨{ self with _messages := rest }, r.1 ++ [Posted.message m], false⟩
    | [] =>
      match self._packets with
      | p :: rest =>
        ⟨{ self with _packets := rest }, r.1 ++ [Posted.message (Object.packet p)], false⟩
      | [] => ⟨self, r.1, true⟩

end FeederSource

/-! ## The plan builder -/

/-- The parsed configuration document: a key that is absent is `none`. -/
structure TestPlan where
  enableBuffers : Option Bool := none
  enableLabels : Option Bool := none
  enableMessages : Option Bool := none
  enablePackets : Option Bool := none
  minTrials : Option Int := none
  maxTrials : Option Int := none
  minSize : Option Int := none
  maxSize : Option Int := none
  minBuffers : Option Int := none
  maxBuffers : Option Int := none
  minBufferSize : Option Int := none
  maxBufferSize : Option Int := none
  minValue : Option Int := none
  maxValue : Option Int := none
  totalMultiple : Option Int := none
  bufferMultiple : Option Int := none
  minLabels : Option Int := none
  maxLabels : Option Int := none
  minLabelSize : Option Int := none
  maxLabelSize : Option Int := none
  minMessages : Option Int := none
  maxMessages : Option Int := none
  minMessageSize : Option Int := none
  maxMessageSize : Option Int := none
deriving DecidableEq, Repr

/-- The lookup `testPlan.value(key, default)`. -/
def TestPlan.value {α : Type} (field : Option α) (default : α) : α := field.getD default

/-- The outcomes of the random draws of one `feedTestPlan` call, one field per
distribution: `bufferDist`, `elementsDist` (by buffer number), `valueDist` (by buffer
number and element number), `labelDist`, `indexDist` (by label number), the random
strings of the labels (by position among the surviving indexes), `messageDist` and the
random strings of the messages (by message number). -/
structure RandomDraws where
  bufferDist : Int
  elementsDist : Nat → Int
  valueDist : Nat → Nat → Sample
  labelDist : Int
  indexDist : Nat → Nat
  labelData : Nat → String
  messageDist : Int
  messageData : Nat → String

/-- A label entry of the golden description. -/
structure ExpectedLabel where
  index : Nat
  data : String
  id : String
deriving DecidableEq, Repr

/-- A packet entry of the golden description; `expectedLabels` is `none` while the
key is absent. -/
structure ExpectedPacket where
  expectedValues : List Sample
  expectedLabels : Option (List ExpectedLabel)
deriving DecidableEq, Repr

/-- The golden description returned by `feedTestPlan`: a key that was not set is `none`. -/
structure ExpectedResult where
  expectedValues : Option (List Sample)
  expectedLabels : Option (List ExpectedLabel)
  expectedMessages : Option (List String)
  expectedPackets : Option (List ExpectedPacket)
deriving DecidableEq, Repr

namespace FeederSource

/-- Source lines 189-191: round the drawn count up to a multiple of `bufferMultiple`
and re-enforce the bounds `a`, `b` of the distribution. -/
def roundToMultiple (numElems bufferMultiple a b : Int) : Int :=
  let numElems := ((numElems + bufferMultiple - 1).tdiv bufferMultiple) * bufferMultiple
  let numElems := if numElems > b then numElems - bufferMultiple else numElems
  if numElems < a then numElems + bufferMultiple else numElems

/-- Source lines 194-198: on the last buffer, pad the count so that the running total
becomes a multiple of `totalMultiple`. `extra` is computed on unsigned operands: the
sum `totalElements + numElems` and `totalMultiple` are converted. -/
def padLast (bufno numBuffs : Nat) (totalElements numElems totalMultiple : Int) : Int :=
  if bufno + 1 = numBuffs then
    let extra := toUnsigned (totalElements + numElems) % toUnsigned totalMultiple
    if extra ≠ 0 then numElems + (totalMultiple - extra) else numElems
  else numElems

/-- Source lines 207-214: store one sample in the buffer according to the element
width; a width other than 1, 2 or 4 throws. -/
def encode (elemDType : DType) (value : Sample) : Except Exception Element :=
  if elemDType.size = 1 then .ok (Element.char (truncate value))
  else if elemDType.size = 2 then .ok (Element.short (truncate value))
  else if elemDType.size = 4 then
    if elemDType.isFloat then .ok (Element.float value)
    else .ok (Element.int (truncate value))
  else .error Exception.assertionViolation

/-- Source lines 203-215: the element loop, from element `i` with `n` elements to go. -/
def fillElements (elemDType : DType) (valueDist : Nat → Sample) :
    Nat → Nat → Except Exception (List Element)
  | 0, _ => .ok []
  | n + 1, i =>
    match encode elemDType (valueDist i) with
    | .error e => .error e
    | .ok x =>
      match fillElements elemDType valueDist n (i + 1) with
      | .error e => .error e
      | .ok xs => .ok (x :: xs)

/-- The variables of `feedTestPlan` written by the buffer loop. -/
structure BufferState where
  totalElements : Int
  expectedValues : List Sample
  expectedPackets : List ExpectedPacket
  buffers : List BufferChunk
  packets : List Packet
deriving DecidableEq, Repr

/-- Source lines 184-230: the buffer loop, at buffer `bufno` with `remaining` buffers
to go. `a` and `b` are the bounds of `elementsDist`. The run does not return when a
divisor is zero (`bufferMultiple` in the rounding, `totalMultiple` in the padding of
the last buffer), when the count is negative at the allocation of the buffer (it
converts to a `size_t` element count that cannot be allocated), or when an element
cannot be stored. -/
def bufferLoop (elemDType : DType) (enablePackets : Bool) (a b bufferMultiple totalMultiple : Int)
    (gen : RandomDraws) (numBuffs : Nat) : Nat → Nat → BufferState → Except Exception BufferState
  | 0, _, st => .ok st
  | remaining + 1, bufno, st =>
    let numElems := gen.elementsDist bufno
    if bufferMultiple = 0 then .error Exception.divisionByZero
    else
      let numElems := roundToMultiple numElems bufferMultiple a b
      if bufno + 1 = numBuffs ∧ totalMultiple = 0 then .error Exception.divisionByZero
      else
        let numElems := padLast bufno numBuffs st.totalElements numElems totalMultiple
        let totalElements := st.totalElements + numElems
        if numElems < 0 then .error Exception.badAlloc
        else
          match fillElements elemDType (gen.valueDist bufno) numElems.toNat 0 with
          | .error e => .error e
          | .ok data =>
            let buff : BufferChunk := ⟨elemDType, numElems.toNat * elemDType.size, data⟩
            let expectedValues :=
              st.expectedValues ++ (List.range numElems.toNat).map (gen.valueDist bufno)
            if enablePackets then
              bufferLoop elemDType enablePackets a b bufferMultiple totalMultiple gen numBuffs
                remaining (bufno + 1)
                { totalElements := totalElements
                  expectedValues := []
                  expectedPackets := st.expectedPackets ++ [⟨expectedValues, none⟩]
                  buffers := st.buffers
                  packets := st.packets ++ [⟨buff, []⟩] }
            else
              bufferLoop elemDType enablePackets a b bufferMultiple totalMultiple gen numBuffs
                remaining (bufno + 1)
                { totalElements := totalElements
                  expectedValues := expectedValues
                  expectedPackets := st.expectedPackets
                  buffers := st.buffers ++ [buff]
                  packets := st.packets }

/-- Default `minTrials` (source line 151). -/
def minTrials (testPlan : TestPlan) : Int := TestPlan.value testPlan.minTrials 10

/-- Default `maxTrials` (source line 152). -/
def maxTrials (testPlan : TestPlan) : Int := TestPlan.value testPlan.maxTrials 100

/-- Default `minSize` (source line 153). -/
def minSize (testPlan : TestPlan) : Int := TestPlan.value testPlan.minSize 10

/-- Default `maxSize` (source line 154). -/
def maxSize (testPlan : TestPlan) : Int := TestPlan.value testPlan.maxSize 100

/-- Lower bound of `elementsDist` (source line 170). The division of an `int` by the
`size_t` width is unsigned and its result is narrowed to `int`: for the widths 1, 2, 4
and 8 that is the floor division. -/
def elementsDistA (elemDType : DType) (testPlan : TestPlan) : Int :=
  TestPlan.value testPlan.minBufferSize (minSize testPlan) / (elemDType.size : Int)

/-- Upper bound of `elementsDist` (source line 171). -/
def elementsDistB (elemDType : DType) (testPlan : TestPlan) : Int :=
  TestPlan.value testPlan.maxBufferSize (maxSize testPlan) / (elemDType.size : Int)

/-- The value of `totalMultiple` (source line 179). -/
def totalMultiple (testPlan : TestPlan) : Int := TestPlan.value testPlan.totalMultiple 1

/-- The value of `bufferMultiple` (source line 180). -/
def bufferMultiple (testPlan : TestPlan) : Int := TestPlan.value testPlan.bufferMultiple 1

/-- Source lines 162-231: the buffer section. Without buffers and packets enabled
nothing is generated. -/
def generateBuffers (elemDType : DType) (testPlan : TestPlan) (gen : RandomDraws) :
    Except Exception BufferState :=
  let enableBuffers := TestPlan.value testPlan.enableBuffers false
  let enablePackets := TestPlan.value testPlan.enablePackets false
  let st : BufferState := ⟨0, [], [], [], []⟩
  if enableBuffers ∨ enablePackets then
    if elemDType.size = 0 then .error Exception.divisionByZero
    else
      let numBuffs := toSizeT gen.bufferDist
      bufferLoop elemDType enablePackets (elementsDistA elemDType testPlan)
        (elementsDistB elemDType testPlan) (bufferMultiple testPlan) (totalMultiple testPlan)
        gen numBuffs numBuffs 0 st
  else .ok st

/-- Source lines 252-259: draw `remaining` more label indexes, from label number
`lblno`, keeping an index only when it is not in `labelIndexes` yet. -/
def drawLabelIndexes (indexDist : Nat → Nat) : Nat → Nat → List Nat → List Nat
  | 0, _, labelIndexes => labelIndexes
  | remaining + 1, lblno, labelIndexes =>
    let index := indexDist lblno
    if index ∈ labelIndexes then drawLabelIndexes indexDist remaining (lblno + 1) labelIndexes
    else drawLabelIndexes indexDist remaining (lblno + 1) (labelIndexes ++ [index])

/-- Source lines 272-278: in packet mode, walk the packets from `packetIndex` on,
subtracting each payload length until the index falls inside a packet. Returns the
relative index and the packet ordinal. -/
def packetWalk : List Packet → Nat → Nat → Nat × Nat
  | [], index, packetIndex => (index, packetIndex)
  | packet :: rest, index, packetIndex =>
    if index < packet.payload.elements then (index, packetIndex)
    else packetWalk rest (index - packet.payload.elements) (packetIndex + 1)

/-- Source lines 289-290: append a label entry to a packet entry of the golden
description, creating the key when it is absent. -/
def ExpectedPacket.pushLabel (expectedLabel : ExpectedLabel) (expectedPacket : ExpectedPacket) :
    ExpectedPacket :=
  { expectedPacket with
    expectedLabels := some (expectedPacket.expectedLabels.getD [] ++ [expectedLabel]) }

/-- Source line 291: append a label to a packet. -/
def Packet.pushLabel (lbl : Label) (packet : Packet) : Packet :=
  { packet with labels := packet.labels ++ [lbl] }

/-- The variables of `feedTestPlan` written by the label loop. -/
structure LabelState where
  expectedLabels : List ExpectedLabel
  expectedPackets : List ExpectedPacket
  labels : List Label
  packets : List Packet
deriving DecidableEq, Repr

/-- Source lines 263-300: the label loop over the sorted indexes; `k` is the position
of the current index in that list. -/
def labelLoop (enablePackets : Bool) (outputPort : OutputPort) (gen : RandomDraws) :
    List Nat → Nat → LabelState → Except Exception LabelState
  | [], _, st => .ok st
  | index :: rest, k, st =>
    let data := gen.labelData k
    let id := "id" ++ toString index
    let walk := if enablePackets then packetWalk st.packets index 0 else (index, 0)
    let lbl : Label := { id := id, data := data, index := walk.1 }
    let packetIndex := walk.2
    let expectedLabel : ExpectedLabel := { index := lbl.index, data := data, id := lbl.id }
    if enablePackets then
      if packetIndex < st.packets.length then
        labelLoop enablePackets outputPort gen rest (k + 1)
          { st with
            expectedPackets :=
              st.expectedPackets.modify (ExpectedPacket.pushLabel expectedLabel) packetIndex
            packets := st.packets.modify (Packet.pushLabel lbl) packetIndex }
      else .error Exception.outOfRange
    else
      let lbl := { lbl with index := lbl.index + outputPort.totalElements }
      labelLoop enablePackets outputPort gen rest (k + 1)
        { st with
          labels := st.labels ++ [lbl]
          expectedLabels := st.expectedLabels ++ [expectedLabel] }

/-- Source lines 250-260: the surviving label indexes, sorted ascending. -/
def labelIndexes (gen : RandomDraws) : List Nat :=
  let numLabels := toSizeT gen.labelDist
  List.insertionSort (fun x y => x ≤ y) (drawLabelIndexes gen.indexDist numLabels 0 [])

/-- Source lines 238-301: the label section. Without labels enabled, or without any
element generated, nothing is generated. -/
def generateLabels (outputPort : OutputPort) (testPlan : TestPlan) (gen : RandomDraws)
    (bs : BufferState) : Except Exception LabelState :=
  let enableLabels := TestPlan.value testPlan.enableLabels false
  let enablePackets := TestPlan.value testPlan.enablePackets false
  let st : LabelState := ⟨[], bs.expectedPackets, [], bs.packets⟩
  if enableLabels ∧ bs.totalElements > 0 then
    labelLoop enablePackets outputPort gen (labelIndexes gen) 0 st
  else .ok st

/-- Source lines 307-324: the message section; the random strings generated, in order. -/
def generateMessages (testPlan : TestPlan) (gen : RandomDraws) : List String :=
  let enableMessages := TestPlan.value testPlan.enableMessages false
  if enableMessages then
    let numMessages := toSizeT gen.messageDist
    (List.range numMessages).map gen.messageData
  else []

/-- Source lines 327-330: a section of the golden description is set only when it is
not empty. -/
def whenUsed {α : Type} (l : List α) : Option (List α) := if l.isEmpty then none else some l

/-- The plan builder `FeederSource::feedTestPlan` (source lines 125-339); `testPlan`
is `none` when the configuration document does not parse. Returns the golden
description and the block with the generated entities queued. -/
def feedTestPlan (self : FeederSource) (outputPort : OutputPort) (testPlan : Option TestPlan)
    (gen : RandomDraws) : Except Exception (ExpectedResult × FeederSource) :=
  match testPlan with
  | none => .error Exception.parseError
  | some testPlan =>
    match generateBuffers outputPort.dtype testPlan gen with
    | .error e => .error e
    | .ok bs =>
      match generateLabels outputPort testPlan gen bs with
      | .error e => .error e
      | .ok ls =>
        let messages := generateMessages testPlan gen
        let expectedResult : ExpectedResult :=
          { expectedValues := whenUsed bs.expectedValues
            expectedLabels := whenUsed ls.expectedLabels
            expectedMessages := whenUsed messages
            expectedPackets := whenUsed ls.expectedPackets }
        let self := ls.labels.foldl feedLabel self
        let self := bs.buffers.foldl feedBuffer self
        let self := (messages.map Object.string).foldl feedMessage self
        let self := ls.packets.foldl feedPacket self
        .ok (expectedResult, self)

/-- The draws of the buffer section lie in the ranges of their distributions, as
built by `feedTestPlan` for this element type and configuration: `bufferDist` between
`minBuffers` and `maxBuffers`, every `elementsDist` draw between the two bounds of
`elementsDist`. -/
def ValidBufferDraws (elemDType : DType) (testPlan : TestPlan) (gen : RandomDraws) : Prop :=
  (TestPlan.value testPlan.minBuffers (minTrials testPlan) ≤ gen.bufferDist ∧
    gen.bufferDist ≤ TestPlan.value testPlan.maxBuffers (maxTrials testPlan)) ∧
  ∀ bufno, elementsDistA elemDType testPlan ≤ gen.elementsDist bufno ∧
    gen.elementsDist bufno ≤ elementsDistB elemDType testPlan

/-! ## Definitions used in the statements and proofs -/

/-- The element counts chosen by the buffer loop from buffer `bufno` on, with `remaining`
buffers to go and `totalElements` elements generated so far. -/
def numElemsFrom (a b bufferMultiple totalMultiple : Int) (gen : RandomDraws) (numBuffs : Nat) :
    Nat → Nat → Int → List Int
  | 0, _, _ => []
  | remaining + 1, bufno, totalElements =>
    let numElems := padLast bufno numBuffs totalElements
      (roundToMultiple (gen.elementsDist bufno) bufferMultiple a b) totalMultiple
    numElems :: numElemsFrom a b bufferMultiple totalMultiple gen numBuffs remaining (bufno + 1)
      (totalElements + numElems)

/-- The configuration of the scenario: two buffers of 8 bytes, `bufferMultiple` 4,
`totalMultiple` 1, every other key absent. -/
def scenarioPlan : TestPlan :=
  { enableBuffers := some true
    minBuffers := some 2
    maxBuffers := some 2
    minBufferSize := some 8
    maxBufferSize := some 8
    bufferMultiple := some 4
    totalMultiple := some 1 }

/-- The element type `int32`. -/
def int32 : DType := ⟨4, true, false⟩

/-- Draws for the scenario: two buffers, two elements drawn for each, every sample 0. -/
def scenarioDraws : RandomDraws :=
  ⟨2, fun _ => 2, fun _ _ => 0, 0, fun _ => 0, fun _ => "", 0, fun _ => ""⟩

/-- The block with four empty queues. -/
def empty : FeederSource := ⟨[], [], [], []⟩

/-- The element counts chosen by the buffer section of one `feedTestPlan` call: those
of the buffer loop when buffers or packets are enabled, none otherwise. -/
def numElemsChosen (elemDType : DType) (testPlan : TestPlan) (gen : RandomDraws) : List Int :=
  if TestPlan.value testPlan.enableBuffers false = true ∨
      TestPlan.value testPlan.enablePackets false = true then
    numElemsFrom (elementsDistA elemDType testPlan) (elementsDistB elemDType testPlan)
      (bufferMultiple testPlan) (totalMultiple testPlan) gen (toSizeT gen.bufferDist)
      (toSizeT gen.bufferDist) 0 0
  else []

/-- A configuration with a padded last buffer: one buffer of 8 bytes, `bufferMultiple`
2, `totalMultiple` 3. -/
def paddedPlan : TestPlan :=
  { enableBuffers := some true
    minBuffers := some 1
    maxBuffers := some 1
    minBufferSize := some 8
    maxBufferSize := some 8
    bufferMultiple := some 2
    totalMultiple := some 3 }

/-- Draws for `paddedPlan`: one buffer, two elements drawn, every sample 0. -/
def paddedDraws : RandomDraws :=
  ⟨1, fun _ => 2, fun _ _ => 0, 0, fun _ => 0, fun _ => "", 0, fun _ => ""⟩

/-- A configuration with a negative `bufferMultiple`: one buffer of 4 bytes,
`bufferMultiple` -1, `totalMultiple` 6. -/
def negativeMultiplePlan : TestPlan :=
  { enableBuffers := some true
    minBuffers := some 1
    maxBuffers := some 1
    minBufferSize := some 4
    maxBufferSize := some 4
    bufferMultiple := some (-1)
    totalMultiple := some 6 }

/-- Draws for `negativeMultiplePlan`: one buffer, one element drawn, every sample 0. -/
def negativeMultipleDraws : RandomDraws :=
  ⟨1, fun _ => 1, fun _ _ => 0, 0, fun _ => 0, fun _ => "", 0, fun _ => ""⟩

/-- The payload element counts of a list of packets. -/
def payloadElements (packets : List Packet) : List Nat :=
  packets.map (fun p => p.payload.elements)

/-- The number of elements in the payloads of the packets before ordinal `q`. -/
def packetOffset (packets : List Packet) (q : Nat) : Nat :=
  ((payloadElements packets).take q).sum

/-- Two packets with payloads of 2 and 3 elements of `int32` and no labels. -/
def twoPackets : List Packet :=
  [⟨⟨int32, 8, [Element.int 0, Element.int 0]⟩, []⟩,
    ⟨⟨int32, 12, [Element.int 0, Element.int 0, Element.int 0]⟩, []⟩]

/-- Invariant of the label loop in packet mode: in every packet the relative label
indexes strictly ascend, and every label stands for an absolute index below `bound`. -/
def LabelsBelow (packets : List Packet) (bound : Nat) : Prop :=
  ∀ (q : Nat) (p : Packet), packets[q]? = some p →
    (p.labels.map Label.index).Pairwise (fun x y => x < y) ∧
    ∀ l ∈ p.labels, packetOffset packets q + l.index < bound

/-- A configuration in packet mode with labels: two packets of 8 bytes, three label
draws. -/
def labelledPlan : TestPlan :=
  { enablePackets := some true
    enableLabels := some true
    minBuffers := some 2
    maxBuffers := some 2
    minBufferSize := some 8
    maxBufferSize := some 8
    minLabels := some 3
    maxLabels := some 3 }

/-- Draws for `labelledPlan`: two packets of two elements, the label indexes 1, 0 and 3. -/
def labelledDraws : RandomDraws :=
  ⟨2, fun _ => 2, fun _ _ => 0, 3, fun k => if k = 0 then 1 else if k = 1 then 0 else 3,
    fun _ => "", 0, fun _ => ""⟩

/-- The result of `feedTestPlan` on the empty block for `labelledPlan` and
`labelledDraws`. -/
def labelledRun : ExpectedResult × FeederSource :=
  match feedTestPlan empty ⟨int32, 0, 0⟩ (some labelledPlan) labelledDraws with
  | .ok r => r
  | .error _ => (⟨none, none, none, none⟩, empty)

/-- The number of elements available from the front of the buffer queue, as `work`
computes it: zero when the queue is empty. -/
def frontElements (self : FeederSource) (outputPort : OutputPort) : Nat :=
  match self._buffers with
  | [] => 0
  | b :: _ => b.length / outputPort.dtype.size

/-- The label test of `work`: the index is below the element count already emitted
plus the elements available from the front buffer. -/
def labelDue (self : FeederSource) (outputPort : OutputPort) (l : Label) : Bool :=
  decide (l.index < frontElements self outputPort + outputPort.totalElements)

/-- The label as `work` posts it: the index made relative to the element count already
emitted. -/
def rebase (outputPort : OutputPort) (l : Label) : Label :=
  { l with index := subU64 l.index outputPort.totalElements }

/-- Whether a call on the output port posts a label. -/
def Posted.isLabel : Posted → Bool
  | Posted.label _ => true
  | _ => false

/-- A block with one buffer of two `int32` elements queued and nothing else. -/
def oneBuffer : FeederSource := ⟨[⟨int32, 8, [Element.int 0, Element.int 0]⟩], [], [], []⟩

/-- A block with one buffer of two `int32` elements and three labels at the absolute
indexes 5, 6 and 9. -/
def sortedLabels : FeederSource :=
  ⟨[⟨int32, 8, [Element.int 0, Element.int 0]⟩], [⟨"a", "", 5⟩, ⟨"b", "", 6⟩, ⟨"c", "", 9⟩],
    [], []⟩

/-! ## Further definitions of the plan builder -/

/-- The draws of `indexDist` lie in its range `[0, totalElements - 1]`, for the total
that the buffer section reaches (the distribution is built only for a positive total). -/
def ValidIndexDraws (elemDType : DType) (testPlan : TestPlan) (gen : RandomDraws) : Prop :=
  ∀ st, generateBuffers elemDType testPlan gen = .ok st → 0 < st.totalElements →
    ∀ lblno, (gen.indexDist lblno : Int) < st.totalElements

/-- Source line 172: `valueSize = (1 << elemDType.size()*8)`, an `int` of 32 bits. A
shift by 32 bits or more is undefined in C++: for such a width the value that the
machine yields is the parameter `undefinedShift`, some `int`. -/
def valueSize (elemDType : DType) (undefinedShift : Int) : Int :=
  if elemDType.size * 8 < 32 then 2 ^ (elemDType.size * 8) else undefinedShift

/-- Source line 173: `signedOff = elemDType.isSigned() ? valueSize/2 : 0`. -/
def signedOff (elemDType : DType) (undefinedShift : Int) : Int :=
  if elemDType.isSigned then (valueSize elemDType undefinedShift).tdiv 2 else 0

/-- Lower bound of `valueDist` (source line 175). -/
def valueDistA (elemDType : DType) (testPlan : TestPlan) (undefinedShift : Int) : Int :=
  TestPlan.value testPlan.minValue (-signedOff elemDType undefinedShift)

/-- Upper bound of `valueDist` (source line 176). -/
def valueDistB (elemDType : DType) (testPlan : TestPlan) (undefinedShift : Int) : Int :=
  TestPlan.value testPlan.maxValue
    (valueSize elemDType undefinedShift - signedOff elemDType undefinedShift - 1)

/-- The block after a `feedTestPlan` call (source lines 125-339), together with the
outcome of the call. The generated entities are held in the local vectors `labels`,
`buffers`, `messages` and `packets` until they are fed in source lines 333-336: a call
that throws before that point leaves the block as it found it. -/
def feedTestPlanCall (self : FeederSource) (outputPort : OutputPort)
    (testPlan : Option TestPlan) (gen : RandomDraws) :
    FeederSource × Except Exception ExpectedResult :=
  match testPlan with
  | none => (self, .error Exception.parseError)
  | some testPlan =>
    match generateBuffers outputPort.dtype testPlan gen with
    | .error e => (self, .error e)
    | .ok bs =>
      match generateLabels outputPort testPlan gen bs with
      | .error e => (self, .error e)
      | .ok ls =>
        let messages := generateMessages testPlan gen
        let expectedResult : ExpectedResult :=
          { expectedValues := whenUsed bs.expectedValues
            expectedLabels := whenUsed ls.expectedLabels
            expectedMessages := whenUsed messages
            expectedPackets := whenUsed ls.expectedPackets }
        let self := ls.labels.foldl feedLabel self
        let self := bs.buffers.foldl feedBuffer self
        let self := (messages.map Object.string).foldl feedMessage self
        let self := ls.packets.foldl feedPacket self
        (self, .ok expectedResult)

end FeederSource

/-! ## Draining into the output port -/

/-- Modelled from the spec: the output channel, which "reports the cumulative element
count already emitted". After a `work` call the count has grown by the element count
`length / dtype.size()` of every buffer that the call posted; labels and messages add
nothing. -/
def OutputPort.afterWork (outputPort : OutputPort) (posted : List Posted) : OutputPort :=
  { outputPort with
    totalElements := outputPort.totalElements +
      (posted.map (fun x =>
        match x with
        | Posted.buffer b => b.length / outputPort.dtype.size
        | _ => 0)).sum }

namespace FeederSource

/-- Outcome of a sequence of `work` calls: the block and the output port afterwards, and
every call made on the output port, in order, paired with the element count already
emitted at the moment of the call. -/
structure DrainResult where
  self : FeederSource
  outputPort : OutputPort
  trace : List (Nat × Posted)
deriving DecidableEq, Repr

/-- Invoke `work` until the buffer queue is empty, at most `calls` times. -/
def drainBuffers : Nat → FeederSource → OutputPort → DrainResult
  | 0, self, outputPort => ⟨self, outputPort, []⟩
  | calls + 1, self, outputPort =>
    if self._buffers = [] then ⟨self, outputPort, []⟩
    else
      let w := work self outputPort
      let d := drainBuffers calls w.self (outputPort.afterWork w.posted)
      ⟨d.self, d.outputPort, w.posted.map (fun x => (outputPort.totalElements, x)) ++ d.trace⟩

end FeederSource

/-! ## The `Repeat` block (`src/stream/Repeat.cpp`) -/

/-- The `Repeat` block: the element width in bytes and the repeat count (private
members). -/
structure Repeat where
  _dtypeSize : Nat
  _repeatCount : Nat
deriving DecidableEq, Repr

namespace Repeat

/-- Source lines 77-81: the inner loop, with `remaining` copies to go. A buffer is the
list of its elements; appending `x` stands for the `memcpy` of the `_dtypeSize` bytes of
one element to `buffOut`, which then advances by one element. -/
def innerLoop {α : Type} (x : α) : Nat → List α → List α
  | 0, buffOut => buffOut
  | remaining + 1, buffOut => innerLoop x remaining (buffOut ++ [x])

/-- Source lines 75-84: the outer loop over the input elements from `buffIn` on. -/
def outerLoop {α : Type} (repeatCount : Nat) : List α → List α → List α
  | [], buffOut => buffOut
  | x :: buffIn, buffOut => outerLoop repeatCount buffIn (innerLoop x repeatCount buffOut)

/-- Outcome of one `work` call: the number of input elements consumed and the buffers
posted on the output port. -/
structure WorkResult (α : Type) where
  consumed : Nat
  posted : List (List α)

/-- The step `Repeat::work` (source lines 61-90); `input` holds the elements available
on the input port, whose number is `minInElements`. -/
def work {α : Type} (self : Repeat) (input : List α) : WorkResult α :=
  let elemsIn := input.length
  if 0 = elemsIn then ⟨0, []⟩
  else ⟨elemsIn, [outerLoop self._repeatCount (input.take elemsIn) []]⟩

end Repeat

namespace FeederSource

/-! ## Further definitions used in the statements and proofs -/

/-- The buffers posted in a trace, in order. -/
def postedBuffers (trace : List (Nat × Posted)) : List BufferChunk :=
  trace.filterMap (fun x =>
    match x.2 with
    | Posted.buffer b => some b
    | _ => none)

/-- The labels posted in a trace, in order, each with the element count already emitted
at the moment of posting. -/
def postedLabels (trace : List (Nat × Posted)) : List (Nat × Label) :=
  trace.filterMap (fun x =>
    match x.2 with
    | Posted.label l => some (x.1, l)
    | _ => none)

/-- The label with its posted index made absolute again by the element count emitted at
the moment of posting. -/
def absolute (x : Nat × Label) : Label := { x.2 with index := x.2.index + x.1 }

/-- The element counts that `work` computes for the buffers of a queue. -/
def queuedElements (outputPort : OutputPort) (buffers : List BufferChunk) : Nat :=
  (buffers.map (fun b => b.length / outputPort.dtype.size)).sum

/-- The samples recorded for consecutive buffers from buffer `bufno` on, given their
element counts: for each buffer the draws of `valueDist` for its elements, in order. -/
def samplesFrom (gen : RandomDraws) : Nat → List Nat → List (List Sample)
  | _, [] => []
  | bufno, n :: counts =>
    (List.range n).map (gen.valueDist bufno) :: samplesFrom gen (bufno + 1) counts

/-- The boundary configuration on a 4-byte element type with `bufferMultiple` 4: one
buffer of 4 bytes. -/
def boundaryMultiplePlan : TestPlan :=
  { enableBuffers := some true
    minBuffers := some 1
    maxBuffers := some 1
    minBufferSize := some 4
    maxBufferSize := some 4
    bufferMultiple := some 4 }

/-- The boundary configuration on a 4-byte element type with the default multiples. -/
def boundaryPlan : TestPlan :=
  { enableBuffers := some true
    minBuffers := some 1
    maxBuffers := some 1
    minBufferSize := some 4
    maxBufferSize := some 4 }

/-- Draws for the boundary configurations: one buffer, one element drawn, every sample
0. -/
def boundaryDraws : RandomDraws :=
  ⟨1, fun _ => 1, fun _ _ => 0, 0, fun _ => 0, fun _ => "", 0, fun _ => ""⟩

/-- The element type `uint32`. -/
def uint32 : DType := ⟨4, false, false⟩

/-- The element type `float64`. -/
def float64 : DType := ⟨8, true, true⟩

/-- A configuration whose buffers are too small for one element of 8 bytes: one buffer
of 4 bytes. -/
def emptyBufferPlan : TestPlan :=
  { enableBuffers := some true
    minBuffers := some 1
    maxBuffers := some 1
    minBufferSize := some 4
    maxBufferSize := some 4 }

/-- Draws for `emptyBufferPlan` on an element type of 8 bytes: one buffer, no element. -/
def emptyBufferDraws : RandomDraws :=
  ⟨1, fun _ => 0, fun _ _ => 0, 0, fun _ => 0, fun _ => "", 0, fun _ => ""⟩

/-- Draws for `scenarioPlan` on an element type of 8 bytes: two buffers, one element
drawn for each, every sample 0. -/
def wideDraws : RandomDraws :=
  ⟨2, fun _ => 1, fun _ _ => 0, 0, fun _ => 0, fun _ => "", 0, fun _ => ""⟩

/-- A configuration in buffer mode with labels: two buffers of 8 bytes, three label
draws. -/
def roundTripPlan : TestPlan :=
  { enableBuffers := some true
    enableLabels := some true
    minBuffers := some 2
    maxBuffers := some 2
    minBufferSize := some 8
    maxBufferSize := some 8
    minLabels := some 3
    maxLabels := some 3 }

/-- The result of `feedTestPlan` on the empty block for `roundTripPlan` and
`labelledDraws`, with 5 elements already emitted. -/
def roundTripRun : ExpectedResult × FeederSource :=
  match feedTestPlan empty ⟨int32, 5, 0⟩ (some roundTripPlan) labelledDraws with
  | .ok r => r
  | .error _ => (⟨none, none, none, none⟩, empty)

/-- A block with one label at the absolute index 0 queued and nothing else. -/
def onlyLabel : FeederSource := ⟨[], [⟨"a", "", 0⟩], [], []⟩

/-- A block with one label at the absolute index 0 and one message queued. -/
def labelAndMessage : FeederSource := ⟨[], [⟨"a", "", 0⟩], [Object.string "m"], []⟩

/-- Three packets with payloads of 2, 0 and 3 elements of `int32` and no labels. -/
def threePackets : List Packet :=
  [⟨⟨int32, 8, [Element.int 0, Element.int 0]⟩, []⟩, ⟨⟨int32, 0, []⟩, []⟩,
    ⟨⟨int32, 12, [Element.int 0, Element.int 0, Element.int 0]⟩, []⟩]

end FeederSource

/-! ## The binary file source (`src/file/BinaryFileSource.cpp`) and the memory mapped
container (`src/file/MemoryMappedBufferContainer.cpp`) -/

/-- The exceptions thrown by `BinaryFileSource` and `MemoryMappedBufferContainer`. -/
inductive FileError where
  | runtimeException
  | fileNotFoundException
  | fileAccessDeniedException
  | fileReadOnlyException
  | invalidArgumentException
  | openFileException
  | ioException
  | fileException
deriving DecidableEq, Repr

/-- What the operating system answers about one path: the answers of `Poco::File`
(`exists`, `canRead`, `canWrite`, `getSize`) and the results of `::open`, `::mmap` and
`::close` for the given access. -/
structure FileStatus where
  fileExists : Bool
  canRead : Bool
  canWrite : Bool
  getSize : Nat
  openResult : Bool → Bool → Int
  mmapResult : Bool → Bool → Nat
  closeResult : Int

/-- The file system as the block sees it: the status of every path. -/
abbrev FileSystem := String → FileStatus

/-- The pointer `MAP_FAILED`, `(void *) -1`, as an address. -/
def MAP_FAILED : Nat := 2 ^ 64 - 1

/-- A shared buffer of the framework that is not null (`Pothos::SharedBuffer`): its
address and its length in bytes. The null buffer is `none` of
`Option SharedBuffer`. -/
structure SharedBuffer where
  address : Nat
  length : Nat
deriving DecidableEq, Repr

namespace MemoryMappedBufferContainer

/-- The constructor of `MemoryMappedBufferContainer::Impl` (source lines 48-83): the
mapped `_buffer` and `_length`, or the exception thrown. -/
def Impl (fs : FileSystem) (filepath : String) (readable writable : Bool) :
    Except FileError SharedBuffer :=
  let _length := (fs filepath).getSize
  if _length = 0 then .error FileError.invalidArgumentException
  else
    let fd := (fs filepath).openResult readable writable
    if fd < 0 then .error FileError.openFileException
    else
      let _buffer := (fs filepath).mmapResult readable writable
      if _buffer = 0 ∨ _buffer = MAP_FAILED then .error FileError.ioException
      else if (fs filepath).closeResult < 0 then .error FileError.fileException
      else .ok ⟨_buffer, _length⟩

/-- The factory `MemoryMappedBufferContainer::make` with the checks of the constructor
(source lines 120-149). -/
def make (fs : FileSystem) (filepath : String) (readable writable : Bool) :
    Except FileError SharedBuffer :=
  if !(fs filepath).fileExists then .error FileError.fileNotFoundException
  else if readable && !(fs filepath).canRead then .error FileError.fileAccessDeniedException
  else if writable && !(fs filepath).canWrite then .error FileError.fileReadOnlyException
  else Impl fs filepath readable writable

end MemoryMappedBufferContainer

/-- The state of a `BinaryFileSource` block (source lines 126-133). -/
structure BinaryFileSource where
  _path : String
  _mmapSharedBuff : Option SharedBuffer
  _rewind : Bool
  _offset : Nat
  _dtype : DType
  _workedOnce : Bool
deriving DecidableEq, Repr

namespace BinaryFileSource

/-- The constructor (source lines 64-74). -/
def make (dtype : DType) : BinaryFileSource := ⟨"", none, false, 0, dtype, false⟩

/-- The setter `setAutoRewind` (source lines 83-86). -/
def setAutoRewind (self : BinaryFileSource) (rewind : Bool) : BinaryFileSource :=
  { self with _rewind := rewind }

/-- The call `activate` (source lines 88-99): the block after the call and whether the
call returned; when the container cannot be made the exception leaves before
`_mmapSharedBuff` is assigned. -/
def activate (fs : FileSystem) (self : BinaryFileSource) :
    BinaryFileSource × Except FileError Unit :=
  match MemoryMappedBufferContainer.make fs self._path true false with
  | .error e => (self, .error e)
  | .ok containerSPtr => ({ self with _mmapSharedBuff := some containerSPtr }, .ok ())

/-- The call `deactivate` (source lines 101-104). -/
def deactivate (self : BinaryFileSource) : BinaryFileSource :=
  { self with _mmapSharedBuff := none }

/-- The setter `setFilePath` (source lines 76-81). -/
def setFilePath (fs : FileSystem) (self : BinaryFileSource) (path : String) :
    BinaryFileSource × Except FileError Unit :=
  activate fs (deactivate { self with _path := path })

/-- A `Pothos::BufferChunk` made from a whole shared buffer, with its element type. -/
structure Chunk where
  buffer : SharedBuffer
  dtype : DType
deriving DecidableEq, Repr

/-- Outcome of a `work` call that returns: the block afterwards and the buffers posted
on output port 0. -/
structure WorkResult where
  self : BinaryFileSource
  posted : List Chunk
deriving DecidableEq, Repr

/-- The call `BinaryFileSource::work` (source lines 106-123); `minElements` is
`workInfo().minElements`. -/
def work (self : BinaryFileSource) (minElements : Nat) : Except FileError WorkResult :=
  match self._mmapSharedBuff with
  | none => .error FileError.runtimeException
  | some buff =>
    if 0 = minElements then .ok ⟨self, []⟩
    else if !self._rewind && self._workedOnce then .ok ⟨self, []⟩
    else .ok ⟨{ self with _workedOnce := true }, [⟨buff, self._dtype⟩]⟩

/-- One call on the block from outside. -/
inductive Call where
  | work (minElements : Nat)
  | setFilePath (path : String)
  | setAutoRewind (rewind : Bool)
deriving DecidableEq, Repr

/-- What the caller sees of one call: a buffer posted, a plain return, or an
exception. -/
inductive Outcome where
  | posted (chunk : Chunk)
  | returned
  | raised (e : FileError)
deriving DecidableEq, Repr

/-- One call on the block: the block afterwards and the outcome. A `work` call that
throws leaves the block as it was. -/
def call (fs : FileSystem) (self : BinaryFileSource) : Call → BinaryFileSource × Outcome
  | Call.work minElements =>
    match work self minElements with
    | .error e => (self, Outcome.raised e)
    | .ok ⟨self, []⟩ => (self, Outcome.returned)
    | .ok ⟨self, chunk :: _⟩ => (self, Outcome.posted chunk)
  | Call.setFilePath path =>
    match setFilePath fs self path with
    | (self, .error e) => (self, Outcome.raised e)
    | (self, .ok _) => (self, Outcome.returned)
  | Call.setAutoRewind rewind => (setAutoRewind self rewind, Outcome.returned)

/-- A sequence of calls on the block, in order: the block afterwards and the outcome of
every call. -/
def run (fs : FileSystem) : BinaryFileSource → List Call → BinaryFileSource × List Outcome
  | self, [] => (self, [])
  | self, c :: rest =>
    let r := call fs self c
    let s := run fs r.1 rest
    (s.1, r.2 :: s.2)

/-- The buffers posted among a list of outcomes, in order. -/
def postedChunks : List Outcome → List Chunk
  | [] => []
  | Outcome.posted chunk :: rest => chunk :: postedChunks rest
  | _ :: rest => postedChunks rest

/-- A file system in which the paths `"a"` and `"b"` name readable files of 16 and 32
bytes, mapped at the addresses 4096 and 8192, and no other path exists. -/
def twoFiles : FileSystem := fun path =>
  if path = "a" then ⟨true, true, false, 16, fun _ _ => 3, fun _ _ => 4096, 0⟩
  else if path = "b" then ⟨true, true, false, 32, fun _ _ => 3, fun _ _ => 8192, 0⟩
  else ⟨false, false, false, 0, fun _ _ => -1, fun _ _ => MAP_FAILED, -1⟩

/-- The block made for `int32` after the call `setFilePath "a"` in `twoFiles`. -/
def mappedA : BinaryFileSource := (setFilePath twoFiles (make FeederSource.int32) "a").1

end BinaryFileSource

namespace FeederSource

/-! ## Lemmas on the plan builder -/

/-- A returning element loop stores exactly `n` elements. -/
theorem fillElements_length (elemDType : DType) (valueDist : Nat → Sample) :
    ∀ (n i : Nat) (data : List Element),
      fillElements elemDType valueDist n i = .ok data → data.length = n := by
  intro n
  induction n with
  | zero =>
    intro i data h
    simp only [fillElements] at h
    cases h
    rfl
  | succ n ih =>
    intro i data h
    simp only [fillElements] at h
    split at h
    · cases h
    · split at h
      · cases h
      · rename_i xs hxs
        cases h
        simp [ih _ _ hxs]

/-- What a returning buffer loop leaves: the total grows by the sum of the counts chosen,
no count is negative, and one buffer per count is appended, to the buffers or, as a
packet payload without labels, to the packets. -/
theorem bufferLoop_ok (elemDType : DType) (enablePackets : Bool)
    (a b bufferMultiple totalMultiple : Int) (gen : RandomDraws) (numBuffs : Nat)
    (hsize : elemDType.size ≠ 0) :
    ∀ (remaining bufno : Nat) (st st' : BufferState),
      bufferLoop elemDType enablePackets a b bufferMultiple totalMultiple gen numBuffs
        remaining bufno st = .ok st' →
      st'.totalElements = st.totalElements +
        (numElemsFrom a b bufferMultiple totalMultiple gen numBuffs remaining bufno
          st.totalElements).sum ∧
      (∀ n ∈ numElemsFrom a b bufferMultiple totalMultiple gen numBuffs remaining bufno
          st.totalElements, 0 ≤ n) ∧
      ∃ bs : List BufferChunk,
        bs.map BufferChunk.elements =
          (numElemsFrom a b bufferMultiple totalMultiple gen numBuffs remaining bufno
            st.totalElements).map Int.toNat ∧
        (if enablePackets then
          st'.buffers = st.buffers ∧ st'.packets = st.packets ++ bs.map (fun b => ⟨b, []⟩)
        else st'.buffers = st.buffers ++ bs ∧ st'.packets = st.packets) := by
  intro remaining
  induction remaining with
  | zero =>
    intro bufno st st' h
    simp only [bufferLoop] at h
    cases h
    refine ⟨by simp [numElemsFrom], by simp [numElemsFrom], [], by simp [numElemsFrom], ?_⟩
    split <;> simp
  | succ remaining ih =>
    intro bufno st st' h
    simp only [bufferLoop] at h
    simp only [numElemsFrom]
    generalize padLast bufno numBuffs st.totalElements
      (roundToMultiple (gen.elementsDist bufno) bufferMultiple a b) totalMultiple = n at h ⊢
    split at h
    · cases h
    split at h
    · cases h
    split at h
    · cases h
    split at h
    · cases h
    rename_i hbm hz hneg data hdata
    have key : ∀ st1 : BufferState, st1.totalElements = st.totalElements + n →
        bufferLoop elemDType enablePackets a b bufferMultiple totalMultiple gen numBuffs
          remaining (bufno + 1) st1 = .ok st' →
        st'.totalElements = st.totalElements +
            (n :: numElemsFrom a b bufferMultiple totalMultiple gen numBuffs remaining
              (bufno + 1) (st.totalElements + n)).sum ∧
          (∀ m ∈ n :: numElemsFrom a b bufferMultiple totalMultiple gen numBuffs remaining
              (bufno + 1) (st.totalElements + n), 0 ≤ m) ∧
          ∃ bs : List BufferChunk,
            bs.map BufferChunk.elements =
              (numElemsFrom a b bufferMultiple totalMultiple gen numBuffs remaining
                (bufno + 1) (st.totalElements + n)).map Int.toNat ∧
            (if enablePackets then
              st'.buffers = st1.buffers ∧ st'.packets = st1.packets ++ bs.map (fun b => ⟨b, []⟩)
            else st'.buffers = st1.buffers ++ bs ∧ st'.packets = st1.packets) := by
      intro st1 ht hl
      obtain ⟨h1, h2, bs, h3, h4⟩ := ih _ _ _ hl
      rw [ht] at h1 h2 h3
      refine ⟨?_, ?_, bs, h3, h4⟩
      · rw [h1, List.sum_cons]; ring
      · intro m hm
        rcases List.mem_cons.mp hm with hm | hm
        · rw [hm]; omega
        · exact h2 m hm
    have hel : BufferChunk.elements ⟨elemDType, n.toNat * elemDType.size, data⟩ = n.toNat := by
      simp only [BufferChunk.elements]
      exact Nat.mul_div_cancel _ (Nat.pos_of_ne_zero hsize)
    split at h
    · rename_i hp
      obtain ⟨h1, h2, bs, h3, h4⟩ := key _ rfl h
      simp only [hp, if_true] at h4 ⊢
      refine ⟨h1, h2, (⟨elemDType, n.toNat * elemDType.size, data⟩ : BufferChunk) :: bs, ?_,
        h4.1, ?_⟩
      · simp only [List.map_cons, h3, hel]
      · rw [h4.2]; simp
    · rename_i hp
      obtain ⟨h1, h2, bs, h3, h4⟩ := key _ rfl h
      simp only [hp] at h4 ⊢
      simp only [Bool.false_eq_true, if_false] at h4 ⊢
      refine ⟨h1, h2, (⟨elemDType, n.toNat * elemDType.size, data⟩ : BufferChunk) :: bs, ?_,
        ?_, h4.2⟩
      · simp only [List.map_cons, h3, hel]
      · rw [h4.1]; simp

/-- The element loop returns for the element widths 1, 2 and 4. -/
theorem fillElements_ok (elemDType : DType) (valueDist : Nat → Sample)
    (hsize : elemDType.size = 1 ∨ elemDType.size = 2 ∨ elemDType.size = 4) :
    ∀ (n i : Nat), ∃ data, fillElements elemDType valueDist n i = .ok data := by
  intro n
  induction n with
  | zero => intro i; exact ⟨[], rfl⟩
  | succ n ih =>
    intro i
    obtain ⟨xs, hxs⟩ := ih (i + 1)
    have henc : ∃ x, encode elemDType (valueDist i) = .ok x := by
      unfold encode
      rcases hsize with h | h | h
      · exact ⟨_, if_pos h⟩
      · rw [if_neg (by omega), if_pos h]; exact ⟨_, rfl⟩
      · rw [if_neg (by omega), if_neg (by omega), if_pos h]
        split <;> exact ⟨_, rfl⟩
    obtain ⟨x, hx⟩ := henc
    exact ⟨x :: xs, by simp only [fillElements, hx, hxs]⟩

/-- The buffer loop returns when the element width is 1, 2 or 4, no multiple is zero
and no count is negative. -/
theorem bufferLoop_returns (elemDType : DType) (enablePackets : Bool)
    (a b bufferMultiple totalMultiple : Int) (gen : RandomDraws) (numBuffs : Nat)
    (hsize : elemDType.size = 1 ∨ elemDType.size = 2 ∨ elemDType.size = 4)
    (hbm : bufferMultiple ≠ 0) (htm : totalMultiple ≠ 0) :
    ∀ (remaining bufno : Nat) (st : BufferState),
      (∀ n ∈ numElemsFrom a b bufferMultiple totalMultiple gen numBuffs remaining bufno
          st.totalElements, 0 ≤ n) →
      ∃ st', bufferLoop elemDType enablePackets a b bufferMultiple totalMultiple gen numBuffs
        remaining bufno st = .ok st' := by
  intro remaining
  induction remaining with
  | zero => intro bufno st _; exact ⟨st, rfl⟩
  | succ remaining ih =>
    intro bufno st hpos
    simp only [numElemsFrom] at hpos
    simp only [bufferLoop]
    generalize padLast bufno numBuffs st.totalElements
      (roundToMultiple (gen.elementsDist bufno) bufferMultiple a b) totalMultiple = n at hpos ⊢
    have hn : 0 ≤ n := hpos n (List.mem_cons_self _ _)
    obtain ⟨data, hdata⟩ := fillElements_ok elemDType (gen.valueDist bufno) hsize n.toNat 0
    rw [if_neg hbm, if_neg (by tauto), if_neg (by omega)]
    simp only [hdata]
    split
    · exact ih _ _ (fun m hm => hpos m (List.mem_cons_of_mem _ hm))
    · exact ih _ _ (fun m hm => hpos m (List.mem_cons_of_mem _ hm))

/-- Feeding a list of buffers appends it to the buffer queue. -/
theorem foldl_feedBuffer (l : List BufferChunk) :
    ∀ self : FeederSource,
      l.foldl feedBuffer self = { self with _buffers := self._buffers ++ l } := by
  induction l with
  | nil => intro self; simp
  | cons x l ih => intro self; simp [List.foldl_cons, ih, feedBuffer]

/-- Feeding a list of labels appends it to the label queue. -/
theorem foldl_feedLabel (l : List Label) :
    ∀ self : FeederSource,
      l.foldl feedLabel self = { self with _labels := self._labels ++ l } := by
  induction l with
  | nil => intro self; simp
  | cons x l ih => intro self; simp [List.foldl_cons, ih, feedLabel]

/-- Feeding a list of messages appends it to the message queue. -/
theorem foldl_feedMessage (l : List Object) :
    ∀ self : FeederSource,
      l.foldl feedMessage self = { self with _messages := self._messages ++ l } := by
  induction l with
  | nil => intro self; simp
  | cons x l ih => intro self; simp [List.foldl_cons, ih, feedMessage]

/-- Feeding a list of packets appends it to the packet queue. -/
theorem foldl_feedPacket (l : List Packet) :
    ∀ self : FeederSource,
      l.foldl feedPacket self = { self with _packets := self._packets ++ l } := by
  induction l with
  | nil => intro self; simp
  | cons x l ih => intro self; simp [List.foldl_cons, ih, feedPacket]

/-- What a returning `feedTestPlan` call leaves in the queues and in the golden
description, in terms of the three sections. -/
theorem feedTestPlan_ok (self : FeederSource) (outputPort : OutputPort) (testPlan : TestPlan)
    (gen : RandomDraws) (r : ExpectedResult × FeederSource)
    (h : feedTestPlan self outputPort (some testPlan) gen = .ok r) :
    ∃ bs ls, generateBuffers outputPort.dtype testPlan gen = .ok bs ∧
      generateLabels outputPort testPlan gen bs = .ok ls ∧
      r.1 = ⟨whenUsed bs.expectedValues, whenUsed ls.expectedLabels,
        whenUsed (generateMessages testPlan gen), whenUsed ls.expectedPackets⟩ ∧
      r.2 = ⟨self._buffers ++ bs.buffers, self._labels ++ ls.labels,
        self._messages ++ (generateMessages testPlan gen).map Object.string,
        self._packets ++ ls.packets⟩ := by
  simp only [feedTestPlan] at h
  split at h
  · cases h
  rename_i bs hbs
  split at h
  · cases h
  rename_i ls hls
  cases h
  refine ⟨bs, ls, hbs, hls, rfl, ?_⟩
  simp only [foldl_feedBuffer, foldl_feedLabel, foldl_feedMessage, foldl_feedPacket]

/-- A `feedTestPlan` call returns when its buffer and label sections do. -/
theorem feedTestPlan_returns (self : FeederSource) (outputPort : OutputPort)
    (testPlan : TestPlan) (gen : RandomDraws) (bs : BufferState) (ls : LabelState)
    (hbs : generateBuffers outputPort.dtype testPlan gen = .ok bs)
    (hls : generateLabels outputPort testPlan gen bs = .ok ls) :
    ∃ r, feedTestPlan self outputPort (some testPlan) gen = .ok r := by
  simp only [feedTestPlan, hbs, hls]
  exact ⟨_, rfl⟩

/-- With buffers or packets enabled and a non-zero element width, the buffer section is
the buffer loop run from the initial state. -/
theorem generateBuffers_eq (elemDType : DType) (testPlan : TestPlan) (gen : RandomDraws)
    (hen : TestPlan.value testPlan.enableBuffers false = true ∨
      TestPlan.value testPlan.enablePackets false = true)
    (hsize : elemDType.size ≠ 0) :
    generateBuffers elemDType testPlan gen =
      bufferLoop elemDType (TestPlan.value testPlan.enablePackets false)
        (elementsDistA elemDType testPlan) (elementsDistB elemDType testPlan)
        (bufferMultiple testPlan) (totalMultiple testPlan) gen (toSizeT gen.bufferDist)
        (toSizeT gen.bufferDist) 0 ⟨0, [], [], [], []⟩ := by
  simp only [generateBuffers]
  rw [if_pos hen, if_neg hsize]

/-- Without labels enabled the label section leaves everything as the buffer section
made it. -/
theorem generateLabels_disabled (outputPort : OutputPort) (testPlan : TestPlan)
    (gen : RandomDraws) (bs : BufferState)
    (hen : TestPlan.value testPlan.enableLabels false = false) :
    generateLabels outputPort testPlan gen bs = .ok ⟨[], bs.expectedPackets, [], bs.packets⟩ := by
  simp [generateLabels, hen]

/-! ## Lemmas on the rounding step -/

/-- Rounding a non-negative count up to a multiple of `m ≥ 1`: the result is a
multiple of `m`, at least the count and less than the count plus `m`. -/
theorem roundUp_bounds (n m : Int) (hn : 0 ≤ n) (hm : 1 ≤ m) :
    n ≤ (n + m - 1).tdiv m * m ∧ (n + m - 1).tdiv m * m < n + m := by
  rw [Int.tdiv_eq_ediv (by omega) (by omega)]
  have h1 := Int.emod_add_ediv (n + m - 1) m
  have h2 : 0 ≤ (n + m - 1) % m := Int.emod_nonneg _ (by omega)
  have h3 : (n + m - 1) % m < m := Int.emod_lt_of_pos _ (by omega)
  have h4 : (n + m - 1) / m * m = m * ((n + m - 1) / m) := mul_comm _ _
  constructor <;> omega

/-- On a draw `n` within non-negative bounds `a ≤ n ≤ b` and with `m ≥ 1`, the rounding
step returns the rounded-up count or that count minus `m`, and never a negative count. -/
theorem roundToMultiple_nonneg (n m a b : Int) (hm : 1 ≤ m) (ha : 0 ≤ a) (han : a ≤ n)
    (hnb : n ≤ b) : 0 ≤ roundToMultiple n m a b := by
  obtain ⟨h1, h2⟩ := roundUp_bounds n m (by omega) hm
  obtain ⟨q, hq⟩ : m ∣ (n + m - 1).tdiv m * m := dvd_mul_left _ _
  unfold roundToMultiple
  simp only
  generalize (n + m - 1).tdiv m * m = r at h1 h2 hq ⊢
  have hr : r > b → m ≤ r := by
    intro hb
    have hqpos : 1 ≤ q := by
      by_contra hcon
      have : m * q ≤ m * 0 := mul_le_mul_of_nonneg_left (by omega) (by omega)
      omega
    have : m * 1 ≤ m * q := mul_le_mul_of_nonneg_left hqpos (by omega)
    omega
  split_ifs <;> omega

/-- When the range `[a, b]` holds a multiple of `m`, the rounding step returns a count
within the range. -/
theorem roundToMultiple_mem (n m a b : Int) (hm : 1 ≤ m) (ha : 0 ≤ a) (han : a ≤ n)
    (hnb : n ≤ b) (hmul : ∃ c, a ≤ c ∧ c ≤ b ∧ m ∣ c) :
    a ≤ roundToMultiple n m a b ∧ roundToMultiple n m a b ≤ b := by
  obtain ⟨h1, h2⟩ := roundUp_bounds n m (by omega) hm
  obtain ⟨q, hq⟩ : m ∣ (n + m - 1).tdiv m * m := dvd_mul_left _ _
  obtain ⟨c, hac, hcb, k, hk⟩ := hmul
  unfold roundToMultiple
  simp only
  generalize (n + m - 1).tdiv m * m = r at h1 h2 hq ⊢
  have hr : r > b → a ≤ r - m := by
    intro hb
    have hkq : k + 1 ≤ q := by
      by_contra hcon
      have : m * q ≤ m * k := mul_le_mul_of_nonneg_left (by omega) (by omega)
      omega
    have : m * (k + 1) ≤ m * q := mul_le_mul_of_nonneg_left hkq (by omega)
    have hexp : m * (k + 1) = m * k + m := by ring
    omega
  split_ifs <;> omega

/-! ## Lemmas on the element counts -/

/-- The rounding step always returns a multiple of `bufferMultiple`. -/
theorem roundToMultiple_dvd (numElems bufferMultiple a b : Int) :
    bufferMultiple ∣ roundToMultiple numElems bufferMultiple a b := by
  have h0 : bufferMultiple ∣ ((numElems + bufferMultiple - 1).tdiv bufferMultiple) * bufferMultiple :=
    dvd_mul_left _ _
  unfold roundToMultiple
  simp only
  split_ifs
  · exact dvd_add (dvd_sub h0 (dvd_refl _)) (dvd_refl _)
  · exact dvd_sub h0 (dvd_refl _)
  · exact dvd_add h0 (dvd_refl _)
  · exact h0

/-- The padding step adds a padding to the count: the padding is non-negative and
below `totalMultiple`, it is zero on every buffer but the last, and on the last buffer
it makes the running total a multiple of `totalMultiple` when that total is not
negative. -/
theorem padLast_spec (bufno numBuffs : Nat) (totalElements numElems totalMultiple : Int)
    (htm : 1 ≤ totalMultiple) :
    ∃ pad : Int, padLast bufno numBuffs totalElements numElems totalMultiple = numElems + pad ∧
      0 ≤ pad ∧ pad < totalMultiple ∧ (bufno + 1 ≠ numBuffs → pad = 0) ∧
      (bufno + 1 = numBuffs → 0 ≤ totalElements + numElems →
        totalMultiple ∣ totalElements + (numElems + pad)) := by
  unfold padLast
  have hu : toUnsigned totalMultiple = totalMultiple := by
    unfold toUnsigned
    rw [if_neg (by omega)]
  by_cases hlast : bufno + 1 = numBuffs
  · simp only [hlast, if_true, hu]
    have hnn : 0 ≤ toUnsigned (totalElements + numElems) % totalMultiple :=
      Int.emod_nonneg _ (by omega)
    have hlt : toUnsigned (totalElements + numElems) % totalMultiple < totalMultiple :=
      Int.emod_lt_of_pos _ (by omega)
    by_cases hex : toUnsigned (totalElements + numElems) % totalMultiple = 0
    · refine ⟨0, by simp [hex], le_refl _, by omega, fun h => absurd rfl h, fun _ hpos => ?_⟩
      have hs : toUnsigned (totalElements + numElems) = totalElements + numElems := by
        unfold toUnsigned
        rw [if_neg (by omega)]
      rw [hs] at hex
      rw [add_zero]
      exact Int.dvd_of_emod_eq_zero hex
    · refine ⟨totalMultiple - toUnsigned (totalElements + numElems) % totalMultiple,
        by simp [hex], by omega, by omega, fun h => absurd rfl h, fun _ hpos => ?_⟩
      have hs : toUnsigned (totalElements + numElems) = totalElements + numElems := by
        unfold toUnsigned
        rw [if_neg (by omega)]
      rw [hs]
      have hdiv := Int.emod_add_ediv (totalElements + numElems) totalMultiple
      refine ⟨(totalElements + numElems) / totalMultiple + 1, ?_⟩
      linear_combination -hdiv
  · simp only [hlast, if_false]
    exact ⟨0, by simp, le_refl _, by omega, fun _ => rfl, fun h => absurd h (by simp)⟩

/-- One count is chosen per buffer. -/
theorem numElemsFrom_length (a b bufferMultiple totalMultiple : Int) (gen : RandomDraws)
    (numBuffs : Nat) :
    ∀ (remaining bufno : Nat) (totalElements : Int),
      (numElemsFrom a b bufferMultiple totalMultiple gen numBuffs remaining bufno
        totalElements).length = remaining := by
  intro remaining
  induction remaining with
  | zero => intro _ _; rfl
  | succ remaining ih => intro _ _; simp [numElemsFrom, ih]

/-- The `k`-th count is the padding step applied to the rounded `k`-th draw. -/
theorem numElemsFrom_getElem? (a b bufferMultiple totalMultiple : Int) (gen : RandomDraws)
    (numBuffs : Nat) :
    ∀ (remaining bufno : Nat) (totalElements : Int) (k : Nat), k < remaining →
      ∃ t : Int,
        (numElemsFrom a b bufferMultiple totalMultiple gen numBuffs remaining bufno
          totalElements)[k]? =
        some (padLast (bufno + k) numBuffs t
          (roundToMultiple (gen.elementsDist (bufno + k)) bufferMultiple a b) totalMultiple) := by
  intro remaining
  induction remaining with
  | zero => intro _ _ k hk; omega
  | succ remaining ih =>
    intro bufno totalElements k hk
    cases k with
    | zero => exact ⟨totalElements, by simp [numElemsFrom]⟩
    | succ k =>
      obtain ⟨t, ht⟩ := ih (bufno + 1) (totalElements + padLast bufno numBuffs totalElements
        (roundToMultiple (gen.elementsDist bufno) bufferMultiple a b) totalMultiple) k (by omega)
      refine ⟨t, ?_⟩
      simp only [numElemsFrom, List.getElem?_cons_succ]
      rw [ht, show bufno + 1 + k = bufno + (k + 1) by omega]

/-- Modifying one entry of a list by a function that keeps `g` keeps the list of `g`
values. -/
theorem map_modify_of_eq {α β : Type} (g : α → β) (f : α → α) (hf : ∀ x, g (f x) = g x) :
    ∀ (l : List α) (n : Nat), (List.modify f n l).map g = l.map g := by
  intro l
  induction l with
  | nil => intro n; simp
  | cons x l ih =>
    intro n
    cases n with
    | zero => simp [hf]
    | succ n => simp [ih]

/-- The label loop leaves the payload of every packet as it was. -/
theorem labelLoop_payload (enablePackets : Bool) (outputPort : OutputPort) (gen : RandomDraws) :
    ∀ (indexes : List Nat) (k : Nat) (st st' : LabelState),
      labelLoop enablePackets outputPort gen indexes k st = .ok st' →
      st'.packets.map Packet.payload = st.packets.map Packet.payload := by
  intro indexes
  induction indexes with
  | nil =>
    intro k st st' h
    simp only [labelLoop] at h
    cases h
    rfl
  | cons index rest ih =>
    intro k st st' h
    simp only [labelLoop] at h
    split at h
    · split at h
      · rw [ih _ _ _ h]
        exact map_modify_of_eq Packet.payload (Packet.pushLabel _) (fun _ => rfl) _ _
      · cases h
    · rw [ih _ _ _ h]

/-- The label section leaves the payload of every packet as it was. -/
theorem generateLabels_payload (outputPort : OutputPort) (testPlan : TestPlan)
    (gen : RandomDraws) (bs : BufferState) (ls : LabelState)
    (h : generateLabels outputPort testPlan gen bs = .ok ls) :
    ls.packets.map Packet.payload = bs.packets.map Packet.payload := by
  simp only [generateLabels] at h
  split at h
  · exact labelLoop_payload _ _ _ _ _ _ _ h
  · cases h
    rfl

/-- The buffers generated by a returning `feedTestPlan` call: their element counts are
the counts chosen by the buffer section, none of which is negative; they are queued as
buffers, or as packet payloads in packet mode. -/
theorem feedTestPlan_generated (self : FeederSource) (outputPort : OutputPort)
    (testPlan : TestPlan) (gen : RandomDraws) (r : ExpectedResult × FeederSource)
    (h : feedTestPlan self outputPort (some testPlan) gen = .ok r) :
    ∃ (bs : List BufferChunk) (st : BufferState),
      generateBuffers outputPort.dtype testPlan gen = .ok st ∧
      st.totalElements = (numElemsChosen outputPort.dtype testPlan gen).sum ∧
      bs.map BufferChunk.elements = (numElemsChosen outputPort.dtype testPlan gen).map Int.toNat ∧
      (∀ n ∈ numElemsChosen outputPort.dtype testPlan gen, 0 ≤ n) ∧
      (if TestPlan.value testPlan.enablePackets false = true then
        r.2._buffers = self._buffers ∧
          r.2._packets.map Packet.payload = self._packets.map Packet.payload ++ bs
      else r.2._buffers = self._buffers ++ bs ∧ r.2._packets = self._packets) := by
  obtain ⟨st, ls, h1, h2, -, h4⟩ := feedTestPlan_ok self outputPort testPlan gen r h
  have hpay := generateLabels_payload outputPort testPlan gen st ls h2
  by_cases hen : TestPlan.value testPlan.enableBuffers false = true ∨
      TestPlan.value testPlan.enablePackets false = true
  · have hsize : outputPort.dtype.size ≠ 0 := by
      intro hz
      simp only [generateBuffers] at h1
      rw [if_pos hen, if_pos hz] at h1
      cases h1
    have hloop := h1
    rw [generateBuffers_eq _ _ _ hen hsize] at hloop
    obtain ⟨ht, hpos, bs, hbs, hq⟩ := bufferLoop_ok _ _ _ _ _ _ _ _ hsize _ _ _ _ hloop
    simp only [zero_add] at ht
    have hc : numElemsChosen outputPort.dtype testPlan gen = _ := if_pos hen
    rw [hc]
    refine ⟨bs, st, h1, ht, hbs, hpos, ?_⟩
    rw [h4]
    by_cases hp : TestPlan.value testPlan.enablePackets false = true
    · simp only [hp, if_true] at hq ⊢
      rw [hq.1, List.map_append, hpay, hq.2]
      have hid : List.map (Packet.payload ∘ fun b => (⟨b, []⟩ : Packet)) bs = bs := by
        rw [show (Packet.payload ∘ fun b => (⟨b, []⟩ : Packet)) = id from rfl, List.map_id]
      simp [hid]
    · have hp' : TestPlan.value testPlan.enablePackets false = false := by
        simpa using hp
      have hlp : ls.packets = [] := by
        have : st.packets = [] := by
          rw [hp'] at hq
          simpa using hq.2
        rw [this] at hpay
        simpa using hpay
      simp only [hp', Bool.false_eq_true, if_false] at hq ⊢
      rw [hq.1, hlp]
      simp
  · have hc : numElemsChosen outputPort.dtype testPlan gen = [] := if_neg hen
    rw [hc]
    have hst : st = ⟨0, [], [], [], []⟩ := by
      simp only [generateBuffers] at h1
      rw [if_neg hen] at h1
      cases h1
      rfl
    have hlp : ls.packets = [] := by
      rw [hst] at hpay
      simpa using hpay
    have hp' : ¬ TestPlan.value testPlan.enablePackets false = true := fun hp => hen (Or.inr hp)
    refine ⟨[], st, h1, by rw [hst]; rfl, rfl, by simp, ?_⟩
    rw [if_neg hp', h4, hst, hlp]
    simp

/-- The counts of the generated buffers, as integers, are the counts chosen. -/
theorem map_toNat_cast (l : List Int) (hpos : ∀ n ∈ l, 0 ≤ n) :
    (l.map Int.toNat).map (fun n : Nat => (n : Int)) = l := by
  induction l with
  | nil => rfl
  | cons x l ih =>
    simp only [List.map_cons, List.cons.injEq]
    exact ⟨Int.toNat_of_nonneg (hpos x (List.mem_cons_self _ _)),
      ih (fun n hn => hpos n (List.mem_cons_of_mem _ hn))⟩

/-- With `bufferMultiple ≥ 1`, `totalMultiple ≥ 1` and draws within non-negative bounds,
no count chosen is negative. -/
theorem numElemsFrom_nonneg (a b bufferMultiple totalMultiple : Int) (gen : RandomDraws)
    (numBuffs : Nat) (hbm : 1 ≤ bufferMultiple) (htm : 1 ≤ totalMultiple) (ha : 0 ≤ a)
    (hgen : ∀ bufno, a ≤ gen.elementsDist bufno ∧ gen.elementsDist bufno ≤ b) :
    ∀ (remaining bufno : Nat) (totalElements : Int),
      ∀ n ∈ numElemsFrom a b bufferMultiple totalMultiple gen numBuffs remaining bufno
        totalElements, 0 ≤ n := by
  intro remaining
  induction remaining with
  | zero => intro _ _ n hn; simp [numElemsFrom] at hn
  | succ remaining ih =>
    intro bufno totalElements n hn
    simp only [numElemsFrom, List.mem_cons] at hn
    rcases hn with hn | hn
    · obtain ⟨pad, h1, h2, -, -, -⟩ := padLast_spec bufno numBuffs totalElements
        (roundToMultiple (gen.elementsDist bufno) bufferMultiple a b) totalMultiple htm
      have := roundToMultiple_nonneg (gen.elementsDist bufno) bufferMultiple a b hbm ha
        (hgen bufno).1 (hgen bufno).2
      omega
    · exact ih _ _ n hn

/-- With `bufferMultiple ≥ 1`, `totalMultiple ≥ 1` and draws within non-negative bounds,
when the loop runs to the last buffer the final total is a multiple of `totalMultiple`. -/
theorem numElemsFrom_sum_dvd (a b bufferMultiple totalMultiple : Int) (gen : RandomDraws)
    (numBuffs : Nat) (hbm : 1 ≤ bufferMultiple) (htm : 1 ≤ totalMultiple) (ha : 0 ≤ a)
    (hgen : ∀ bufno, a ≤ gen.elementsDist bufno ∧ gen.elementsDist bufno ≤ b) :
    ∀ (remaining bufno : Nat) (totalElements : Int), 0 ≤ totalElements →
      bufno + (remaining + 1) = numBuffs →
      totalMultiple ∣ totalElements +
        (numElemsFrom a b bufferMultiple totalMultiple gen numBuffs (remaining + 1) bufno
          totalElements).sum := by
  intro remaining
  induction remaining with
  | zero =>
    intro bufno totalElements htot hlast
    have hr := roundToMultiple_nonneg (gen.elementsDist bufno) bufferMultiple a b hbm ha
      (hgen bufno).1 (hgen bufno).2
    obtain ⟨pad, h1, -, -, -, h5⟩ := padLast_spec bufno numBuffs totalElements
      (roundToMultiple (gen.elementsDist bufno) bufferMultiple a b) totalMultiple htm
    simp only [numElemsFrom, List.sum_cons, List.sum_nil, add_zero]
    rw [h1]
    exact h5 (by omega) (by omega)
  | succ remaining ih =>
    intro bufno totalElements htot hlast
    have hr := roundToMultiple_nonneg (gen.elementsDist bufno) bufferMultiple a b hbm ha
      (hgen bufno).1 (hgen bufno).2
    obtain ⟨pad, h1, h2, -, -, -⟩ := padLast_spec bufno numBuffs totalElements
      (roundToMultiple (gen.elementsDist bufno) bufferMultiple a b) totalMultiple htm
    have := ih (bufno + 1) (totalElements + padLast bufno numBuffs totalElements
      (roundToMultiple (gen.elementsDist bufno) bufferMultiple a b) totalMultiple) (by omega)
      (by omega)
    rw [numElemsFrom, List.sum_cons, ← add_assoc]
    exact this

/-- The count of the `k`-th generated buffer is the rounded `k`-th draw plus a padding
that is non-negative, below `totalMultiple`, and zero on every buffer but the last. -/
theorem numElemsChosen_getElem (elemDType : DType) (testPlan : TestPlan) (gen : RandomDraws)
    (htm : 1 ≤ totalMultiple testPlan) (bs : List BufferChunk)
    (hbs : bs.map BufferChunk.elements = (numElemsChosen elemDType testPlan gen).map Int.toNat)
    (hpos : ∀ n ∈ numElemsChosen elemDType testPlan gen, 0 ≤ n)
    (k : Nat) (hk : k < bs.length) :
    ∃ pad : Int,
      ((bs[k]).elements : Int) =
        roundToMultiple (gen.elementsDist k) (bufferMultiple testPlan)
          (elementsDistA elemDType testPlan) (elementsDistB elemDType testPlan) + pad ∧
      0 ≤ pad ∧ pad < totalMultiple testPlan ∧ (k + 1 ≠ bs.length → pad = 0) := by
  have hlen : bs.length = (numElemsChosen elemDType testPlan gen).length := by
    have := congrArg List.length hbs
    simpa using this
  have hk' : k < (numElemsChosen elemDType testPlan gen).length := by omega
  have hel : (bs[k]).elements = ((numElemsChosen elemDType testPlan gen)[k]).toNat := by
    have h1 : (bs.map BufferChunk.elements)[k]? =
        ((numElemsChosen elemDType testPlan gen).map Int.toNat)[k]? := by rw [hbs]
    simp only [List.getElem?_map, List.getElem?_eq_getElem hk, List.getElem?_eq_getElem hk',
      Option.map_some'] at h1
    exact Option.some.inj h1
  have hnn : 0 ≤ (numElemsChosen elemDType testPlan gen)[k] := hpos _ (List.getElem_mem _)
  rw [hel, Int.toNat_of_nonneg hnn]
  unfold numElemsChosen at hk' hlen ⊢
  split at hk'
  · rename_i hen
    simp only [if_pos hen] at hlen ⊢
    rw [numElemsFrom_length] at hk' hlen
    obtain ⟨t, ht⟩ := numElemsFrom_getElem? (elementsDistA elemDType testPlan)
      (elementsDistB elemDType testPlan) (bufferMultiple testPlan) (totalMultiple testPlan) gen
      (toSizeT gen.bufferDist) (toSizeT gen.bufferDist) 0 0 k hk'
    rw [List.getElem?_eq_getElem (by rw [numElemsFrom_length]; exact hk')] at ht
    rw [Option.some.inj ht]
    obtain ⟨pad, h1, h2, h3, h4, -⟩ := padLast_spec (0 + k) (toSizeT gen.bufferDist) t
      (roundToMultiple (gen.elementsDist (0 + k)) (bufferMultiple testPlan)
        (elementsDistA elemDType testPlan) (elementsDistB elemDType testPlan))
      (totalMultiple testPlan) htm
    rw [Nat.zero_add] at h1 h4
    rw [Nat.zero_add]
    exact ⟨pad, h1, h2, h3, fun hne => h4 (by omega)⟩
  · simp at hk'

/-! ## Lemmas on the label section -/

/-- The walk ends inside the list of packets exactly when the index is below the total
payload length. -/
theorem packetWalk_lt_iff (packets : List Packet) :
    ∀ (i j : Nat),
      (packetWalk packets i j).2 < j + packets.length ↔ i < (payloadElements packets).sum := by
  induction packets with
  | nil => intro i j; simp [packetWalk, payloadElements]
  | cons p rest ih =>
    intro i j
    simp only [packetWalk, payloadElements, List.map_cons, List.sum_cons, List.length_cons]
    split
    · rename_i hlt
      simp only
      constructor
      · intro _; omega
      · intro _; omega
    · rename_i hge
      have := ih (i - p.payload.elements) (j + 1)
      simp only [payloadElements] at this
      constructor
      · intro h
        have := this.mp (by omega)
        omega
      · intro h
        have := this.mpr (by omega)
        omega

/-- A walk that ends inside the list of packets ends at a packet whose payload holds the
relative index, and the payloads before that packet hold the rest of the index. -/
theorem packetWalk_spec (packets : List Packet) :
    ∀ (i j : Nat), i < (payloadElements packets).sum →
      ∃ q e, (packetWalk packets i j).2 = j + q ∧ (payloadElements packets)[q]? = some e ∧
        (packetWalk packets i j).1 < e ∧ packetOffset packets q + (packetWalk packets i j).1 = i := by
  induction packets with
  | nil => intro i j h; simp [payloadElements] at h
  | cons p rest ih =>
    intro i j h
    simp only [payloadElements, List.map_cons, List.sum_cons] at h
    simp only [packetWalk]
    split
    · rename_i hlt
      exact ⟨0, p.payload.elements, rfl, by simp [payloadElements], hlt,
        by simp [packetOffset]⟩
    · rename_i hge
      obtain ⟨q, e, h1, h2, h3, h4⟩ := ih (i - p.payload.elements) (j + 1)
        (by simp only [payloadElements]; omega)
      refine ⟨q + 1, e, by omega, by simpa [payloadElements] using h2, h3, ?_⟩
      simp only [packetOffset, payloadElements, List.map_cons, List.take_succ_cons,
        List.sum_cons] at h4 ⊢
      omega

/-- One step of the label loop in packet mode, when the walk ends inside the list of
packets: the label is pushed on the packet where the walk ends. -/
theorem labelLoop_packet_step (outputPort : OutputPort) (gen : RandomDraws) (st : LabelState)
    (i k : Nat) (rest : List Nat)
    (hlt : (packetWalk st.packets i 0).2 < st.packets.length) :
    labelLoop true outputPort gen (i :: rest) k st =
      labelLoop true outputPort gen rest (k + 1)
        { st with
          expectedPackets :=
            st.expectedPackets.modify
              (ExpectedPacket.pushLabel
                ⟨(packetWalk st.packets i 0).1, gen.labelData k, "id" ++ toString i⟩)
              (packetWalk st.packets i 0).2
          packets :=
            st.packets.modify
              (Packet.pushLabel
                ⟨"id" ++ toString i, gen.labelData k, (packetWalk st.packets i 0).1⟩)
              (packetWalk st.packets i 0).2 } := by
  rw [labelLoop]
  simp only [if_true]
  rw [if_pos hlt]

/-- The draws that survive are pairwise distinct. -/
theorem drawLabelIndexes_nodup (indexDist : Nat → Nat) :
    ∀ (remaining lblno : Nat) (labelIndexes : List Nat), labelIndexes.Nodup →
      (drawLabelIndexes indexDist remaining lblno labelIndexes).Nodup := by
  intro remaining
  induction remaining with
  | zero => intro _ _ h; exact h
  | succ remaining ih =>
    intro lblno labelIndexes h
    simp only [drawLabelIndexes]
    split
    · exact ih _ _ h
    · rename_i hmem
      refine ih _ _ (List.Nodup.append h (List.nodup_singleton _) ?_)
      intro x hx hx'
      rw [List.mem_singleton] at hx'
      exact hmem (hx' ▸ hx)

/-- The sorted label indexes strictly ascend. -/
theorem labelIndexes_pairwise (gen : RandomDraws) :
    (labelIndexes gen).Pairwise (fun x y => x < y) := by
  unfold labelIndexes
  have hs := List.sorted_insertionSort (fun x y : Nat => x ≤ y)
    (drawLabelIndexes gen.indexDist (toSizeT gen.labelDist) 0 [])
  have hn : (List.insertionSort (fun x y : Nat => x ≤ y)
      (drawLabelIndexes gen.indexDist (toSizeT gen.labelDist) 0 [])).Nodup :=
    (List.perm_insertionSort _ _).nodup_iff.mpr
      (drawLabelIndexes_nodup _ _ _ _ List.nodup_nil)
  exact hs.lt_of_le hn

/-- The label loop in buffer mode queues one label per index, in order, with the index
offset by the element count already emitted, and leaves the packets as they were. -/
theorem labelLoop_buffer_mode (outputPort : OutputPort) (gen : RandomDraws) :
    ∀ (indexes : List Nat) (k : Nat) (st st' : LabelState),
      labelLoop false outputPort gen indexes k st = .ok st' →
      st'.labels.map Label.index =
        st.labels.map Label.index ++ indexes.map (fun i => i + outputPort.totalElements) ∧
      st'.packets = st.packets := by
  intro indexes
  induction indexes with
  | nil =>
    intro k st st' h
    simp only [labelLoop] at h
    cases h
    simp
  | cons i rest ih =>
    intro k st st' h
    simp only [labelLoop, Bool.false_eq_true, if_false] at h
    obtain ⟨h1, h2⟩ := ih _ _ _ h
    exact ⟨by rw [h1]; simp, h2⟩

/-- The label loop in packet mode leaves the label list as it was. -/
theorem labelLoop_packet_mode_labels (outputPort : OutputPort) (gen : RandomDraws) :
    ∀ (indexes : List Nat) (k : Nat) (st st' : LabelState),
      labelLoop true outputPort gen indexes k st = .ok st' → st'.labels = st.labels := by
  intro indexes
  induction indexes with
  | nil =>
    intro k st st' h
    simp only [labelLoop] at h
    cases h
    rfl
  | cons i rest ih =>
    intro k st st' h
    by_cases hlt : (packetWalk st.packets i 0).2 < st.packets.length
    · rw [labelLoop_packet_step outputPort gen st i k rest hlt] at h
      exact (ih _ _ _ h).trans rfl
    · simp only [labelLoop, if_true] at h
      rw [if_neg hlt] at h
      cases h

/-- Pushing a label on a packet keeps the payload element counts. -/
theorem payloadElements_modify (lbl : Label) (n : Nat) (packets : List Packet) :
    payloadElements (packets.modify (Packet.pushLabel lbl) n) = payloadElements packets :=
  map_modify_of_eq (fun p : Packet => p.payload.elements) (Packet.pushLabel lbl)
    (fun _ => rfl) _ _

/-- One step of the label loop in packet mode keeps the invariant, for an index at
least the bound. -/
theorem labelsBelow_step (packets : List Packet) (bound i : Nat) (id data : String)
    (hinv : LabelsBelow packets bound) (hb : bound ≤ i)
    (hlt : (packetWalk packets i 0).2 < packets.length) :
    LabelsBelow
      (packets.modify (Packet.pushLabel ⟨id, data, (packetWalk packets i 0).1⟩)
        (packetWalk packets i 0).2) (i + 1) := by
  have hi : i < (payloadElements packets).sum := by
    have := (packetWalk_lt_iff packets i 0).mp (by omega)
    exact this
  obtain ⟨q0, e, h1, -, -, h4⟩ := packetWalk_spec packets i 0 hi
  rw [Nat.zero_add] at h1
  intro q p hq
  rw [List.getElem?_modify] at hq
  have hoff : packetOffset (packets.modify (Packet.pushLabel
      ⟨id, data, (packetWalk packets i 0).1⟩) (packetWalk packets i 0).2) q =
      packetOffset packets q := by
    unfold packetOffset
    rw [payloadElements_modify]
  rw [hoff]
  cases hpq : packets[q]? with
  | none => rw [hpq] at hq; cases hq
  | some p0 =>
    rw [hpq] at hq
    simp only [Option.map_eq_map, Option.map_some', Option.some.injEq] at hq
    obtain ⟨hpw, hbelow⟩ := hinv q p0 hpq
    by_cases hqp : (packetWalk packets i 0).2 = q
    · rw [if_pos hqp] at hq
      subst hq
      simp only [Packet.pushLabel, List.map_append, List.map_cons, List.map_nil]
      constructor
      · rw [List.pairwise_append]
        refine ⟨hpw, List.pairwise_singleton _ _, ?_⟩
        intro x hx y hy
        rw [List.mem_singleton] at hy
        obtain ⟨l, hl, rfl⟩ := List.mem_map.mp hx
        have := hbelow l hl
        rw [hy]
        rw [← hqp, h1] at this
        omega
      · intro l hl
        rcases List.mem_append.mp hl with hl | hl
        · have := hbelow l hl
          omega
        · rw [List.mem_singleton] at hl
          rw [hl, ← hqp, h1]
          simp only
          omega
    · rw [if_neg hqp] at hq
      subst hq
      exact ⟨hpw, fun l hl => by have := hbelow l hl; omega⟩

/-- The label loop in packet mode, run on strictly ascending indexes that are at least
the bound, keeps the invariant for some bound. -/
theorem labelLoop_labelsBelow (outputPort : OutputPort) (gen : RandomDraws) :
    ∀ (indexes : List Nat) (k : Nat) (st st' : LabelState) (bound : Nat),
      indexes.Pairwise (fun x y => x < y) → (∀ i ∈ indexes, bound ≤ i) →
      LabelsBelow st.packets bound →
      labelLoop true outputPort gen indexes k st = .ok st' →
      ∃ bound', LabelsBelow st'.packets bound' := by
  intro indexes
  induction indexes with
  | nil =>
    intro k st st' bound _ _ hinv h
    simp only [labelLoop] at h
    cases h
    exact ⟨bound, hinv⟩
  | cons i rest ih =>
    intro k st st' bound hpw hb hinv h
    by_cases hlt : (packetWalk st.packets i 0).2 < st.packets.length
    · rw [labelLoop_packet_step outputPort gen st i k rest hlt] at h
      rw [List.pairwise_cons] at hpw
      refine ih _ _ _ (i + 1) hpw.2 (fun j hj => hpw.1 j hj) ?_ h
      exact labelsBelow_step st.packets bound i _ _ hinv (hb i (List.mem_cons_self _ _)) hlt
    · simp only [labelLoop, if_true] at h
      rw [if_neg hlt] at h
      cases h

/-- Packets without labels satisfy the invariant. -/
theorem labelsBelow_of_no_labels (packets : List Packet) (h : ∀ p ∈ packets, p.labels = []) :
    LabelsBelow packets 0 := by
  intro q p hq
  have hp := h p (List.getElem?_mem hq)
  rw [hp]
  exact ⟨List.Pairwise.nil, fun l hl => by simp at hl⟩

/-- The packets made by the buffer section carry no label. -/
theorem generateBuffers_no_labels (elemDType : DType) (testPlan : TestPlan) (gen : RandomDraws)
    (st : BufferState) (h : generateBuffers elemDType testPlan gen = .ok st) :
    ∀ p ∈ st.packets, p.labels = [] := by
  by_cases hen : TestPlan.value testPlan.enableBuffers false = true ∨
      TestPlan.value testPlan.enablePackets false = true
  · have hsize : elemDType.size ≠ 0 := by
      intro hz
      simp only [generateBuffers] at h
      rw [if_pos hen, if_pos hz] at h
      cases h
    rw [generateBuffers_eq _ _ _ hen hsize] at h
    obtain ⟨-, -, bs, -, hq⟩ := bufferLoop_ok _ _ _ _ _ _ _ _ hsize _ _ _ _ h
    intro p hp
    split at hq
    · rw [hq.2] at hp
      simp only [List.nil_append, List.mem_map] at hp
      obtain ⟨b, -, rfl⟩ := hp
      rfl
    · rw [hq.2] at hp
      simp at hp
  · simp only [generateBuffers] at h
    rw [if_neg hen] at h
    cases h
    intro p hp
    simp at hp

/-! ## Lemmas on the drain step -/

/-- The label loop posts the longest prefix of due labels, rebased, and leaves the rest. -/
theorem workLabels_eq (self : FeederSource) (outputPort : OutputPort) :
    ∀ labels : List Label,
      workLabels self._buffers outputPort labels =
        (((labels.takeWhile (labelDue self outputPort)).map (rebase outputPort)).map Posted.label,
          labels.dropWhile (labelDue self outputPort)) := by
  intro labels
  induction labels with
  | nil => rfl
  | cons front rest ih =>
    simp only [workLabels, List.takeWhile_cons, List.dropWhile_cons]
    by_cases hdue : front.index <
        (match self._buffers with
          | [] => 0
          | b :: _ => b.length / outputPort.dtype.size) + outputPort.totalElements
    · have hd : labelDue self outputPort front = true := by
        simp only [labelDue, frontElements, decide_eq_true_eq]
        exact hdue
      rw [if_neg (by omega), hd, ih]
      rfl
    · have hd : labelDue self outputPort front = false := by
        simp only [labelDue, frontElements, decide_eq_false_iff_not]
        exact hdue
      rw [if_pos (by omega), hd]
      rfl

/-- In a label queue sorted by index, no label left by the label loop is due. -/
theorem dropWhile_not_due (self : FeederSource) (outputPort : OutputPort) :
    ∀ labels : List Label, (labels.map Label.index).Pairwise (fun x y => x ≤ y) →
      ∀ l ∈ labels.dropWhile (labelDue self outputPort),
        frontElements self outputPort + outputPort.totalElements ≤ l.index := by
  intro labels
  induction labels with
  | nil => intro _ l hl; simp at hl
  | cons front rest ih =>
    intro hs l hl
    rw [List.map_cons, List.pairwise_cons] at hs
    rw [List.dropWhile_cons] at hl
    split at hl
    · exact ih hs.2 l hl
    · rename_i hd
      have hfront : frontElements self outputPort + outputPort.totalElements ≤ front.index := by
        simp only [labelDue, decide_eq_true_eq] at hd
        omega
      rcases List.mem_cons.mp hl with hl | hl
      · rw [hl]; exact hfront
      · have := hs.1 l.index (List.mem_map_of_mem _ hl)
        omega

/-! ## Lemmas on returning runs -/

/-- The label loop in buffer mode always returns. -/
theorem labelLoop_buffer_returns (outputPort : OutputPort) (gen : RandomDraws) :
    ∀ (indexes : List Nat) (k : Nat) (st : LabelState),
      ∃ st', labelLoop false outputPort gen indexes k st = .ok st' := by
  intro indexes
  induction indexes with
  | nil => intro k st; exact ⟨st, rfl⟩
  | cons i rest ih =>
    intro k st
    simp only [labelLoop, Bool.false_eq_true, if_false]
    exact ih _ _

/-- The label loop in packet mode returns when every index is below the total payload
length. -/
theorem labelLoop_packet_returns (outputPort : OutputPort) (gen : RandomDraws) :
    ∀ (indexes : List Nat) (k : Nat) (st : LabelState),
      (∀ i ∈ indexes, i < (payloadElements st.packets).sum) →
      ∃ st', labelLoop true outputPort gen indexes k st = .ok st' := by
  intro indexes
  induction indexes with
  | nil => intro k st _; exact ⟨st, rfl⟩
  | cons i rest ih =>
    intro k st hlt
    have hi := hlt i (List.mem_cons_self _ _)
    have hw : (packetWalk st.packets i 0).2 < st.packets.length := by
      have := (packetWalk_lt_iff st.packets i 0).mpr hi
      omega
    rw [labelLoop_packet_step outputPort gen st i k rest hw]
    apply ih
    intro j hj
    simp only [payloadElements_modify]
    exact hlt j (List.mem_cons_of_mem _ hj)

/-- Every surviving label index is one of the draws of `indexDist`. -/
theorem mem_drawLabelIndexes (indexDist : Nat → Nat) :
    ∀ (remaining lblno : Nat) (labelIndexes : List Nat),
      ∀ i ∈ drawLabelIndexes indexDist remaining lblno labelIndexes,
        i ∈ labelIndexes ∨ ∃ k, i = indexDist k := by
  intro remaining
  induction remaining with
  | zero => intro _ _ i hi; exact Or.inl hi
  | succ remaining ih =>
    intro lblno labelIndexes i hi
    simp only [drawLabelIndexes] at hi
    split at hi
    · exact ih _ _ i hi
    · rcases ih _ _ i hi with h | h
      · rcases List.mem_append.mp h with h | h
        · exact Or.inl h
        · exact Or.inr ⟨lblno, List.mem_singleton.mp h⟩
      · exact Or.inr h

/-- Every sorted label index is one of the draws of `indexDist`. -/
theorem mem_labelIndexes (gen : RandomDraws) (i : Nat) (hi : i ∈ labelIndexes gen) :
    ∃ k, i = gen.indexDist k := by
  unfold labelIndexes at hi
  have := (List.perm_insertionSort _ _).mem_iff.mp hi
  rcases mem_drawLabelIndexes _ _ _ _ i this with h | h
  · simp at h
  · exact h

/-- The total reached by the buffer section is the total payload length of the packets
it made, in packet mode. -/
theorem generateBuffers_payload_sum (elemDType : DType) (testPlan : TestPlan)
    (gen : RandomDraws) (st : BufferState)
    (hp : TestPlan.value testPlan.enablePackets false = true)
    (h : generateBuffers elemDType testPlan gen = .ok st) :
    st.totalElements = ((payloadElements st.packets).sum : Nat) := by
  have hen : TestPlan.value testPlan.enableBuffers false = true ∨
      TestPlan.value testPlan.enablePackets false = true := Or.inr hp
  have hsize : elemDType.size ≠ 0 := by
    intro hz
    simp only [generateBuffers] at h
    rw [if_pos hen, if_pos hz] at h
    cases h
  rw [generateBuffers_eq _ _ _ hen hsize] at h
  obtain ⟨ht, hpos, bs, hbs, hq⟩ := bufferLoop_ok _ _ _ _ _ _ _ _ hsize _ _ _ _ h
  rw [hp] at hq
  simp only [if_true, List.nil_append] at hq
  simp only [zero_add] at ht
  rw [ht, hq.2]
  have hpe : payloadElements (bs.map (fun b => (⟨b, []⟩ : Packet))) =
      bs.map BufferChunk.elements := by
    simp [payloadElements, Function.comp_def]
  rw [hpe, hbs]
  have := map_toNat_cast _ hpos
  conv_lhs => rw [← this]
  simp

/-- The label section returns when the index draws are valid. -/
theorem generateLabels_returns (outputPort : OutputPort) (testPlan : TestPlan)
    (gen : RandomDraws) (st : BufferState)
    (h : generateBuffers outputPort.dtype testPlan gen = .ok st)
    (hidx : ValidIndexDraws outputPort.dtype testPlan gen) :
    ∃ ls, generateLabels outputPort testPlan gen st = .ok ls := by
  simp only [generateLabels]
  split
  · rename_i hen
    cases hp : TestPlan.value testPlan.enablePackets false with
    | false => exact labelLoop_buffer_returns _ _ _ _ _
    | true =>
      apply labelLoop_packet_returns
      intro i hi
      obtain ⟨k, rfl⟩ := mem_labelIndexes gen i hi
      have h1 := hidx st h hen.2 k
      have h2 := generateBuffers_payload_sum _ _ _ _ hp h
      simp only at h2 ⊢
      omega
  · exact ⟨_, rfl⟩

/-- The buffer section returns when buffers or packets are enabled, the element width
is 1, 2 or 4, both multiples are at least 1 and the draws of `elementsDist` lie within
non-negative bounds. -/
theorem generateBuffers_returns (elemDType : DType) (testPlan : TestPlan) (gen : RandomDraws)
    (hsize : elemDType.size = 1 ∨ elemDType.size = 2 ∨ elemDType.size = 4)
    (hbm : 1 ≤ bufferMultiple testPlan) (htm : 1 ≤ totalMultiple testPlan)
    (ha : 0 ≤ elementsDistA elemDType testPlan)
    (hgen : ValidBufferDraws elemDType testPlan gen) :
    ∃ st, generateBuffers elemDType testPlan gen = .ok st := by
  by_cases hen : TestPlan.value testPlan.enableBuffers false = true ∨
      TestPlan.value testPlan.enablePackets false = true
  · rw [generateBuffers_eq _ _ _ hen (by omega)]
    exact bufferLoop_returns _ _ _ _ _ _ _ _ hsize (by omega) (by omega) _ _ _
      (numElemsFrom_nonneg _ _ _ _ _ _ hbm htm ha hgen.2 _ _ _)
  · simp only [generateBuffers]
    rw [if_neg hen]
    exact ⟨_, rfl⟩

/-- A `feedTestPlan` call on a parsed configuration returns when the element width is
1, 2 or 4, both multiples are at least 1 and the draws lie in the ranges of their
distributions, the bounds of `elementsDist` being non-negative. -/
theorem feedTestPlan_returns_of_valid (self : FeederSource) (outputPort : OutputPort)
    (testPlan : TestPlan) (gen : RandomDraws)
    (hsize : outputPort.dtype.size = 1 ∨ outputPort.dtype.size = 2 ∨ outputPort.dtype.size = 4)
    (hbm : 1 ≤ bufferMultiple testPlan) (htm : 1 ≤ totalMultiple testPlan)
    (ha : 0 ≤ elementsDistA outputPort.dtype testPlan)
    (hgen : ValidBufferDraws outputPort.dtype testPlan gen)
    (hidx : ValidIndexDraws outputPort.dtype testPlan gen) :
    ∃ r, feedTestPlan self outputPort (some testPlan) gen = .ok r := by
  obtain ⟨st, hst⟩ := generateBuffers_returns _ _ _ hsize hbm htm ha hgen
  obtain ⟨ls, hls⟩ := generateLabels_returns _ _ _ _ hst hidx
  exact feedTestPlan_returns self outputPort testPlan gen st ls hst hls

/-! ## Lemmas on the golden description and on failing runs -/

/-- One list of samples per buffer, as long as the buffer. -/
theorem samplesFrom_lengths (gen : RandomDraws) :
    ∀ (counts : List Nat) (bufno : Nat),
      (samplesFrom gen bufno counts).map List.length = counts := by
  intro counts
  induction counts with
  | nil => intro _; rfl
  | cons n rest ih => intro bufno; simp [samplesFrom, ih]

/-- The samples of all buffers together are as many as the elements. -/
theorem samplesFrom_flatten_length (gen : RandomDraws) (counts : List Nat) (bufno : Nat) :
    (samplesFrom gen bufno counts).flatten.length = counts.sum := by
  rw [List.length_flatten, samplesFrom_lengths]

/-- What a returning buffer loop records in the golden description: in buffer mode the
samples of all buffers are appended to `expectedValues`; in packet mode, entered with
an empty `expectedValues`, one entry per packet with the samples of its payload and no
label is appended to `expectedPackets`, and `expectedValues` ends empty. -/
theorem bufferLoop_golden (elemDType : DType) (enablePackets : Bool)
    (a b bufferMultiple totalMultiple : Int) (gen : RandomDraws) (numBuffs : Nat) :
    ∀ (remaining bufno : Nat) (st st' : BufferState),
      bufferLoop elemDType enablePackets a b bufferMultiple totalMultiple gen numBuffs
        remaining bufno st = .ok st' →
      (enablePackets = false →
        st'.expectedValues = st.expectedValues ++
          (samplesFrom gen bufno ((numElemsFrom a b bufferMultiple totalMultiple gen numBuffs
            remaining bufno st.totalElements).map Int.toNat)).flatten ∧
        st'.expectedPackets = st.expectedPackets) ∧
      (enablePackets = true → st.expectedValues = [] →
        st'.expectedValues = [] ∧
        st'.expectedPackets = st.expectedPackets ++
          (samplesFrom gen bufno ((numElemsFrom a b bufferMultiple totalMultiple gen numBuffs
            remaining bufno st.totalElements).map Int.toNat)).map (fun v => ⟨v, none⟩)) := by
  intro remaining
  induction remaining with
  | zero =>
    intro bufno st st' h
    simp only [bufferLoop] at h
    cases h
    simp [numElemsFrom, samplesFrom]
  | succ remaining ih =>
    intro bufno st st' h
    simp only [bufferLoop] at h
    simp only [numElemsFrom]
    generalize padLast bufno numBuffs st.totalElements
      (roundToMultiple (gen.elementsDist bufno) bufferMultiple a b) totalMultiple = n at h ⊢
    split at h
    · cases h
    split at h
    · cases h
    split at h
    · cases h
    split at h
    · cases h
    split at h
    · rename_i hp
      obtain ⟨-, h2⟩ := ih _ _ _ h
      obtain ⟨h3, h4⟩ := h2 hp rfl
      refine ⟨fun hf => absurd (hp.symm.trans hf) (by decide), fun _ he => ⟨h3, ?_⟩⟩
      rw [h4]
      simp [samplesFrom, he]
    · rename_i hp
      obtain ⟨h1, -⟩ := ih _ _ _ h
      obtain ⟨h3, h4⟩ := h1 (by simpa using hp)
      refine ⟨fun _ => ⟨?_, h4⟩, fun ht => absurd ht hp⟩
      rw [h3]
      simp [samplesFrom]

/-- The label loop leaves the samples of every packet entry as they were. -/
theorem labelLoop_expectedValues (enablePackets : Bool) (outputPort : OutputPort)
    (gen : RandomDraws) :
    ∀ (indexes : List Nat) (k : Nat) (st st' : LabelState),
      labelLoop enablePackets outputPort gen indexes k st = .ok st' →
      st'.expectedPackets.map ExpectedPacket.expectedValues =
        st.expectedPackets.map ExpectedPacket.expectedValues := by
  intro indexes
  induction indexes with
  | nil =>
    intro k st st' h
    simp only [labelLoop] at h
    cases h
    rfl
  | cons index rest ih =>
    intro k st st' h
    simp only [labelLoop] at h
    split at h
    · split at h
      · rw [ih _ _ _ h]
        exact map_modify_of_eq ExpectedPacket.expectedValues (ExpectedPacket.pushLabel _)
          (fun _ => rfl) _ _
      · cases h
    · rw [ih _ _ _ h]

/-- The buffers and the packet payloads made by the buffer loop have the element type
of the output port. -/
theorem bufferLoop_dtype (elemDType : DType) (enablePackets : Bool)
    (a b bufferMultiple totalMultiple : Int) (gen : RandomDraws) (numBuffs : Nat) :
    ∀ (remaining bufno : Nat) (st st' : BufferState),
      bufferLoop elemDType enablePackets a b bufferMultiple totalMultiple gen numBuffs
        remaining bufno st = .ok st' →
      (∀ x ∈ st.buffers, x.dtype = elemDType) →
      ∀ x ∈ st'.buffers, x.dtype = elemDType := by
  intro remaining
  induction remaining with
  | zero =>
    intro bufno st st' h hst
    simp only [bufferLoop] at h
    cases h
    exact hst
  | succ remaining ih =>
    intro bufno st st' h hst
    simp only [bufferLoop] at h
    split at h
    · cases h
    split at h
    · cases h
    split at h
    · cases h
    split at h
    · cases h
    split at h
    · exact ih _ _ _ h hst
    · refine ih _ _ _ h ?_
      intro x hx
      rcases List.mem_append.mp hx with hx | hx
      · exact hst x hx
      · rw [List.mem_singleton.mp hx]

/-- The element loop throws the assertion error on its first element when the element
width is not 1, 2 or 4. -/
theorem fillElements_throws (elemDType : DType) (valueDist : Nat → Sample)
    (hsize : ¬ (elemDType.size = 1 ∨ elemDType.size = 2 ∨ elemDType.size = 4))
    (n i : Nat) :
    fillElements elemDType valueDist (n + 1) i = .error Exception.assertionViolation := by
  have henc : encode elemDType (valueDist i) = .error Exception.assertionViolation := by
    unfold encode
    rw [if_neg (by tauto), if_neg (by tauto), if_neg (by tauto)]
  simp only [fillElements, henc]

/-- The element loop throws nothing but the assertion error, and only when the element
width is not 1, 2 or 4. -/
theorem fillElements_error (elemDType : DType) (valueDist : Nat → Sample) :
    ∀ (n i : Nat) (e : Exception), fillElements elemDType valueDist n i = .error e →
      e = Exception.assertionViolation ∧
        ¬ (elemDType.size = 1 ∨ elemDType.size = 2 ∨ elemDType.size = 4) := by
  intro n i e h
  have hsize : ¬ (elemDType.size = 1 ∨ elemDType.size = 2 ∨ elemDType.size = 4) := by
    intro hcon
    obtain ⟨data, hdata⟩ := fillElements_ok elemDType valueDist hcon n i
    rw [hdata] at h
    cases h
  refine ⟨?_, hsize⟩
  cases n with
  | zero => simp only [fillElements] at h; cases h
  | succ n =>
    rw [fillElements_throws elemDType valueDist hsize] at h
    cases h
    rfl

/-- The buffer loop throws the assertion error only when the element width is not 1, 2
or 4. -/
theorem bufferLoop_assertion (elemDType : DType) (enablePackets : Bool)
    (a b bufferMultiple totalMultiple : Int) (gen : RandomDraws) (numBuffs : Nat) :
    ∀ (remaining bufno : Nat) (st : BufferState),
      bufferLoop elemDType enablePackets a b bufferMultiple totalMultiple gen numBuffs
        remaining bufno st = .error Exception.assertionViolation →
      ¬ (elemDType.size = 1 ∨ elemDType.size = 2 ∨ elemDType.size = 4) := by
  intro remaining
  induction remaining with
  | zero =>
    intro bufno st h
    simp only [bufferLoop] at h
    cases h
  | succ remaining ih =>
    intro bufno st h
    simp only [bufferLoop] at h
    split at h
    · cases h
    split at h
    · cases h
    split at h
    · cases h
    split at h
    · rename_i e he
      exact (fillElements_error _ _ _ _ _ he).2
    split at h
    · exact ih _ _ h
    · exact ih _ _ h

/-- When the element width is not 1, 2 or 4, a returning buffer loop has chosen the
count zero for every buffer. -/
theorem bufferLoop_ok_counts_zero (elemDType : DType) (enablePackets : Bool)
    (a b bufferMultiple totalMultiple : Int) (gen : RandomDraws) (numBuffs : Nat)
    (hsize : ¬ (elemDType.size = 1 ∨ elemDType.size = 2 ∨ elemDType.size = 4)) :
    ∀ (remaining bufno : Nat) (st st' : BufferState),
      bufferLoop elemDType enablePackets a b bufferMultiple totalMultiple gen numBuffs
        remaining bufno st = .ok st' →
      ∀ n ∈ numElemsFrom a b bufferMultiple totalMultiple gen numBuffs remaining bufno
        st.totalElements, n = 0 := by
  intro remaining
  induction remaining with
  | zero => intro _ _ _ _ n hn; simp [numElemsFrom] at hn
  | succ remaining ih =>
    intro bufno st st' h
    simp only [bufferLoop] at h
    simp only [numElemsFrom]
    generalize padLast bufno numBuffs st.totalElements
      (roundToMultiple (gen.elementsDist bufno) bufferMultiple a b) totalMultiple = n at h ⊢
    split at h
    · cases h
    split at h
    · cases h
    split at h
    · cases h
    split at h
    · cases h
    rename_i hbm hz hneg data hdata
    have hn0 : n = 0 := by
      cases hn : n.toNat with
      | zero => omega
      | succ m =>
        rw [hn, fillElements_throws elemDType _ hsize] at hdata
        cases hdata
    intro m hm
    rcases List.mem_cons.mp hm with hm | hm
    · rw [hm]; exact hn0
    · split at h
      · exact ih _ _ _ h m hm
      · exact ih _ _ _ h m hm

/-- When the element width is not 1, 2 or 4, the buffer loop throws the assertion error
at its first buffer if that buffer gets at least one element and no divisor is zero. -/
theorem bufferLoop_throws (elemDType : DType) (enablePackets : Bool)
    (a b bufferMultiple totalMultiple : Int) (gen : RandomDraws) (numBuffs : Nat)
    (hsize : ¬ (elemDType.size = 1 ∨ elemDType.size = 2 ∨ elemDType.size = 4))
    (hbm : bufferMultiple ≠ 0) (htm : totalMultiple ≠ 0)
    (remaining bufno : Nat) (st : BufferState)
    (hpos : 0 < padLast bufno numBuffs st.totalElements
      (roundToMultiple (gen.elementsDist bufno) bufferMultiple a b) totalMultiple) :
    bufferLoop elemDType enablePackets a b bufferMultiple totalMultiple gen numBuffs
      (remaining + 1) bufno st = .error Exception.assertionViolation := by
  simp only [bufferLoop]
  generalize padLast bufno numBuffs st.totalElements
    (roundToMultiple (gen.elementsDist bufno) bufferMultiple a b) totalMultiple = n at hpos ⊢
  rw [if_neg hbm, if_neg (by tauto), if_neg (by omega)]
  obtain ⟨m, hm⟩ : ∃ m, n.toNat = m + 1 := ⟨n.toNat - 1, by omega⟩
  rw [hm, fillElements_throws elemDType _ hsize]

/-- The label loop throws nothing but the out-of-range error. -/
theorem labelLoop_error (enablePackets : Bool) (outputPort : OutputPort) (gen : RandomDraws) :
    ∀ (indexes : List Nat) (k : Nat) (st : LabelState) (e : Exception),
      labelLoop enablePackets outputPort gen indexes k st = .error e →
      e = Exception.outOfRange := by
  intro indexes
  induction indexes with
  | nil =>
    intro k st e h
    simp only [labelLoop] at h
    cases h
  | cons index rest ih =>
    intro k st e h
    simp only [labelLoop] at h
    split at h
    · split at h
      · exact ih _ _ _ h
      · cases h
        rfl
    · exact ih _ _ _ h

/-- What the buffer section records in the golden description. -/
theorem generateBuffers_golden (elemDType : DType) (testPlan : TestPlan) (gen : RandomDraws)
    (st : BufferState) (h : generateBuffers elemDType testPlan gen = .ok st) :
    (TestPlan.value testPlan.enablePackets false = false →
      st.expectedValues =
        (samplesFrom gen 0 ((numElemsChosen elemDType testPlan gen).map Int.toNat)).flatten ∧
      st.expectedPackets = []) ∧
    (TestPlan.value testPlan.enablePackets false = true →
      st.expectedValues = [] ∧
      st.expectedPackets =
        (samplesFrom gen 0 ((numElemsChosen elemDType testPlan gen).map Int.toNat)).map
          (fun v => ⟨v, none⟩)) := by
  by_cases hen : TestPlan.value testPlan.enableBuffers false = true ∨
      TestPlan.value testPlan.enablePackets false = true
  · have hsize : elemDType.size ≠ 0 := by
      intro hz
      simp only [generateBuffers] at h
      rw [if_pos hen, if_pos hz] at h
      cases h
    rw [generateBuffers_eq _ _ _ hen hsize] at h
    have hc : numElemsChosen elemDType testPlan gen = _ := if_pos hen
    rw [hc]
    obtain ⟨h1, h2⟩ := bufferLoop_golden _ _ _ _ _ _ _ _ _ _ _ _ h
    constructor
    · intro hp
      simpa using h1 hp
    · intro hp
      simpa using h2 hp rfl
  · simp only [generateBuffers] at h
    rw [if_neg hen] at h
    cases h
    have hc : numElemsChosen elemDType testPlan gen = [] := if_neg hen
    rw [hc]
    simp [samplesFrom]

/-- The label section leaves the samples of every packet entry as they were. -/
theorem generateLabels_expectedValues (outputPort : OutputPort) (testPlan : TestPlan)
    (gen : RandomDraws) (bs : BufferState) (ls : LabelState)
    (h : generateLabels outputPort testPlan gen bs = .ok ls) :
    ls.expectedPackets.map ExpectedPacket.expectedValues =
      bs.expectedPackets.map ExpectedPacket.expectedValues := by
  simp only [generateLabels] at h
  split at h
  · exact labelLoop_expectedValues _ _ _ _ _ _ _ h
  · cases h
    rfl

/-- The entries of a section of the golden description, present or not. -/
theorem whenUsed_getD {α : Type} (l : List α) : (whenUsed l).getD [] = l := by
  unfold whenUsed
  cases l <;> rfl

/-- A section of the golden description is present exactly when it has an entry. -/
theorem whenUsed_isSome {α : Type} (l : List α) : (whenUsed l).isSome = true ↔ l ≠ [] := by
  unfold whenUsed
  cases l <;> simp

/-- A `feedTestPlan` call fails in its buffer section or in its label section. -/
theorem feedTestPlan_error (self : FeederSource) (outputPort : OutputPort)
    (testPlan : TestPlan) (gen : RandomDraws) (e : Exception)
    (h : feedTestPlan self outputPort (some testPlan) gen = .error e) :
    generateBuffers outputPort.dtype testPlan gen = .error e ∨
    ∃ st, generateBuffers outputPort.dtype testPlan gen = .ok st ∧
      generateLabels outputPort testPlan gen st = .error e := by
  simp only [feedTestPlan] at h
  split at h
  · rename_i e' he
    cases h
    exact Or.inl he
  · rename_i st hst
    split at h
    · rename_i e' he
      cases h
      exact Or.inr ⟨st, hst, he⟩
    · cases h

/-- The outcome of `feedTestPlanCall` is the outcome of `feedTestPlan`. -/
theorem feedTestPlanCall_eq (self : FeederSource) (outputPort : OutputPort)
    (testPlan : Option TestPlan) (gen : RandomDraws) :
    feedTestPlan self outputPort testPlan gen =
      match (feedTestPlanCall self outputPort testPlan gen).2 with
      | .ok expectedResult =>
        .ok (expectedResult, (feedTestPlanCall self outputPort testPlan gen).1)
      | .error e => .error e := by
  unfold feedTestPlan feedTestPlanCall
  cases testPlan with
  | none => rfl
  | some testPlan =>
    simp only
    cases generateBuffers outputPort.dtype testPlan gen with
    | error e => rfl
    | ok bs =>
      simp only
      cases generateLabels outputPort testPlan gen bs with
      | error e => rfl
      | ok ls => rfl

/-! ## Lemmas on draining -/

/-- The labels posted in two traces in a row. -/
theorem postedLabels_append (t1 t2 : List (Nat × Posted)) :
    postedLabels (t1 ++ t2) = postedLabels t1 ++ postedLabels t2 :=
  List.filterMap_append _ _ _

/-- The buffers posted in two traces in a row. -/
theorem postedBuffers_append (t1 t2 : List (Nat × Posted)) :
    postedBuffers (t1 ++ t2) = postedBuffers t1 ++ postedBuffers t2 :=
  List.filterMap_append _ _ _

/-- A label posted with an index at least the element count already emitted gets its
index back when that count is added. -/
theorem absolute_rebase (outputPort : OutputPort) (l : Label)
    (h : outputPort.totalElements ≤ l.index) :
    absolute (outputPort.totalElements, rebase outputPort l) = l := by
  cases l with
  | mk id data index =>
    simp only at h
    simp only [absolute, rebase, subU64, if_pos h, Label.mk.injEq, true_and]
    omega

/-- Draining a block whose labels are sorted and lie in the stream positions of the
queued buffers posts every buffer, in order, and every label, in order, the posted index
of a label being its index minus the element count emitted at the moment of posting. -/
theorem drainBuffers_spec :
    ∀ (buffers : List BufferChunk) (self : FeederSource) (outputPort : OutputPort),
      self._buffers = buffers →
      (self._labels.map Label.index).Pairwise (fun x y => x ≤ y) →
      (∀ l ∈ self._labels, outputPort.totalElements ≤ l.index ∧
        l.index < outputPort.totalElements + queuedElements outputPort buffers) →
      (drainBuffers buffers.length self outputPort).self._buffers = [] ∧
      (drainBuffers buffers.length self outputPort).self._labels = [] ∧
      (drainBuffers buffers.length self outputPort).self._messages = self._messages ∧
      (drainBuffers buffers.length self outputPort).self._packets = self._packets ∧
      postedBuffers (drainBuffers buffers.length self outputPort).trace = buffers ∧
      (postedLabels (drainBuffers buffers.length self outputPort).trace).map absolute =
        self._labels := by
  intro buffers
  induction buffers with
  | nil =>
    intro self outputPort hb _ hl
    have hnil : self._labels = [] := by
      cases hq : self._labels with
      | nil => rfl
      | cons l rest =>
        have := hl l (by rw [hq]; exact List.mem_cons_self _ _)
        simp only [queuedElements, List.map_nil, List.sum_nil] at this
        omega
    simp only [drainBuffers, List.length_nil]
    exact ⟨hb, hnil, trivial, trivial, rfl, by rw [hnil]; rfl⟩
  | cons b rest ih =>
    intro self outputPort hb hs hl
    have hw := workLabels_eq self outputPort self._labels
    have hne : ¬ self._buffers = [] := by rw [hb]; simp
    have hn : frontElements self outputPort = b.length / outputPort.dtype.size := by
      simp only [frontElements, hb]
    have hwork : work self outputPort =
        ⟨{ self with _labels := self._labels.dropWhile (labelDue self outputPort),
                     _buffers := rest },
          ((self._labels.takeWhile (labelDue self outputPort)).map (rebase outputPort)).map
            Posted.label ++ [Posted.buffer b], false⟩ := by
      unfold work
      simp only [hw]
      simp only [hb]
    have hport : (outputPort.afterWork (work self outputPort).posted).totalElements =
        outputPort.totalElements + b.length / outputPort.dtype.size := by
      rw [hwork]
      simp [OutputPort.afterWork, Function.comp_def]
    have hdt : (outputPort.afterWork (work self outputPort).posted).dtype = outputPort.dtype := rfl
    have hq : queuedElements outputPort (b :: rest) =
        b.length / outputPort.dtype.size + queuedElements outputPort rest := by
      simp [queuedElements]
    have hq' : queuedElements (outputPort.afterWork (work self outputPort).posted) rest =
        queuedElements outputPort rest := rfl
    have hdrop : ∀ l ∈ self._labels.dropWhile (labelDue self outputPort),
        l ∈ self._labels := fun l hl' => (List.dropWhile_sublist _).subset hl'
    have hih := ih (work self outputPort).self (outputPort.afterWork (work self outputPort).posted)
      (by rw [hwork])
      (by
        rw [hwork]
        exact List.Pairwise.sublist ((List.dropWhile_sublist _).map _) hs)
      (by
        intro l hl'
        rw [hwork] at hl'
        have h1 := dropWhile_not_due self outputPort self._labels hs l hl'
        have h2 := hl l (hdrop l hl')
        rw [hport, hq']
        rw [hq] at h2
        omega)
    simp only [List.length_cons, drainBuffers, if_neg hne]
    obtain ⟨i1, i2, i3, i4, i5, i6⟩ := hih
    refine ⟨i1, i2, ?_, ?_, ?_, ?_⟩
    · rw [i3, hwork]
    · rw [i4, hwork]
    · rw [postedBuffers_append, i5, hwork]
      simp only [List.map_append, List.map_map, List.map_cons, List.map_nil]
      rw [postedBuffers_append]
      have hnone : postedBuffers (List.map ((fun x => (outputPort.totalElements, x)) ∘
          Posted.label ∘ rebase outputPort)
          (List.takeWhile (labelDue self outputPort) self._labels)) = [] := by
        unfold postedBuffers
        rw [List.filterMap_eq_nil_iff]
        intro x hx
        obtain ⟨l, -, rfl⟩ := List.mem_map.mp hx
        rfl
      rw [hnone]
      rfl
    · rw [postedLabels_append, List.map_append, i6, hwork]
      simp only [List.map_append, List.map_map, List.map_cons, List.map_nil]
      rw [postedLabels_append]
      have hone : postedLabels [(outputPort.totalElements, Posted.buffer b)] = [] := rfl
      rw [hone, List.append_nil]
      have hlab : (postedLabels (List.map ((fun x => (outputPort.totalElements, x)) ∘
          Posted.label ∘ rebase outputPort)
          (List.takeWhile (labelDue self outputPort) self._labels))).map absolute =
          List.takeWhile (labelDue self outputPort) self._labels := by
        have hsub : ∀ l ∈ List.takeWhile (labelDue self outputPort) self._labels,
            outputPort.totalElements ≤ l.index :=
          fun l hl' => (hl l ((List.takeWhile_sublist _).subset hl')).1
        generalize List.takeWhile (labelDue self outputPort) self._labels = ls at hsub
        induction ls with
        | nil => rfl
        | cons l ls ihl =>
          have hl0 := hsub l (List.mem_cons_self _ _)
          simp only [List.map_cons, postedLabels, List.filterMap_cons, Function.comp_apply]
          rw [absolute_rebase outputPort l hl0]
          congr 1
          exact ihl (fun l' hl' => hsub l' (List.mem_cons_of_mem _ hl'))
      rw [hlab, List.takeWhile_append_dropWhile]

/-- In buffer mode every label queued by the label loop has the identifier and the data
of its entry in the golden description, and the index of that entry plus the element
count already emitted. -/
theorem labelLoop_buffer_golden (outputPort : OutputPort) (gen : RandomDraws) :
    ∀ (indexes : List Nat) (k : Nat) (st st' : LabelState),
      labelLoop false outputPort gen indexes k st = .ok st' →
      st.labels.map (fun l => (l.id, l.data, l.index)) =
        st.expectedLabels.map (fun e => (e.id, e.data, outputPort.totalElements + e.index)) →
      st'.labels.map (fun l => (l.id, l.data, l.index)) =
        st'.expectedLabels.map (fun e => (e.id, e.data, outputPort.totalElements + e.index)) := by
  intro indexes
  induction indexes with
  | nil =>
    intro k st st' h hst
    simp only [labelLoop] at h
    cases h
    exact hst
  | cons i rest ih =>
    intro k st st' h hst
    simp only [labelLoop, Bool.false_eq_true, if_false] at h
    refine ih _ _ _ h ?_
    simp only [List.map_append, hst, List.map_cons, List.map_nil]
    rw [Nat.add_comm]

/-- The buffers made by the buffer section have the element type of the output port. -/
theorem generateBuffers_dtype (elemDType : DType) (testPlan : TestPlan) (gen : RandomDraws)
    (st : BufferState) (h : generateBuffers elemDType testPlan gen = .ok st) :
    ∀ x ∈ st.buffers, x.dtype = elemDType := by
  by_cases hen : TestPlan.value testPlan.enableBuffers false = true ∨
      TestPlan.value testPlan.enablePackets false = true
  · have hsize : elemDType.size ≠ 0 := by
      intro hz
      simp only [generateBuffers] at h
      rw [if_pos hen, if_pos hz] at h
      cases h
    rw [generateBuffers_eq _ _ _ hen hsize] at h
    exact bufferLoop_dtype _ _ _ _ _ _ _ _ _ _ _ _ h (by simp)
  · simp only [generateBuffers] at h
    rw [if_neg hen] at h
    cases h
    simp

/-! ## C1: the scenario with `bufferMultiple` 4 on two-element draws -/

/-- C1, counterexample: for the scenario configuration on `int32` and draws within the
ranges of the distributions, `feedTestPlan` queues two buffers of 4 elements each, not
of 2 elements each: the drawn count 2 is rounded up to the multiple 4 of
`bufferMultiple`, which counts elements. -/
theorem scenario_counterexample :
    ValidBufferDraws int32 scenarioPlan scenarioDraws ∧
    (feedTestPlan empty ⟨int32, 0, 0⟩ (some scenarioPlan) scenarioDraws).toOption.map
      (fun r => r.2._buffers.map BufferChunk.elements) = some [4, 4] ∧
    (feedTestPlan empty ⟨int32, 0, 0⟩ (some scenarioPlan) scenarioDraws).toOption.map
      (fun r => r.2._buffers.map BufferChunk.elements) ≠ some [2, 2] := by
  refine ⟨⟨by decide, fun _ => ⟨le_of_eq (by rfl), le_of_eq (by rfl)⟩⟩, by decide, by decide⟩

/-- C1, amended: for the scenario configuration on an element type of 4 bytes and every
outcome of the random draws, `feedTestPlan` returns and appends exactly 2 buffers to the
buffer queue, each of exactly 4 elements. -/
theorem scenario_counts (self : FeederSource) (outputPort : OutputPort) (gen : RandomDraws)
    (hsize : outputPort.dtype.size = 4)
    (hgen : ValidBufferDraws outputPort.dtype scenarioPlan gen) :
    ∃ r bs, feedTestPlan self outputPort (some scenarioPlan) gen = .ok r ∧
      r.2._buffers = self._buffers ++ bs ∧ bs.map BufferChunk.elements = [4, 4] := by
  obtain ⟨⟨hb1, hb2⟩, he⟩ := hgen
  have hb : gen.bufferDist = 2 := by
    simp only [scenarioPlan, TestPlan.value, Option.getD_some] at hb1 hb2
    omega
  have hA : elementsDistA outputPort.dtype scenarioPlan = 2 := by
    simp [elementsDistA, scenarioPlan, TestPlan.value, hsize]
  have hB : elementsDistB outputPort.dtype scenarioPlan = 2 := by
    simp [elementsDistB, scenarioPlan, TestPlan.value, hsize]
  have hel : ∀ bufno, gen.elementsDist bufno = 2 := by
    intro bufno
    have := he bufno
    rw [hA, hB] at this
    omega
  have hcounts : numElemsFrom 2 2 4 1 gen 2 2 0 0 = [4, 4] := by
    simp only [numElemsFrom, hel]
    decide
  have hloop := generateBuffers_eq outputPort.dtype scenarioPlan gen (Or.inl rfl) (by omega)
  rw [hA, hB, hb, show bufferMultiple scenarioPlan = 4 from rfl,
    show totalMultiple scenarioPlan = 1 from rfl, show toSizeT 2 = 2 by decide] at hloop
  obtain ⟨st, hst⟩ := bufferLoop_returns outputPort.dtype
    (TestPlan.value scenarioPlan.enablePackets false) 2 2 4 1 gen 2
    (Or.inr (Or.inr hsize)) (by decide) (by decide) 2 0 ⟨0, [], [], [], []⟩
    (by rw [hcounts]; decide)
  obtain ⟨-, -, bs, hbs, hq⟩ := bufferLoop_ok outputPort.dtype _ 2 2 4 1 gen 2 (by omega)
    2 0 _ st hst
  rw [hcounts] at hbs
  rw [← hloop] at hst
  obtain ⟨r, hr⟩ := feedTestPlan_returns self outputPort scenarioPlan gen st _ hst
    (generateLabels_disabled outputPort scenarioPlan gen st rfl)
  obtain ⟨st1, ls, h1, h2, -, h4⟩ := feedTestPlan_ok self outputPort scenarioPlan gen r hr
  rw [hst] at h1
  cases h1
  refine ⟨r, bs, hr, ?_, hbs⟩
  rw [h4]
  have hq' : st.buffers = [] ++ bs := by
    have : TestPlan.value scenarioPlan.enablePackets false = false := rfl
    rw [this] at hq
    exact hq.1
  simp [hq']

/-- C1, witness: the amended statement at the empty block, `int32` and the draws
`scenarioDraws`. -/
theorem scenario_counts_witness :
    ∃ r bs, feedTestPlan empty ⟨int32, 0, 0⟩ (some scenarioPlan) scenarioDraws = .ok r ∧
      r.2._buffers = empty._buffers ++ bs ∧ bs.map BufferChunk.elements = [4, 4] :=
  scenario_counts empty ⟨int32, 0, 0⟩ scenarioDraws rfl
    ⟨⟨by decide, by decide⟩, fun _ => ⟨le_of_eq (by rfl), le_of_eq (by rfl)⟩⟩

/-! ## C2: element counts and `bufferMultiple` -/

/-- C2, counterexample: with `bufferMultiple` 2 and `totalMultiple` 3 on `int32`, one
buffer is generated from the drawn count 2; it is the last buffer, it is padded to 3
elements, and 3 is not a multiple of `bufferMultiple`. -/
theorem padded_last_counterexample :
    1 ≤ bufferMultiple paddedPlan ∧ 1 ≤ totalMultiple paddedPlan ∧
    ValidBufferDraws int32 paddedPlan paddedDraws ∧
    (feedTestPlan empty ⟨int32, 0, 0⟩ (some paddedPlan) paddedDraws).toOption.map
      (fun r => r.2._buffers.map BufferChunk.elements) = some [3] ∧
    ¬ (bufferMultiple paddedPlan ∣ ((3 : Nat) : Int)) := by
  refine ⟨by decide, by decide, ⟨⟨by decide, by decide⟩,
    fun _ => ⟨le_of_eq (by rfl), le_of_eq (by rfl)⟩⟩, by decide, by decide⟩

/-- C2, amended: for every configuration with `bufferMultiple ≥ 1` and
`totalMultiple ≥ 1` and every outcome of the random draws, when `feedTestPlan` returns,
the element count of every generated buffer other than the last is a multiple of
`bufferMultiple`, and the element count of the last buffer is a multiple of
`bufferMultiple` (the rounded draw) plus a padding `pad` with `0 ≤ pad < totalMultiple`.
The generated buffers `bs` are appended to the buffer queue, or are the payloads of the
packets appended to the packet queue in packet mode. -/
theorem buffer_counts_multiple (self : FeederSource) (outputPort : OutputPort)
    (testPlan : TestPlan) (gen : RandomDraws) (r : ExpectedResult × FeederSource)
    (hbm : 1 ≤ bufferMultiple testPlan) (htm : 1 ≤ totalMultiple testPlan)
    (h : feedTestPlan self outputPort (some testPlan) gen = .ok r) :
    ∃ bs : List BufferChunk,
      (if TestPlan.value testPlan.enablePackets false = true then
        r.2._buffers = self._buffers ∧
          r.2._packets.map Packet.payload = self._packets.map Packet.payload ++ bs
      else r.2._buffers = self._buffers ++ bs ∧ r.2._packets = self._packets) ∧
      ∀ (k : Nat) (hk : k < bs.length),
        (k + 1 ≠ bs.length → bufferMultiple testPlan ∣ ((bs[k]).elements : Int)) ∧
        ∃ pad : Int, 0 ≤ pad ∧ pad < totalMultiple testPlan ∧
          ((bs[k]).elements : Int) =
            roundToMultiple (gen.elementsDist k) (bufferMultiple testPlan)
              (elementsDistA outputPort.dtype testPlan)
              (elementsDistB outputPort.dtype testPlan) + pad ∧
          bufferMultiple testPlan ∣
            roundToMultiple (gen.elementsDist k) (bufferMultiple testPlan)
              (elementsDistA outputPort.dtype testPlan)
              (elementsDistB outputPort.dtype testPlan) := by
  have _ := hbm
  obtain ⟨bs, st, -, -, hbs, hpos, hq⟩ := feedTestPlan_generated self outputPort testPlan gen r h
  refine ⟨bs, hq, fun k hk => ?_⟩
  obtain ⟨pad, h1, h2, h3, h4⟩ :=
    numElemsChosen_getElem outputPort.dtype testPlan gen htm bs hbs hpos k hk
  have hdvd := roundToMultiple_dvd (gen.elementsDist k) (bufferMultiple testPlan)
    (elementsDistA outputPort.dtype testPlan) (elementsDistB outputPort.dtype testPlan)
  refine ⟨fun hne => ?_, pad, h2, h3, h1, hdvd⟩
  rw [h1, h4 hne, add_zero]
  exact hdvd

/-- C2, witness: the amended statement at the run of `paddedPlan` on `int32` with the
draws `paddedDraws`, whose single buffer has 3 elements. -/
theorem buffer_counts_multiple_witness :
    ∃ bs : List BufferChunk,
      (if TestPlan.value paddedPlan.enablePackets false = true then
        (empty.feedBuffer ⟨int32, 12, [Element.int 0, Element.int 0, Element.int 0]⟩)._buffers =
            empty._buffers ∧
          (empty.feedBuffer ⟨int32, 12, [Element.int 0, Element.int 0, Element.int 0]⟩)._packets.map
            Packet.payload = empty._packets.map Packet.payload ++ bs
      else (empty.feedBuffer ⟨int32, 12, [Element.int 0, Element.int 0, Element.int 0]⟩)._buffers =
          empty._buffers ++ bs ∧
        (empty.feedBuffer ⟨int32, 12, [Element.int 0, Element.int 0, Element.int 0]⟩)._packets =
          empty._packets) ∧
      ∀ (k : Nat) (hk : k < bs.length),
        (k + 1 ≠ bs.length → bufferMultiple paddedPlan ∣ ((bs[k]).elements : Int)) ∧
        ∃ pad : Int, 0 ≤ pad ∧ pad < totalMultiple paddedPlan ∧
          ((bs[k]).elements : Int) =
            roundToMultiple (paddedDraws.elementsDist k) (bufferMultiple paddedPlan)
              (elementsDistA int32 paddedPlan) (elementsDistB int32 paddedPlan) + pad ∧
          bufferMultiple paddedPlan ∣
            roundToMultiple (paddedDraws.elementsDist k) (bufferMultiple paddedPlan)
              (elementsDistA int32 paddedPlan) (elementsDistB int32 paddedPlan) :=
  buffer_counts_multiple empty ⟨int32, 0, 0⟩ paddedPlan paddedDraws
    (⟨some [0, 0, 0], none, none, none⟩,
      empty.feedBuffer ⟨int32, 12, [Element.int 0, Element.int 0, Element.int 0]⟩)
    (by decide) (by decide) rfl

/-! ## C3: the total element count and `totalMultiple` -/

/-- C3, counterexample: with `bufferMultiple` -1 and `totalMultiple` 6 on `int32`, draw
bounds 1 and 1, the drawn count 1 becomes -2 in the rounding step; converted to an
unsigned value for `extra` it leaves the remainder 2, the padding 4 is added, and the
single buffer generated has 2 elements: the total 2 is not a multiple of 6. -/
theorem negative_multiple_counterexample :
    1 ≤ totalMultiple negativeMultiplePlan ∧
    0 ≤ TestPlan.value negativeMultiplePlan.minBuffers (minTrials negativeMultiplePlan) ∧
    0 ≤ elementsDistA int32 negativeMultiplePlan ∧
    ValidBufferDraws int32 negativeMultiplePlan negativeMultipleDraws ∧
    (feedTestPlan empty ⟨int32, 0, 0⟩ (some negativeMultiplePlan)
      negativeMultipleDraws).toOption.map
        (fun r => r.2._buffers.map BufferChunk.elements) = some [2] ∧
    (generateBuffers int32 negativeMultiplePlan negativeMultipleDraws).toOption.map
      (fun st => st.totalElements) = some 2 ∧
    ¬ (totalMultiple negativeMultiplePlan ∣ (2 : Int)) := by
  refine ⟨by decide, by decide, by decide, ⟨⟨by decide, by decide⟩,
    fun _ => ⟨le_of_eq (by rfl), le_of_eq (by rfl)⟩⟩, by decide, by decide, by decide⟩

/-- C3, amended: for every configuration with `totalMultiple ≥ 1`, `bufferMultiple ≥ 1`
and non-negative draw bounds, and every outcome of the random draws, when `feedTestPlan`
returns, the final value of `totalElements` is the sum of the element counts of the
generated buffers `bs` and is a multiple of `totalMultiple`; each count is the rounded
draw plus a padding that is zero on every buffer but the last and is strictly less than
`totalMultiple`. -/
theorem total_elements_multiple (self : FeederSource) (outputPort : OutputPort)
    (testPlan : TestPlan) (gen : RandomDraws) (r : ExpectedResult × FeederSource)
    (htm : 1 ≤ totalMultiple testPlan) (hbm : 1 ≤ bufferMultiple testPlan)
    (hnn : 0 ≤ TestPlan.value testPlan.minBuffers (minTrials testPlan) ∧
      0 ≤ elementsDistA outputPort.dtype testPlan)
    (hgen : ValidBufferDraws outputPort.dtype testPlan gen)
    (h : feedTestPlan self outputPort (some testPlan) gen = .ok r) :
    ∃ (bs : List BufferChunk) (st : BufferState),
      generateBuffers outputPort.dtype testPlan gen = .ok st ∧
      (if TestPlan.value testPlan.enablePackets false = true then
        r.2._buffers = self._buffers ∧
          r.2._packets.map Packet.payload = self._packets.map Packet.payload ++ bs
      else r.2._buffers = self._buffers ++ bs ∧ r.2._packets = self._packets) ∧
      st.totalElements = (bs.map (fun b => (b.elements : Int))).sum ∧
      totalMultiple testPlan ∣ st.totalElements ∧
      ∀ (k : Nat) (hk : k < bs.length),
        ∃ pad : Int, 0 ≤ pad ∧ pad < totalMultiple testPlan ∧
          (k + 1 ≠ bs.length → pad = 0) ∧
          ((bs[k]).elements : Int) =
            roundToMultiple (gen.elementsDist k) (bufferMultiple testPlan)
              (elementsDistA outputPort.dtype testPlan)
              (elementsDistB outputPort.dtype testPlan) + pad := by
  obtain ⟨bs, st, hst, htot, hbs, hpos, hq⟩ :=
    feedTestPlan_generated self outputPort testPlan gen r h
  refine ⟨bs, st, hst, hq, ?_, ?_, fun k hk => ?_⟩
  · rw [htot]
    have := map_toNat_cast _ hpos
    rw [← hbs, List.map_map] at this
    rw [← this]
    rfl
  · rw [htot]
    unfold numElemsChosen
    split
    · cases hn : toSizeT gen.bufferDist with
      | zero => simp [numElemsFrom]
      | succ n =>
        have := numElemsFrom_sum_dvd (elementsDistA outputPort.dtype testPlan)
          (elementsDistB outputPort.dtype testPlan) (bufferMultiple testPlan)
          (totalMultiple testPlan) gen (n + 1) hbm htm hnn.2 hgen.2 n 0 0 (le_refl _)
          (by omega)
        simpa using this
    · simp
  · obtain ⟨pad, h1, h2, h3, h4⟩ :=
      numElemsChosen_getElem outputPort.dtype testPlan gen htm bs hbs hpos k hk
    exact ⟨pad, h2, h3, h4, h1⟩

/-- C3, witness: the amended statement at the run of `paddedPlan` on `int32` with the
draws `paddedDraws`, where the single buffer is padded from 2 to 3 elements. -/
theorem total_elements_multiple_witness :
    ∃ (bs : List BufferChunk) (st : BufferState),
      generateBuffers int32 paddedPlan paddedDraws = .ok st ∧
      (if TestPlan.value paddedPlan.enablePackets false = true then
        (empty.feedBuffer ⟨int32, 12, [Element.int 0, Element.int 0, Element.int 0]⟩)._buffers =
            empty._buffers ∧
          (empty.feedBuffer ⟨int32, 12, [Element.int 0, Element.int 0, Element.int 0]⟩)._packets.map
            Packet.payload = empty._packets.map Packet.payload ++ bs
      else (empty.feedBuffer ⟨int32, 12, [Element.int 0, Element.int 0, Element.int 0]⟩)._buffers =
          empty._buffers ++ bs ∧
        (empty.feedBuffer ⟨int32, 12, [Element.int 0, Element.int 0, Element.int 0]⟩)._packets =
          empty._packets) ∧
      st.totalElements = (bs.map (fun b => (b.elements : Int))).sum ∧
      totalMultiple paddedPlan ∣ st.totalElements ∧
      ∀ (k : Nat) (hk : k < bs.length),
        ∃ pad : Int, 0 ≤ pad ∧ pad < totalMultiple paddedPlan ∧
          (k + 1 ≠ bs.length → pad = 0) ∧
          ((bs[k]).elements : Int) =
            roundToMultiple (paddedDraws.elementsDist k) (bufferMultiple paddedPlan)
              (elementsDistA int32 paddedPlan) (elementsDistB int32 paddedPlan) + pad :=
  total_elements_multiple empty ⟨int32, 0, 0⟩ paddedPlan paddedDraws
    (⟨some [0, 0, 0], none, none, none⟩,
      empty.feedBuffer ⟨int32, 12, [Element.int 0, Element.int 0, Element.int 0]⟩)
    (by decide) (by decide) ⟨by decide, by decide⟩
    ⟨⟨by decide, by decide⟩, fun _ => ⟨le_of_eq (by rfl), le_of_eq (by rfl)⟩⟩ rfl

/-! ## C4: the rounding step within a range that holds a multiple -/

/-- C4: for all integers `0 ≤ a ≤ b` and `m ≥ 1` such that `[a, b]` contains a multiple
of `m`, and every raw draw `n` in `[a, b]`, the rounding step returns a multiple of `m`
that lies in `[a, b]`. -/
theorem roundToMultiple_in_range (a b m n : Int) (ha : 0 ≤ a) (hab : a ≤ b) (hm : 1 ≤ m)
    (hmul : ∃ c, a ≤ c ∧ c ≤ b ∧ m ∣ c) (han : a ≤ n) (hnb : n ≤ b) :
    m ∣ roundToMultiple n m a b ∧ a ≤ roundToMultiple n m a b ∧
      roundToMultiple n m a b ≤ b := by
  have _ := hab
  exact ⟨roundToMultiple_dvd n m a b, roundToMultiple_mem n m a b hm ha han hnb hmul⟩

/-- C4, witness: the range `[2, 9]` holds the multiple 4 of 4, and the draw 3 is rounded
to 4. -/
theorem roundToMultiple_in_range_witness :
    roundToMultiple 3 4 2 9 = 4 ∧
    ((4 : Int) ∣ roundToMultiple 3 4 2 9 ∧ 2 ≤ roundToMultiple 3 4 2 9 ∧
      roundToMultiple 3 4 2 9 ≤ 9) :=
  ⟨by decide, roundToMultiple_in_range 2 9 4 3 (by decide) (by decide) (by decide)
    ⟨4, by decide, by decide, by decide⟩ (by decide) (by decide)⟩

/-! ## C5: a label lands in exactly one packet -/

/-- C5: in packet mode, for every list of packets and every absolute label index `i`
below the sum of the payload element counts, the step of the label loop for `i` returns:
the walk ends at a packet ordinal `p` below the number of packets, the relative index
written to the label is below the payload element count of packet `p`, and afterwards
packet `p` has the label appended to its label list while every other packet is as it
was. -/
theorem label_lands_in_one_packet (outputPort : OutputPort) (gen : RandomDraws)
    (st : LabelState) (i k : Nat)
    (hi : i < (st.packets.map (fun p => p.payload.elements)).sum) :
    ∃ (st' : LabelState) (hp : (packetWalk st.packets i 0).2 < st.packets.length),
      labelLoop true outputPort gen [i] k st = .ok st' ∧
      (packetWalk st.packets i 0).1 <
        (st.packets[(packetWalk st.packets i 0).2]).payload.elements ∧
      st'.packets.length = st.packets.length ∧
      ∀ (q : Nat) (hq : q < st.packets.length),
        st'.packets[q]? = some
          (if q = (packetWalk st.packets i 0).2 then
            { st.packets[q] with
              labels := (st.packets[q]).labels ++
                [⟨"id" ++ toString i, gen.labelData k, (packetWalk st.packets i 0).1⟩] }
          else st.packets[q]) := by
  have hlt : (packetWalk st.packets i 0).2 < st.packets.length := by
    have := (packetWalk_lt_iff st.packets i 0).mpr hi
    omega
  obtain ⟨q0, e, h1, h2, h3, -⟩ := packetWalk_spec st.packets i 0 hi
  rw [Nat.zero_add] at h1
  have hstep := labelLoop_packet_step outputPort gen st i k [] hlt
  rw [labelLoop] at hstep
  refine ⟨_, hlt, hstep, ?_, ?_, ?_⟩
  · rw [← h1] at h2
    simp only [payloadElements, List.getElem?_map, List.getElem?_eq_getElem hlt,
      Option.map_some', Option.some.injEq] at h2
    rw [h2]
    exact h3
  · simp
  · intro q hq
    rw [List.getElem?_modify, List.getElem?_eq_getElem hq]
    by_cases hqp : q = (packetWalk st.packets i 0).2
    · rw [if_pos hqp]
      simp only [Option.map_eq_map, Option.map_some', Option.some.injEq]
      rw [if_pos hqp.symm]
      rfl
    · rw [if_neg hqp]
      simp only [Option.map_eq_map, Option.map_some', Option.some.injEq]
      rw [if_neg (fun h => hqp h.symm)]

/-- C5, witness: with payloads of 2 and 3 elements, the absolute index 3 is below the
total 5; the walk ends at packet 1 with the relative index 1. -/
theorem label_lands_in_one_packet_witness :
    packetWalk twoPackets 3 0 = (1, 1) ∧
    ∃ (st' : LabelState)
      (hp : (packetWalk (LabelState.mk [] [] [] twoPackets).packets 3 0).2 <
        (LabelState.mk [] [] [] twoPackets).packets.length),
      labelLoop true ⟨int32, 0, 0⟩ scenarioDraws [3] 0 ⟨[], [], [], twoPackets⟩ = .ok st' ∧
      (packetWalk (LabelState.mk [] [] [] twoPackets).packets 3 0).1 <
        ((LabelState.mk [] [] [] twoPackets).packets[(packetWalk
          (LabelState.mk [] [] [] twoPackets).packets 3 0).2]).payload.elements ∧
      st'.packets.length = (LabelState.mk [] [] [] twoPackets).packets.length ∧
      ∀ (q : Nat) (hq : q < (LabelState.mk [] [] [] twoPackets).packets.length),
        st'.packets[q]? = some
          (if q = (packetWalk (LabelState.mk [] [] [] twoPackets).packets 3 0).2 then
            { (LabelState.mk [] [] [] twoPackets).packets[q] with
              labels := ((LabelState.mk [] [] [] twoPackets).packets[q]).labels ++
                [⟨"id" ++ toString 3, scenarioDraws.labelData 0,
                  (packetWalk (LabelState.mk [] [] [] twoPackets).packets 3 0).1⟩] }
          else (LabelState.mk [] [] [] twoPackets).packets[q]) :=
  ⟨by decide, label_lands_in_one_packet ⟨int32, 0, 0⟩ scenarioDraws ⟨[], [], [], twoPackets⟩ 3 0
    (by decide)⟩

/-! ## C6: label indexes strictly ascend -/

/-- C6: for every outcome of the random draws, when `feedTestPlan` returns, the indexes
of the labels it appended to the label queue strictly ascend in queue order, and in
every packet it appended to the packet queue the relative indexes of the labels strictly
ascend in the order of the packet's label list (so they are pairwise distinct). -/
theorem label_indexes_ascending (self : FeederSource) (outputPort : OutputPort)
    (testPlan : TestPlan) (gen : RandomDraws) (r : ExpectedResult × FeederSource)
    (h : feedTestPlan self outputPort (some testPlan) gen = .ok r) :
    ∃ (newLabels : List Label) (newPackets : List Packet),
      r.2._labels = self._labels ++ newLabels ∧
      r.2._packets = self._packets ++ newPackets ∧
      (newLabels.map Label.index).Pairwise (fun x y => x < y) ∧
      ∀ p ∈ newPackets, (p.labels.map Label.index).Pairwise (fun x y => x < y) := by
  obtain ⟨st, ls, h1, h2, -, h4⟩ := feedTestPlan_ok self outputPort testPlan gen r h
  have hnl := generateBuffers_no_labels _ _ _ _ h1
  refine ⟨ls.labels, ls.packets, by rw [h4], by rw [h4], ?_, ?_⟩
  · simp only [generateLabels] at h2
    split at h2
    · cases hp : TestPlan.value testPlan.enablePackets false with
      | true =>
        rw [hp] at h2
        rw [labelLoop_packet_mode_labels _ _ _ _ _ _ h2]
        exact List.Pairwise.nil
      | false =>
        rw [hp] at h2
        obtain ⟨hl, -⟩ := labelLoop_buffer_mode _ _ _ _ _ _ h2
        rw [hl]
        simp only [List.map_nil, List.nil_append]
        rw [List.pairwise_map]
        exact (labelIndexes_pairwise gen).imp (fun hxy => by omega)
    · cases h2
      exact List.Pairwise.nil
  · have hinv : ∃ bound, LabelsBelow ls.packets bound := by
      simp only [generateLabels] at h2
      split at h2
      · cases hp : TestPlan.value testPlan.enablePackets false with
        | true =>
          rw [hp] at h2
          exact labelLoop_labelsBelow _ _ _ _ _ _ 0 (labelIndexes_pairwise gen)
            (fun _ _ => Nat.zero_le _) (labelsBelow_of_no_labels _ hnl) h2
        | false =>
          rw [hp] at h2
          obtain ⟨-, hpk⟩ := labelLoop_buffer_mode _ _ _ _ _ _ h2
          rw [hpk]
          exact ⟨0, labelsBelow_of_no_labels _ hnl⟩
      · cases h2
        exact ⟨0, labelsBelow_of_no_labels _ hnl⟩
    obtain ⟨bound, hb⟩ := hinv
    intro p hp
    obtain ⟨q, hq⟩ := List.getElem?_of_mem hp
    exact (hb q p hq).1

/-- C6, witness: the run of `labelledPlan`, where the draws 1, 0 and 3 give the relative
indexes 0, 1 in the first packet and 1 in the second. -/
theorem label_indexes_ascending_witness :
    labelledRun.2._packets.map (fun p => p.labels.map Label.index) = [[0, 1], [1]] ∧
    ∃ (newLabels : List Label) (newPackets : List Packet),
      labelledRun.2._labels = empty._labels ++ newLabels ∧
      labelledRun.2._packets = empty._packets ++ newPackets ∧
      (newLabels.map Label.index).Pairwise (fun x y => x < y) ∧
      ∀ p ∈ newPackets, (p.labels.map Label.index).Pairwise (fun x y => x < y) :=
  ⟨by decide, label_indexes_ascending empty ⟨int32, 0, 0⟩ labelledPlan labelledDraws
    labelledRun rfl⟩

/-! ## C7: the labels posted by one drain step -/

/-- C7: in one `work` call with already-emitted element count `T` (`totalElements`) and
front-buffer element count `n` (`frontElements`, zero when the buffer queue is empty),
the calls on the output port start with the labels of the longest prefix of the label
queue whose indexes are below `T + n` (`labelDue`), in queue order, each with its index
replaced by `index - T` computed on `size_t` (`rebase`; the exact difference when
`T ≤ index`); no other label is posted, and the labels after that prefix stay in the
queue unchanged. -/
theorem work_posts_due_labels (self : FeederSource) (outputPort : OutputPort) :
    (∃ rest : List Posted,
      (work self outputPort).posted =
        ((self._labels.takeWhile (labelDue self outputPort)).map
          (rebase outputPort)).map Posted.label ++ rest ∧
      ∀ x ∈ rest, Posted.isLabel x = false) ∧
    (work self outputPort).self._labels = self._labels.dropWhile (labelDue self outputPort) ∧
    self._labels = self._labels.takeWhile (labelDue self outputPort) ++
      (work self outputPort).self._labels ∧
    (∀ l : Label, labelDue self outputPort l = true ↔
      l.index < outputPort.totalElements + frontElements self outputPort) ∧
    ∀ l : Label, outputPort.totalElements ≤ l.index →
      (rebase outputPort l).index = l.index - outputPort.totalElements ∧
      (rebase outputPort l).id = l.id ∧ (rebase outputPort l).data = l.data := by
  have hw := workLabels_eq self outputPort self._labels
  refine ⟨?_, ?_, ?_, ?_, ?_⟩
  · unfold work
    simp only [hw]
    split
    · exact ⟨_, rfl, by simp [Posted.isLabel]⟩
    · split
      · exact ⟨_, rfl, by simp [Posted.isLabel]⟩
      · split
        · exact ⟨_, rfl, by simp [Posted.isLabel]⟩
        · exact ⟨[], by simp, by simp⟩
  · unfold work
    simp only [hw]
    split
    · rfl
    · split
      · rfl
      · split <;> rfl
  · have : (work self outputPort).self._labels =
        self._labels.dropWhile (labelDue self outputPort) := by
      unfold work
      simp only [hw]
      split
      · rfl
      · split
        · rfl
        · split <;> rfl
    rw [this, List.takeWhile_append_dropWhile]
  · intro l
    simp only [labelDue, decide_eq_true_eq]
    omega
  · intro l hl
    refine ⟨?_, rfl, rfl⟩
    simp only [rebase, subU64]
    rw [if_pos hl]

/-! ## C8: labels stay ahead of the buffer they annotate -/

/-- C8: if the label queue is sorted ascending by index, then in a `work` call that
posts a buffer `b` (the front of the buffer queue, covering the stream positions from
`T = totalElements` to `T + n` with `n` its element count), the buffer is the last call
on the output port, after the labels, and every label left in the queue has an index of
at least `T + n`. -/
theorem work_labels_before_buffer (self : FeederSource) (outputPort : OutputPort)
    (b : BufferChunk) (rest : List BufferChunk)
    (hs : (self._labels.map Label.index).Pairwise (fun x y => x ≤ y))
    (hb : self._buffers = b :: rest) :
    (∃ labels : List Posted, (work self outputPort).posted = labels ++ [Posted.buffer b] ∧
      ∀ x ∈ labels, Posted.isLabel x = true) ∧
    ∀ l ∈ (work self outputPort).self._labels,
      outputPort.totalElements + b.length / outputPort.dtype.size ≤ l.index := by
  have hw := workLabels_eq self outputPort self._labels
  have hn : frontElements self outputPort = b.length / outputPort.dtype.size := by
    simp only [frontElements, hb]
  constructor
  · unfold work
    simp only [hw]
    simp only [hb]
    refine ⟨_, rfl, ?_⟩
    intro x hx
    obtain ⟨l, -, rfl⟩ := List.mem_map.mp hx
    rfl
  · intro l hl
    have hl' : l ∈ self._labels.dropWhile (labelDue self outputPort) := by
      unfold work at hl
      simp only [hw] at hl
      simp only [hb] at hl
      exact hl
    have := dropWhile_not_due self outputPort self._labels hs l hl'
    omega

/-- C8, witness: with 4 elements emitted, a front buffer of 2 elements and labels at 5,
6 and 9, the label at 5 is posted before the buffer and the labels at 6 and 9 stay
queued. -/
theorem work_labels_before_buffer_witness :
    (work sortedLabels ⟨int32, 4, 1⟩).self._labels.map Label.index = [6, 9] ∧
    ((∃ labels : List Posted,
      (work sortedLabels ⟨int32, 4, 1⟩).posted =
        labels ++ [Posted.buffer ⟨int32, 8, [Element.int 0, Element.int 0]⟩] ∧
      ∀ x ∈ labels, Posted.isLabel x = true) ∧
    ∀ l ∈ (work sortedLabels ⟨int32, 4, 1⟩).self._labels,
      (OutputPort.mk int32 4 1).totalElements +
        (BufferChunk.mk int32 8 [Element.int 0, Element.int 0]).length /
          (OutputPort.mk int32 4 1).dtype.size ≤ l.index) :=
  ⟨by decide, work_labels_before_buffer sortedLabels ⟨int32, 4, 1⟩
    ⟨int32, 8, [Element.int 0, Element.int 0]⟩ [] (by decide) rfl⟩

/-! ## C9: at most one buffer, message or packet per drain step -/

/-- C9: every `work` call makes at most one call on the output port that is not a
label, after the labels it posts (`(workLabels ..).1`, possibly none): with a non-empty
buffer queue exactly the front buffer is popped and posted; otherwise, with a non-empty
message queue, exactly the front message; otherwise, with a non-empty packet queue,
exactly the front packet (as a message); otherwise nothing. The other queues among the
three are left unchanged. -/
theorem work_posts_one_entity (self : FeederSource) (outputPort : OutputPort) :
    ((work self outputPort).posted.filter (fun x => !Posted.isLabel x)).length ≤ 1 ∧
    (∀ x ∈ (workLabels self._buffers outputPort self._labels).1, Posted.isLabel x = true) ∧
    (∀ b rest, self._buffers = b :: rest →
      (work self outputPort).posted =
        (workLabels self._buffers outputPort self._labels).1 ++ [Posted.buffer b] ∧
      (work self outputPort).self._buffers = rest ∧
      (work self outputPort).self._messages = self._messages ∧
      (work self outputPort).self._packets = self._packets) ∧
    (self._buffers = [] → ∀ m rest, self._messages = m :: rest →
      (work self outputPort).posted =
        (workLabels self._buffers outputPort self._labels).1 ++ [Posted.message m] ∧
      (work self outputPort).self._buffers = [] ∧
      (work self outputPort).self._messages = rest ∧
      (work self outputPort).self._packets = self._packets) ∧
    (self._buffers = [] → self._messages = [] → ∀ p rest, self._packets = p :: rest →
      (work self outputPort).posted =
        (workLabels self._buffers outputPort self._labels).1 ++
          [Posted.message (Object.packet p)] ∧
      (work self outputPort).self._buffers = [] ∧
      (work self outputPort).self._messages = [] ∧
      (work self outputPort).self._packets = rest) ∧
    (self._buffers = [] → self._messages = [] → self._packets = [] →
      (work self outputPort).posted = (workLabels self._buffers outputPort self._labels).1 ∧
      (work self outputPort).self._buffers = [] ∧
      (work self outputPort).self._messages = [] ∧
      (work self outputPort).self._packets = []) := by
  have hw := workLabels_eq self outputPort self._labels
  have hlab : ∀ x ∈ (workLabels self._buffers outputPort self._labels).1,
      Posted.isLabel x = true := by
    intro x hx
    rw [hw] at hx
    obtain ⟨l, -, rfl⟩ := List.mem_map.mp hx
    rfl
  have hfil : ((workLabels self._buffers outputPort self._labels).1.filter
      (fun x => !Posted.isLabel x)) = [] := by
    rw [List.filter_eq_nil_iff]
    intro x hx
    simp [hlab x hx]
  refine ⟨?_, hlab, ?_, ?_, ?_, ?_⟩
  · unfold work
    simp only
    split
    · rw [List.filter_append, hfil, List.nil_append]
      exact List.length_filter_le _ _
    · split
      · rw [List.filter_append, hfil, List.nil_append]
        exact List.length_filter_le _ _
      · split
        · rw [List.filter_append, hfil, List.nil_append]
          exact List.length_filter_le _ _
        · rw [hfil]
          exact Nat.zero_le _
  · intro b rest hb
    unfold work
    simp only [hb]
    refine ⟨?_, ?_, ?_, ?_⟩ <;> first | rfl | trivial
  · intro hb m rest hm
    unfold work
    simp only [hb, hm]
    refine ⟨?_, ?_, ?_, ?_⟩ <;> first | rfl | trivial
  · intro hb hm p rest hp
    unfold work
    simp only [hb, hm, hp]
    refine ⟨?_, ?_, ?_, ?_⟩ <;> first | rfl | trivial
  · intro hb hm hp
    unfold work
    simp only [hb, hm, hp]
    refine ⟨?_, ?_, ?_, ?_⟩ <;> first | rfl | trivial

/-! ## C10: the drain step and the producible-elements hint -/

/-- C10, counterexample: with the minimum-producible-elements hint at zero and one
buffer queued, `work` posts the buffer and empties the buffer queue. -/
theorem work_hint_zero_counterexample :
    (OutputPort.mk int32 0 0).elements = 0 ∧
    (work oneBuffer ⟨int32, 0, 0⟩).posted =
      [Posted.buffer ⟨int32, 8, [Element.int 0, Element.int 0]⟩] ∧
    (work oneBuffer ⟨int32, 0, 0⟩).posted ≠ [] ∧
    (work oneBuffer ⟨int32, 0, 0⟩).self ≠ oneBuffer := by
  decide

/-- C10, amended: `work` does not read the minimum-producible-elements hint: its
outcome is the same for every value of the hint, zero included; and it posts nothing and
leaves all four queues unchanged exactly when the buffer, message and packet queues are
empty and the label queue is empty or has a front label with an index of at least the
element count already emitted. -/
theorem work_ignores_hint (self : FeederSource) (outputPort : OutputPort) :
    (∀ hint : Nat, work self { outputPort with elements := hint } = work self outputPort) ∧
    (((work self outputPort).posted = [] ∧ (work self outputPort).self = self) ↔
      (self._buffers = [] ∧ self._messages = [] ∧ self._packets = [] ∧
        ∀ l, self._labels.head? = some l → outputPort.totalElements ≤ l.index)) := by
  constructor
  · intro hint
    unfold work
    simp only [workLabels_eq]
    rfl
  · have hw := workLabels_eq self outputPort self._labels
    constructor
    · rintro ⟨hposted, hself⟩
      unfold work at hposted hself
      simp only [hw] at hposted hself
      split at hposted
      · simp at hposted
      · rename_i hb
        split at hposted
        · simp at hposted
        · rename_i hm
          split at hposted
          · simp at hposted
          · rename_i hp
            refine ⟨hb, hm, hp, ?_⟩
            intro l hl
            cases hlab : self._labels with
            | nil => rw [hlab] at hl; cases hl
            | cons front rest =>
              rw [hlab] at hl hposted
              simp only [List.head?_cons, Option.some.injEq] at hl
              subst hl
              by_contra hcon
              have hd : labelDue self outputPort front = true := by
                simp only [labelDue, frontElements, hb, decide_eq_true_eq]
                omega
              simp [List.takeWhile_cons, hd] at hposted
    · rintro ⟨hb, hm, hp, hl⟩
      have hlab : workLabels self._buffers outputPort self._labels = ([], self._labels) := by
        rw [hw]
        cases hq : self._labels with
        | nil => rfl
        | cons front rest =>
          have hd : labelDue self outputPort front = false := by
            have := hl front (by rw [hq]; rfl)
            simp only [labelDue, frontElements, hb, decide_eq_false_iff_not]
            omega
          simp [List.takeWhile_cons, List.dropWhile_cons, hd]
      unfold work
      simp only [hlab]
      simp only [hb, hm, hp]
      refine ⟨trivial, ?_⟩
      cases self
      simp only [FeederSource.mk.injEq] at hb hm hp ⊢
      exact ⟨hb.symm, trivial, hm.symm, hp.symm⟩

/-! ## C11: the round trip in buffer mode -/

/-- C11: starting from four empty queues with the element count `T0` already emitted
(`outputPort.totalElements`), after one returning `feedTestPlan` call with buffers
enabled and packets disabled, invoking `work` until the buffer queue is empty, once per
generated buffer, leaves the buffer queue and the label queue empty, posts the generated
buffers exactly once each in generation order, and posts the generated labels exactly
once each in generation order; every label is posted with its identifier and data, and
its posted index plus the element count emitted at the moment of posting is `T0` plus
the index recorded for that label in `expectedLabels`. -/
theorem round_trip_buffer_mode (outputPort : OutputPort) (testPlan : TestPlan)
    (gen : RandomDraws) (r : ExpectedResult × FeederSource)
    (hb : TestPlan.value testPlan.enableBuffers false = true)
    (hp : TestPlan.value testPlan.enablePackets false = false)
    (hidx : ValidIndexDraws outputPort.dtype testPlan gen)
    (h : feedTestPlan empty outputPort (some testPlan) gen = .ok r) :
    (drainBuffers r.2._buffers.length r.2 outputPort).self._buffers = [] ∧
    (drainBuffers r.2._buffers.length r.2 outputPort).self._labels = [] ∧
    postedBuffers (drainBuffers r.2._buffers.length r.2 outputPort).trace = r.2._buffers ∧
    (postedLabels (drainBuffers r.2._buffers.length r.2 outputPort).trace).map absolute =
      r.2._labels ∧
    (postedLabels (drainBuffers r.2._buffers.length r.2 outputPort).trace).map
        (fun x => (x.2.id, x.2.data, x.2.index + x.1)) =
      (r.1.expectedLabels.getD []).map
        (fun e => (e.id, e.data, outputPort.totalElements + e.index)) := by
  have _ := hb
  obtain ⟨st, ls, h1, h2, h3, h4⟩ := feedTestPlan_ok empty outputPort testPlan gen r h
  obtain ⟨bs, st', hst', htot, hbs, hpos, hq⟩ :=
    feedTestPlan_generated empty outputPort testPlan gen r h
  rw [h1] at hst'
  cases hst'
  rw [hp] at hq
  simp only [Bool.false_eq_true, if_false, empty, List.nil_append] at hq
  have hdt := generateBuffers_dtype _ _ _ _ h1
  have hrb : r.2._buffers = st.buffers := by rw [h4]; rfl
  have hrl : r.2._labels = ls.labels := by rw [h4]; rfl
  have hbuf : bs = st.buffers := by rw [← hq.1, hrb]
  -- the element counts that `work` computes are the element counts of the buffers
  have hqe : (queuedElements outputPort r.2._buffers : Int) = st.totalElements := by
    rw [htot, hrb, ← hbuf]
    have hmap : bs.map (fun b => b.length / outputPort.dtype.size) =
        bs.map BufferChunk.elements := by
      apply List.map_congr_left
      intro x hx
      simp only [BufferChunk.elements, hdt x (hbuf ▸ hx)]
    simp only [queuedElements, hmap, hbs]
    have := map_toNat_cast _ hpos
    conv_rhs => rw [← this]
    simp
  -- the queued labels
  have hlabels : (ls.labels.map Label.index).Pairwise (fun x y => x ≤ y) ∧
      (∀ l ∈ ls.labels, outputPort.totalElements ≤ l.index ∧
        (l.index : Int) < outputPort.totalElements + st.totalElements) ∧
      ls.labels.map (fun l => (l.id, l.data, l.index)) =
        ls.expectedLabels.map (fun e => (e.id, e.data, outputPort.totalElements + e.index)) := by
    simp only [generateLabels] at h2
    split at h2
    · rename_i hen
      rw [hp] at h2
      obtain ⟨hl, -⟩ := labelLoop_buffer_mode _ _ _ _ _ _ h2
      simp only [List.map_nil, List.nil_append] at hl
      refine ⟨?_, ?_, labelLoop_buffer_golden _ _ _ _ _ _ h2 rfl⟩
      · rw [hl, List.pairwise_map]
        exact (labelIndexes_pairwise gen).imp (fun hxy => by omega)
      · intro l hl'
        have hmem : l.index ∈ ls.labels.map Label.index := List.mem_map_of_mem _ hl'
        rw [hl] at hmem
        obtain ⟨i, hi, hil⟩ := List.mem_map.mp hmem
        obtain ⟨k, rfl⟩ := mem_labelIndexes gen i hi
        have := hidx st h1 hen.2 k
        omega
    · cases h2
      exact ⟨List.Pairwise.nil, fun l hl' => by simp at hl', rfl⟩
  obtain ⟨hsorted, hrange, hgold⟩ := hlabels
  obtain ⟨d1, d2, -, -, d5, d6⟩ := drainBuffers_spec r.2._buffers r.2 outputPort rfl
    (by rw [hrl]; exact hsorted)
    (by
      intro l hl'
      rw [hrl] at hl'
      have := hrange l hl'
      omega)
  refine ⟨d1, d2, d5, d6, ?_⟩
  have hcomp : (postedLabels (drainBuffers r.2._buffers.length r.2 outputPort).trace).map
      (fun x => (x.2.id, x.2.data, x.2.index + x.1)) =
      ((postedLabels (drainBuffers r.2._buffers.length r.2 outputPort).trace).map
        absolute).map (fun l => (l.id, l.data, l.index)) := by
    rw [List.map_map]
    rfl
  rw [hcomp, d6, hrl, hgold, h3]
  simp only [whenUsed_getD]

/-- C11, witness: the run of `roundTripPlan` with 5 elements already emitted: the labels
drawn at 0, 1 and 3 are queued at 5, 6 and 8, and posted with the relative indexes 0 and
1 before the first buffer (5 emitted) and 1 before the second (7 emitted). -/
theorem round_trip_buffer_mode_witness :
    (postedLabels (drainBuffers roundTripRun.2._buffers.length roundTripRun.2
      ⟨int32, 5, 0⟩).trace).map (fun x => (x.1, x.2.index)) = [(5, 0), (5, 1), (7, 1)] ∧
    ((drainBuffers roundTripRun.2._buffers.length roundTripRun.2
      ⟨int32, 5, 0⟩).self._buffers = [] ∧
    (drainBuffers roundTripRun.2._buffers.length roundTripRun.2
      ⟨int32, 5, 0⟩).self._labels = [] ∧
    postedBuffers (drainBuffers roundTripRun.2._buffers.length roundTripRun.2
      ⟨int32, 5, 0⟩).trace = roundTripRun.2._buffers ∧
    (postedLabels (drainBuffers roundTripRun.2._buffers.length roundTripRun.2
      ⟨int32, 5, 0⟩).trace).map absolute = roundTripRun.2._labels ∧
    (postedLabels (drainBuffers roundTripRun.2._buffers.length roundTripRun.2
      ⟨int32, 5, 0⟩).trace).map (fun x => (x.2.id, x.2.data, x.2.index + x.1)) =
      (roundTripRun.1.expectedLabels.getD []).map
        (fun e => (e.id, e.data, (OutputPort.mk int32 5 0).totalElements + e.index))) :=
  ⟨by decide, round_trip_buffer_mode ⟨int32, 5, 0⟩ roundTripPlan labelledDraws roundTripRun
    rfl rfl
    (fun st hst _ lblno => by
      have ht : (generateBuffers int32 roundTripPlan labelledDraws).toOption.map
          BufferState.totalElements = some 4 := by decide
      rw [show (OutputPort.mk int32 5 0).dtype = int32 from rfl] at hst
      rw [hst] at ht
      have h4 : st.totalElements = 4 := by simpa [Except.toOption] using ht
      rw [h4]
      show ((if lblno = 0 then 1 else if lblno = 1 then 0 else 3 : Nat) : Int) < 4
      split_ifs <;> decide)
    rfl⟩

/-! ## C12: nothing enabled -/

/-- C12: for every configuration in which `enableBuffers`, `enableLabels`,
`enableMessages` and `enablePackets` are all false or absent, `feedTestPlan` returns the
golden description without any key and leaves the four queues as they were; and a
`work` call on four empty queues posts nothing and takes the backoff path. -/
theorem nothing_enabled (self : FeederSource) (outputPort : OutputPort) (testPlan : TestPlan)
    (gen : RandomDraws)
    (hb : TestPlan.value testPlan.enableBuffers false = false)
    (hl : TestPlan.value testPlan.enableLabels false = false)
    (hm : TestPlan.value testPlan.enableMessages false = false)
    (hp : TestPlan.value testPlan.enablePackets false = false) :
    feedTestPlan self outputPort (some testPlan) gen = .ok (⟨none, none, none, none⟩, self) ∧
    work empty outputPort = ⟨empty, [], true⟩ := by
  constructor
  · have hbuf : generateBuffers outputPort.dtype testPlan gen = .ok ⟨0, [], [], [], []⟩ := by
      simp [generateBuffers, hb, hp]
    have hlab := generateLabels_disabled outputPort testPlan gen ⟨0, [], [], [], []⟩ hl
    have hmsg : generateMessages testPlan gen = [] := by
      simp [generateMessages, hm]
    simp only [feedTestPlan, hbuf, hlab, hmsg]
    rfl
  · rfl

/-- C12, witness: the configuration without any key, on the block `oneBuffer`. -/
theorem nothing_enabled_witness :
    feedTestPlan oneBuffer ⟨int32, 0, 0⟩ (some {}) scenarioDraws =
      .ok (⟨none, none, none, none⟩, oneBuffer) ∧
    work empty ⟨int32, 0, 0⟩ = ⟨empty, [], true⟩ :=
  nothing_enabled oneBuffer ⟨int32, 0, 0⟩ {} scenarioDraws rfl rfl rfl rfl

/-! ## C13: the recorded values -/

/-- C13: when `feedTestPlan` returns, the golden description holds one recorded sample
per generated element, in generation order: with `bs` the generated buffers, with
packets disabled `expectedValues` is present iff at least one element was generated and
holds, buffer after buffer, the samples drawn for the elements (as many as the sum of
the element counts); with packets enabled there is no top-level `expectedValues`, and
`expectedPackets` (absent when no packet was generated) has one entry per generated
packet, in order, whose `expectedValues` are the samples drawn for the payload, as many
as the payload has elements. -/
theorem golden_values (self : FeederSource) (outputPort : OutputPort) (testPlan : TestPlan)
    (gen : RandomDraws) (r : ExpectedResult × FeederSource)
    (h : feedTestPlan self outputPort (some testPlan) gen = .ok r) :
    ∃ bs : List BufferChunk,
      (if TestPlan.value testPlan.enablePackets false = true then
        r.2._buffers = self._buffers ∧
          r.2._packets.map Packet.payload = self._packets.map Packet.payload ++ bs
      else r.2._buffers = self._buffers ++ bs ∧ r.2._packets = self._packets) ∧
      (TestPlan.value testPlan.enablePackets false = false →
        (r.1.expectedValues.isSome = true ↔ 0 < (bs.map BufferChunk.elements).sum) ∧
        r.1.expectedValues.getD [] =
          (samplesFrom gen 0 (bs.map BufferChunk.elements)).flatten ∧
        (r.1.expectedValues.getD []).length = (bs.map BufferChunk.elements).sum) ∧
      (TestPlan.value testPlan.enablePackets false = true →
        r.1.expectedValues = none ∧
        (r.1.expectedPackets.isSome = true ↔ bs ≠ []) ∧
        (r.1.expectedPackets.getD []).map ExpectedPacket.expectedValues =
          samplesFrom gen 0 (bs.map BufferChunk.elements) ∧
        (r.1.expectedPackets.getD []).length = bs.length ∧
        (r.1.expectedPackets.getD []).map (fun e => e.expectedValues.length) =
          bs.map BufferChunk.elements) := by
  obtain ⟨st, ls, h1, h2, h3, -⟩ := feedTestPlan_ok self outputPort testPlan gen r h
  obtain ⟨bs, st', hst', -, hbs, -, hq⟩ := feedTestPlan_generated self outputPort testPlan gen r h
  rw [h1] at hst'
  cases hst'
  obtain ⟨hg1, hg2⟩ := generateBuffers_golden _ _ _ _ h1
  have hev := generateLabels_expectedValues _ _ _ _ _ h2
  rw [← hbs] at hg1 hg2
  refine ⟨bs, hq, ?_, ?_⟩
  · intro hp
    obtain ⟨hv, -⟩ := hg1 hp
    have hlen := samplesFrom_flatten_length gen (bs.map BufferChunk.elements) 0
    rw [h3]
    simp only [whenUsed_getD, whenUsed_isSome, hv]
    refine ⟨?_, trivial, hlen⟩
    rw [← hlen, ← List.length_pos]
  · intro hp
    obtain ⟨hv, hpk⟩ := hg2 hp
    rw [hpk] at hev
    have hev' : ls.expectedPackets.map ExpectedPacket.expectedValues =
        samplesFrom gen 0 (bs.map BufferChunk.elements) := by
      rw [hev, List.map_map]
      exact List.map_id _
    have hlen : ls.expectedPackets.length = bs.length := by
      have := congrArg List.length hev'
      have h2 := congrArg List.length (samplesFrom_lengths gen (bs.map BufferChunk.elements) 0)
      simp only [List.length_map] at this h2
      omega
    rw [h3]
    simp only [whenUsed_getD, whenUsed_isSome, hv]
    refine ⟨rfl, ?_, hev', hlen, ?_⟩
    · rw [← List.length_pos, ← List.length_pos, hlen]
    · have := congrArg (List.map List.length) hev'
      rw [List.map_map, samplesFrom_lengths] at this
      exact this

/-- C13, witness: the run of `labelledPlan` in packet mode, whose two packets of two
elements give two entries of two samples. -/
theorem golden_values_witness :
    (labelledRun.1.expectedPackets.getD []).map ExpectedPacket.expectedValues =
      [[0, 0], [0, 0]] ∧
    ∃ bs : List BufferChunk,
      (if TestPlan.value labelledPlan.enablePackets false = true then
        labelledRun.2._buffers = empty._buffers ∧
          labelledRun.2._packets.map Packet.payload = empty._packets.map Packet.payload ++ bs
      else labelledRun.2._buffers = empty._buffers ++ bs ∧
        labelledRun.2._packets = empty._packets) ∧
      (TestPlan.value labelledPlan.enablePackets false = false →
        (labelledRun.1.expectedValues.isSome = true ↔ 0 < (bs.map BufferChunk.elements).sum) ∧
        labelledRun.1.expectedValues.getD [] =
          (samplesFrom labelledDraws 0 (bs.map BufferChunk.elements)).flatten ∧
        (labelledRun.1.expectedValues.getD []).length = (bs.map BufferChunk.elements).sum) ∧
      (TestPlan.value labelledPlan.enablePackets false = true →
        labelledRun.1.expectedValues = none ∧
        (labelledRun.1.expectedPackets.isSome = true ↔ bs ≠ []) ∧
        (labelledRun.1.expectedPackets.getD []).map ExpectedPacket.expectedValues =
          samplesFrom labelledDraws 0 (bs.map BufferChunk.elements) ∧
        (labelledRun.1.expectedPackets.getD []).length = bs.length ∧
        (labelledRun.1.expectedPackets.getD []).map (fun e => e.expectedValues.length) =
          bs.map BufferChunk.elements) :=
  ⟨by decide, golden_values empty ⟨int32, 0, 0⟩ labelledPlan labelledDraws labelledRun rfl⟩

/-! ## C14: unsupported element types -/

/-- C14, counterexample: on `float64` (a float type of 8 bytes, a width other than 1, 2
and 4) with buffers enabled and buffers of 4 bytes, `feedTestPlan` returns normally: the
single buffer has no element, and the element loop that holds the assertion never
runs. -/
theorem no_element_counterexample :
    TestPlan.value emptyBufferPlan.enableBuffers false = true ∧
    ¬ (float64.size = 1 ∨ float64.size = 2 ∨ float64.size = 4) ∧
    float64.isFloat = true ∧
    ValidBufferDraws float64 emptyBufferPlan emptyBufferDraws ∧
    feedTestPlan empty ⟨float64, 0, 0⟩ (some emptyBufferPlan) emptyBufferDraws =
      .ok (⟨none, none, none, none⟩, ⟨[⟨float64, 0, []⟩], [], [], []⟩) := by
  refine ⟨by decide, by decide, by decide,
    ⟨⟨by decide, by decide⟩, fun _ => ⟨le_of_eq (by rfl), le_of_eq (by rfl)⟩⟩, rfl⟩

/-- C14, amended: with buffers or packets enabled, `feedTestPlan` does not fail with the
assertion error for an element byte width of 1, 2 or 4 that is not a float type of a
width other than 4; when the width is not 1, 2 or 4, a call that returns has generated
no element at all (every generated buffer is empty), and the call fails with the
assertion error if its first buffer gets at least one element (the width and both
multiples being non-zero, and at least one buffer being drawn). -/
theorem encoding_failure (self : FeederSource) (outputPort : OutputPort)
    (testPlan : TestPlan) (gen : RandomDraws)
    (hen : TestPlan.value testPlan.enableBuffers false = true ∨
      TestPlan.value testPlan.enablePackets false = true) :
    ((outputPort.dtype.size = 1 ∨ outputPort.dtype.size = 2 ∨ outputPort.dtype.size = 4) →
      (outputPort.dtype.isFloat = false ∨ outputPort.dtype.size = 4) →
      feedTestPlan self outputPort (some testPlan) gen ≠ .error Exception.assertionViolation) ∧
    (¬ (outputPort.dtype.size = 1 ∨ outputPort.dtype.size = 2 ∨ outputPort.dtype.size = 4) →
      (∀ r, feedTestPlan self outputPort (some testPlan) gen = .ok r →
        ∃ bs : List BufferChunk,
          (if TestPlan.value testPlan.enablePackets false = true then
            r.2._buffers = self._buffers ∧
              r.2._packets.map Packet.payload = self._packets.map Packet.payload ++ bs
          else r.2._buffers = self._buffers ++ bs ∧ r.2._packets = self._packets) ∧
          ∀ x ∈ bs, x.elements = 0) ∧
      (outputPort.dtype.size ≠ 0 → bufferMultiple testPlan ≠ 0 → totalMultiple testPlan ≠ 0 →
        1 ≤ toSizeT gen.bufferDist →
        0 < padLast 0 (toSizeT gen.bufferDist) 0
          (roundToMultiple (gen.elementsDist 0) (bufferMultiple testPlan)
            (elementsDistA outputPort.dtype testPlan) (elementsDistB outputPort.dtype testPlan))
          (totalMultiple testPlan) →
        feedTestPlan self outputPort (some testPlan) gen =
          .error Exception.assertionViolation)) := by
  refine ⟨?_, fun hsize => ⟨?_, ?_⟩⟩
  · intro hsize _ h
    rcases feedTestPlan_error _ _ _ _ _ h with h1 | ⟨st, -, h2⟩
    · by_cases hz : outputPort.dtype.size = 0
      · omega
      · rw [generateBuffers_eq _ _ _ hen hz] at h1
        exact bufferLoop_assertion _ _ _ _ _ _ _ _ _ _ _ h1 hsize
    · simp only [generateLabels] at h2
      split at h2
      · have := labelLoop_error _ _ _ _ _ _ _ h2
        cases this
      · cases h2
  · intro r hr
    obtain ⟨bs, st, hst, -, hbs, -, hq⟩ := feedTestPlan_generated self outputPort testPlan gen r hr
    refine ⟨bs, hq, ?_⟩
    have hz : outputPort.dtype.size ≠ 0 := by
      intro hz
      simp only [generateBuffers] at hst
      rw [if_pos hen, if_pos hz] at hst
      cases hst
    rw [generateBuffers_eq _ _ _ hen hz] at hst
    have hzero := bufferLoop_ok_counts_zero _ _ _ _ _ _ _ _ hsize _ _ _ _ hst
    have hc : numElemsChosen outputPort.dtype testPlan gen = _ := if_pos hen
    rw [hc] at hbs
    intro x hx
    have hmem : x.elements ∈ bs.map BufferChunk.elements := List.mem_map_of_mem _ hx
    rw [hbs] at hmem
    obtain ⟨n, hn, hxn⟩ := List.mem_map.mp hmem
    rw [← hxn, hzero n hn]
    rfl
  · intro hz hbm htm hnb hpos
    obtain ⟨m, hm⟩ : ∃ m, toSizeT gen.bufferDist = m + 1 :=
      ⟨toSizeT gen.bufferDist - 1, by omega⟩
    have hloop := bufferLoop_throws outputPort.dtype (TestPlan.value testPlan.enablePackets false)
      (elementsDistA outputPort.dtype testPlan) (elementsDistB outputPort.dtype testPlan)
      (bufferMultiple testPlan) (totalMultiple testPlan) gen (toSizeT gen.bufferDist) hsize hbm
      htm m 0 ⟨0, [], [], [], []⟩ hpos
    rw [← hm, ← generateBuffers_eq _ _ _ hen hz] at hloop
    simp only [feedTestPlan, hloop]

/-- C14, witness: on `float64` with the scenario configuration (buffers of 8 bytes, one
element drawn, rounded to 4 elements) the call fails with the assertion error. -/
theorem encoding_failure_witness :
    feedTestPlan empty ⟨float64, 0, 0⟩ (some scenarioPlan) wideDraws =
      .error Exception.assertionViolation ∧
    (((OutputPort.mk float64 0 0).dtype.size = 1 ∨ (OutputPort.mk float64 0 0).dtype.size = 2 ∨
        (OutputPort.mk float64 0 0).dtype.size = 4) →
      ((OutputPort.mk float64 0 0).dtype.isFloat = false ∨
        (OutputPort.mk float64 0 0).dtype.size = 4) →
      feedTestPlan empty ⟨float64, 0, 0⟩ (some scenarioPlan) wideDraws ≠
        .error Exception.assertionViolation) ∧
    (¬ ((OutputPort.mk float64 0 0).dtype.size = 1 ∨ (OutputPort.mk float64 0 0).dtype.size = 2 ∨
        (OutputPort.mk float64 0 0).dtype.size = 4) →
      (∀ r, feedTestPlan empty ⟨float64, 0, 0⟩ (some scenarioPlan) wideDraws = .ok r →
        ∃ bs : List BufferChunk,
          (if TestPlan.value scenarioPlan.enablePackets false = true then
            r.2._buffers = empty._buffers ∧
              r.2._packets.map Packet.payload = empty._packets.map Packet.payload ++ bs
          else r.2._buffers = empty._buffers ++ bs ∧ r.2._packets = empty._packets) ∧
          ∀ x ∈ bs, x.elements = 0) ∧
      ((OutputPort.mk float64 0 0).dtype.size ≠ 0 → bufferMultiple scenarioPlan ≠ 0 →
        totalMultiple scenarioPlan ≠ 0 → 1 ≤ toSizeT wideDraws.bufferDist →
        0 < padLast 0 (toSizeT wideDraws.bufferDist) 0
          (roundToMultiple (wideDraws.elementsDist 0) (bufferMultiple scenarioPlan)
            (elementsDistA (OutputPort.mk float64 0 0).dtype scenarioPlan)
            (elementsDistB (OutputPort.mk float64 0 0).dtype scenarioPlan))
          (totalMultiple scenarioPlan) →
        feedTestPlan empty ⟨float64, 0, 0⟩ (some scenarioPlan) wideDraws =
          .error Exception.assertionViolation)) :=
  ⟨rfl, encoding_failure empty ⟨float64, 0, 0⟩ scenarioPlan wideDraws (Or.inl rfl)⟩

/-! ## C15: the default value range -/

/-- C15: when `minValue` and `maxValue` are absent, the default value range is
`[0, 2^(8w) - 1]` (unsigned) or `[-2^(8w-1), 2^(8w-1) - 1]` (signed) for the byte widths
`w` 1 and 2. For the byte width 4 the shift `1 << 32` on `int` is undefined, and for
every `int` value `undefinedShift` that it may yield the range differs from the one
claimed: the upper bound of an unsigned type is not `2^32 - 1` and the lower bound of a
signed type is not `-2^31`. -/
theorem default_value_range (elemDType : DType) (testPlan : TestPlan) (undefinedShift : Int)
    (hmin : testPlan.minValue = none) (hmax : testPlan.maxValue = none)
    (hint : -2 ^ 31 ≤ undefinedShift ∧ undefinedShift ≤ 2 ^ 31 - 1) :
    (elemDType.size = 1 ∨ elemDType.size = 2 →
      (elemDType.isSigned = false →
        valueDistA elemDType testPlan undefinedShift = 0 ∧
        valueDistB elemDType testPlan undefinedShift = 2 ^ (8 * elemDType.size) - 1) ∧
      (elemDType.isSigned = true →
        valueDistA elemDType testPlan undefinedShift = -2 ^ (8 * elemDType.size - 1) ∧
        valueDistB elemDType testPlan undefinedShift = 2 ^ (8 * elemDType.size - 1) - 1)) ∧
    (elemDType.size = 4 →
      (elemDType.isSigned = false →
        valueDistB elemDType testPlan undefinedShift ≠ 2 ^ 32 - 1) ∧
      (elemDType.isSigned = true →
        valueDistA elemDType testPlan undefinedShift ≠ -2 ^ 31)) := by
  constructor
  · intro hsize
    rcases hsize with h | h
    · constructor
      · intro hs
        simp [valueDistA, valueDistB, signedOff, valueSize, hmin, hmax, TestPlan.value, h, hs]
      · intro hs
        simp [valueDistA, valueDistB, signedOff, valueSize, hmin, hmax, TestPlan.value, h, hs]
        decide
    · constructor
      · intro hs
        simp [valueDistA, valueDistB, signedOff, valueSize, hmin, hmax, TestPlan.value, h, hs]
      · intro hs
        simp [valueDistA, valueDistB, signedOff, valueSize, hmin, hmax, TestPlan.value, h, hs]
        decide
  · intro hsize
    constructor
    · intro hs
      simp only [valueDistB, signedOff, valueSize, hmax, TestPlan.value, hsize, hs,
        Option.getD_none]
      norm_num
      omega
    · intro hs
      simp only [valueDistA, signedOff, valueSize, hmin, TestPlan.value, hsize, hs,
        Option.getD_none]
      norm_num
      by_cases hneg : 0 ≤ undefinedShift
      · rw [Int.tdiv_eq_ediv hneg (by norm_num)]
        omega
      · have h1 : undefinedShift.tdiv 2 = -((-undefinedShift).tdiv 2) := by
          rw [Int.neg_tdiv, neg_neg]
        rw [h1, Int.tdiv_eq_ediv (by omega) (by norm_num)]
        omega

/-- C15, witness: on `uint32` with no key in the configuration, a machine on which the
shift yields 1 computes the range `[0, 0]`. -/
theorem default_value_range_witness :
    (valueDistA uint32 {} 1 = 0 ∧ valueDistB uint32 {} 1 = 0) ∧
    ((uint32.size = 1 ∨ uint32.size = 2 →
      (uint32.isSigned = false →
        valueDistA uint32 {} 1 = 0 ∧ valueDistB uint32 {} 1 = 2 ^ (8 * uint32.size) - 1) ∧
      (uint32.isSigned = true →
        valueDistA uint32 {} 1 = -2 ^ (8 * uint32.size - 1) ∧
        valueDistB uint32 {} 1 = 2 ^ (8 * uint32.size - 1) - 1)) ∧
    (uint32.size = 4 →
      (uint32.isSigned = false → valueDistB uint32 {} 1 ≠ 2 ^ 32 - 1) ∧
      (uint32.isSigned = true → valueDistA uint32 {} 1 ≠ -2 ^ 31))) :=
  ⟨by decide, default_value_range uint32 {} 1 rfl rfl ⟨by decide, by decide⟩⟩

/-! ## C16: one buffer of one element -/

/-- C16, counterexample: the boundary configuration on `int32` (`minBuffers` =
`maxBuffers` = 1, `minBufferSize` = `maxBufferSize` = 4 bytes) with `bufferMultiple` 4
yields one buffer of 4 elements, not of one element. -/
theorem boundary_counterexample :
    TestPlan.value boundaryMultiplePlan.enableBuffers false = true ∧
    boundaryMultiplePlan.minBuffers = some 1 ∧ boundaryMultiplePlan.maxBuffers = some 1 ∧
    boundaryMultiplePlan.minBufferSize = some (int32.size : Int) ∧
    boundaryMultiplePlan.maxBufferSize = some (int32.size : Int) ∧
    ValidBufferDraws int32 boundaryMultiplePlan boundaryDraws ∧
    (feedTestPlan empty ⟨int32, 0, 0⟩ (some boundaryMultiplePlan) boundaryDraws).toOption.map
      (fun r => r.2._buffers.map BufferChunk.elements) = some [4] := by
  refine ⟨by decide, by decide, by decide, by decide, by decide,
    ⟨⟨by decide, by decide⟩, fun _ => ⟨le_of_eq (by rfl), le_of_eq (by rfl)⟩⟩, by decide⟩

/-- C16, amended: for every configuration with buffers enabled, `minBuffers` =
`maxBuffers` = 1, `minBufferSize` = `maxBufferSize` = the element byte width,
`bufferMultiple` = `totalMultiple` = 1 (the defaults) and an element byte width of 1, 2
or 4, and for every outcome of the random draws, `feedTestPlan` returns and generates
exactly one buffer, of exactly one element (queued as a buffer, or as the payload of one
packet in packet mode). -/
theorem boundary_one_element (self : FeederSource) (outputPort : OutputPort)
    (testPlan : TestPlan) (gen : RandomDraws)
    (hsize : outputPort.dtype.size = 1 ∨ outputPort.dtype.size = 2 ∨ outputPort.dtype.size = 4)
    (hen : TestPlan.value testPlan.enableBuffers false = true)
    (hbm : bufferMultiple testPlan = 1) (htm : totalMultiple testPlan = 1)
    (hmin : testPlan.minBuffers = some 1) (hmax : testPlan.maxBuffers = some 1)
    (hminS : testPlan.minBufferSize = some (outputPort.dtype.size : Int))
    (hmaxS : testPlan.maxBufferSize = some (outputPort.dtype.size : Int))
    (hgen : ValidBufferDraws outputPort.dtype testPlan gen)
    (hidx : ValidIndexDraws outputPort.dtype testPlan gen) :
    ∃ (r : ExpectedResult × FeederSource) (bs : List BufferChunk),
      feedTestPlan self outputPort (some testPlan) gen = .ok r ∧
      (if TestPlan.value testPlan.enablePackets false = true then
        r.2._buffers = self._buffers ∧
          r.2._packets.map Packet.payload = self._packets.map Packet.payload ++ bs
      else r.2._buffers = self._buffers ++ bs ∧ r.2._packets = self._packets) ∧
      bs.map BufferChunk.elements = [1] := by
  have hpos : (0 : Int) < outputPort.dtype.size := by omega
  have hA : elementsDistA outputPort.dtype testPlan = 1 := by
    simp only [elementsDistA, hminS, TestPlan.value, Option.getD_some]
    exact Int.ediv_self (by omega)
  have hB : elementsDistB outputPort.dtype testPlan = 1 := by
    simp only [elementsDistB, hmaxS, TestPlan.value, Option.getD_some]
    exact Int.ediv_self (by omega)
  have hb : gen.bufferDist = 1 := by
    have h1 := hgen.1
    simp only [hmin, hmax, TestPlan.value, Option.getD_some] at h1
    omega
  have hel : ∀ bufno, gen.elementsDist bufno = 1 := by
    intro bufno
    have := hgen.2 bufno
    rw [hA, hB] at this
    omega
  obtain ⟨r, hr⟩ := feedTestPlan_returns_of_valid self outputPort testPlan gen hsize
    (by omega) (by omega) (by omega) hgen hidx
  obtain ⟨bs, st, -, -, hbs, -, hq⟩ := feedTestPlan_generated self outputPort testPlan gen r hr
  refine ⟨r, bs, hr, hq, ?_⟩
  rw [hbs]
  have hc : numElemsChosen outputPort.dtype testPlan gen = [1] := by
    unfold numElemsChosen
    rw [if_pos (Or.inl hen), hA, hB, hbm, htm, hb, show toSizeT 1 = 1 by decide]
    simp only [numElemsFrom, hel]
    decide
  rw [hc]
  rfl

/-- C16, witness: the boundary configuration with the default multiples on `int32`. -/
theorem boundary_one_element_witness :
    ∃ (r : ExpectedResult × FeederSource) (bs : List BufferChunk),
      feedTestPlan empty ⟨int32, 0, 0⟩ (some boundaryPlan) boundaryDraws = .ok r ∧
      (if TestPlan.value boundaryPlan.enablePackets false = true then
        r.2._buffers = empty._buffers ∧
          r.2._packets.map Packet.payload = empty._packets.map Packet.payload ++ bs
      else r.2._buffers = empty._buffers ++ bs ∧ r.2._packets = empty._packets) ∧
      bs.map BufferChunk.elements = [1] :=
  boundary_one_element empty ⟨int32, 0, 0⟩ boundaryPlan boundaryDraws (Or.inr (Or.inr rfl))
    rfl rfl rfl rfl rfl rfl rfl
    ⟨⟨by decide, by decide⟩, fun _ => ⟨le_of_eq (by rfl), le_of_eq (by rfl)⟩⟩
    (fun st hst _ lblno => by
      have h : (Except.ok (⟨1, [0], [], [⟨int32, 4, [Element.int 0]⟩], []⟩ : BufferState) :
          Except Exception BufferState) = .ok st := hst
      cases h
      exact Int.zero_lt_one)

/-! ## C17: the drain step before anything is fed -/

/-- C17, counterexample: a `work` call on the block as constructed, with nothing fed,
returns normally: it posts nothing, leaves the queues empty and takes the backoff
path. -/
theorem work_before_setup_counterexample :
    work empty ⟨int32, 0, 0⟩ = ⟨empty, [], true⟩ := by
  decide

/-- C17, amended: a `work` call on a block to which nothing has been fed returns
normally for every state of the output port: it posts nothing, leaves the four queues
empty and takes the backoff-and-yield path. -/
theorem work_before_setup (outputPort : OutputPort) :
    (work empty outputPort).posted = [] ∧ (work empty outputPort).self = empty ∧
      (work empty outputPort).backoff = true :=
  ⟨rfl, rfl, rfl⟩

/-! ## C18: a failing plan build leaves the queues alone -/

/-- C18: whenever `feedTestPlan` fails (the configuration document does not parse, an
element cannot be stored, or any other error of the generation), the four queues of the
block after the call are exactly the queues before the call. -/
theorem feedTestPlan_atomic (self : FeederSource) (outputPort : OutputPort)
    (testPlan : Option TestPlan) (gen : RandomDraws) (e : Exception)
    (h : feedTestPlan self outputPort testPlan gen = .error e) :
    (feedTestPlanCall self outputPort testPlan gen).2 = .error e ∧
    (feedTestPlanCall self outputPort testPlan gen).1 = self := by
  rw [feedTestPlanCall_eq] at h
  unfold feedTestPlanCall at h ⊢
  cases testPlan with
  | none =>
    simp only at h ⊢
    exact ⟨by cases h; rfl, trivial⟩
  | some testPlan =>
    simp only at h ⊢
    cases hb : generateBuffers outputPort.dtype testPlan gen with
    | error e' =>
      rw [hb] at h
      simp only at h ⊢
      exact ⟨by cases h; rfl, trivial⟩
    | ok bs =>
      rw [hb] at h
      simp only at h ⊢
      cases hl : generateLabels outputPort testPlan gen bs with
      | error e' =>
        rw [hl] at h
        simp only at h ⊢
        exact ⟨by cases h; rfl, trivial⟩
      | ok ls =>
        rw [hl] at h
        simp only at h
        cases h

/-- C18, witness: a configuration document that does not parse, on the block
`oneBuffer`. -/
theorem feedTestPlan_atomic_witness :
    (feedTestPlanCall oneBuffer ⟨int32, 0, 0⟩ none scenarioDraws).2 =
      .error Exception.parseError ∧
    (feedTestPlanCall oneBuffer ⟨int32, 0, 0⟩ none scenarioDraws).1 = oneBuffer :=
  feedTestPlan_atomic oneBuffer ⟨int32, 0, 0⟩ none scenarioDraws Exception.parseError rfl

/-! ## C20: the rounding step on a range without a multiple -/

/-- C20: for all integers `0 ≤ a ≤ b` and `m ≥ 1` such that `[a, b]` contains no multiple
of `m`, and every raw draw `n` in `[a, b]`, the rounding step returns the smallest
multiple of `m` that is greater than `b`: a count outside the draw range. -/
theorem roundToMultiple_no_multiple (a b m n : Int) (ha : 0 ≤ a) (hab : a ≤ b) (hm : 1 ≤ m)
    (hno : ∀ c, a ≤ c → c ≤ b → ¬ m ∣ c) (han : a ≤ n) (hnb : n ≤ b) :
    m ∣ roundToMultiple n m a b ∧ b < roundToMultiple n m a b ∧
      ∀ c, m ∣ c → b < c → roundToMultiple n m a b ≤ c := by
  have _ := hab
  obtain ⟨h1, h2⟩ := roundUp_bounds n m (by omega) hm
  obtain ⟨q, hq⟩ : m ∣ (n + m - 1).tdiv m * m := dvd_mul_left _ _
  unfold roundToMultiple
  simp only
  generalize (n + m - 1).tdiv m * m = r at h1 h2 hq ⊢
  have hrb : b < r := by
    by_contra hcon
    exact hno r (by omega) (by omega) ⟨q, hq⟩
  have hra : r - m < a := by
    by_contra hcon
    exact hno (r - m) (by omega) (by omega) ⟨q - 1, by rw [hq]; ring⟩
  rw [if_pos hrb, if_pos hra]
  refine ⟨⟨q, by rw [hq]; ring⟩, by omega, ?_⟩
  rintro c ⟨k, hk⟩ hbc
  by_contra hcon
  have hkq : k ≤ q - 1 := by
    by_contra hcon2
    have : m * q ≤ m * k := mul_le_mul_of_nonneg_left (by omega) (by omega)
    omega
  have : m * k ≤ m * (q - 1) := mul_le_mul_of_nonneg_left hkq (by omega)
  have hexp : m * (q - 1) = m * q - m := by ring
  omega

/-- C20, witness: the range `[2, 2]` holds no multiple of 4, and the draw 2 is rounded
to 4. -/
theorem roundToMultiple_no_multiple_witness :
    roundToMultiple 2 4 2 2 = 4 ∧
    ((4 : Int) ∣ roundToMultiple 2 4 2 2 ∧ 2 < roundToMultiple 2 4 2 2 ∧
      ∀ c, (4 : Int) ∣ c → 2 < c → roundToMultiple 2 4 2 2 ≤ c) :=
  ⟨by decide, roundToMultiple_no_multiple 2 2 4 2 (by decide) (by decide) (by decide)
    (fun c h1 h2 h3 => by
      have hc : c = 2 := by omega
      rw [hc] at h3
      exact absurd h3 (by decide))
    (by decide) (by decide)⟩

/-! ## C21: when the drain step backs off -/

/-- C21, counterexample: with one label queued that is not yet due (no buffer queued,
nothing emitted) and the other three queues empty, `work` posts nothing, keeps the label
queued and takes the backoff path, although the label queue holds an entity. -/
theorem backoff_counterexample :
    onlyLabel._labels ≠ [] ∧
      work onlyLabel ⟨int32, 0, 0⟩ = ⟨onlyLabel, [], true⟩ := by
  decide

/-- C21, amended: `work` takes the backoff-and-yield path exactly when the buffer, message
and packet queues were all empty at the start of the call, whatever the label queue
holds. In particular it backs off when all four queues were empty, and it never backs
off while the buffer, message or packet queue holds an entity. With those three queues
empty the call posts the labels that are due (`(workLabels ..).1`, possibly none), keeps
the other labels queued and backs off. -/
theorem work_backoff_iff (self : FeederSource) (outputPort : OutputPort) :
    ((work self outputPort).backoff = true ↔
      self._buffers = [] ∧ self._messages = [] ∧ self._packets = []) ∧
    (self._buffers = [] → self._labels = [] → self._messages = [] → self._packets = [] →
      (work self outputPort).backoff = true ∧ (work self outputPort).posted = [] ∧
        (work self outputPort).self = self) ∧
    (self._buffers ≠ [] ∨ self._messages ≠ [] ∨ self._packets ≠ [] →
      (work self outputPort).backoff = false) ∧
    (self._buffers = [] → self._messages = [] → self._packets = [] →
      (work self outputPort).posted = (workLabels [] outputPort self._labels).1 ∧
      (work self outputPort).self._labels = (workLabels [] outputPort self._labels).2 ∧
      (work self outputPort).self._buffers = [] ∧
      (work self outputPort).self._messages = [] ∧
      (work self outputPort).self._packets = []) := by
  obtain ⟨buffers, labels, messages, packets⟩ := self
  cases buffers with
  | cons b bs => simp [work]
  | nil =>
    cases messages with
    | cons m ms => simp [work]
    | nil =>
      cases packets with
      | cons p ps => simp [work]
      | nil =>
        refine ⟨by simp [work], ?_, by simp, by simp [work]⟩
        intro _ hl _ _
        simp only at hl
        subst hl
        simp [work, workLabels]

/-- C21, witness: the block with nothing queued backs off; the block with one label
and one message queued does not back off; the block with only a label queued, which is
not due, keeps the label and backs off. -/
theorem work_backoff_iff_witness :
    ((work empty ⟨int32, 0, 0⟩).backoff = true ∧ (work empty ⟨int32, 0, 0⟩).posted = [] ∧
      (work empty ⟨int32, 0, 0⟩).self = empty) ∧
    (work labelAndMessage ⟨int32, 0, 0⟩).backoff = false ∧
    (work onlyLabel ⟨int32, 0, 0⟩).backoff = true ∧
    ((work onlyLabel ⟨int32, 0, 0⟩).posted =
        (workLabels [] ⟨int32, 0, 0⟩ onlyLabel._labels).1 ∧
      (work onlyLabel ⟨int32, 0, 0⟩).self._labels =
        (workLabels [] ⟨int32, 0, 0⟩ onlyLabel._labels).2 ∧
      (work onlyLabel ⟨int32, 0, 0⟩).self._buffers = [] ∧
      (work onlyLabel ⟨int32, 0, 0⟩).self._messages = [] ∧
      (work onlyLabel ⟨int32, 0, 0⟩).self._packets = []) :=
  ⟨(work_backoff_iff empty ⟨int32, 0, 0⟩).2.1 rfl rfl rfl rfl,
    (work_backoff_iff labelAndMessage ⟨int32, 0, 0⟩).2.2.1 (Or.inr (Or.inl (by decide))),
    (work_backoff_iff onlyLabel ⟨int32, 0, 0⟩).1.mpr ⟨rfl, rfl, rfl⟩,
    (work_backoff_iff onlyLabel ⟨int32, 0, 0⟩).2.2.2 rfl rfl rfl⟩

/-! ## C22: packet-relative addressing is invertible -/

/-- C22: for every list of packets and every absolute index `i` below the total number
of payload elements, the translation of source lines 272-278 (`packetWalk` from ordinal
0) ends at a packet `p` of the list; the payload element counts of the packets before it
plus the relative index give back `i`; the relative index lies inside the payload of
`p`, so `p` is not a packet of zero elements; and no other index below the total is
translated to the same ordinal and relative index. -/
theorem packet_addressing_invertible (packets : List Packet) (i : Nat)
    (h : i < (payloadElements packets).sum) :
    (∃ p, packets[(packetWalk packets i 0).2]? = some p ∧
      (packetWalk packets i 0).1 < p.payload.elements ∧ 0 < p.payload.elements) ∧
    packetOffset packets (packetWalk packets i 0).2 + (packetWalk packets i 0).1 = i ∧
    (∀ i2, i2 < (payloadElements packets).sum →
      packetWalk packets i2 0 = packetWalk packets i 0 → i2 = i) := by
  obtain ⟨q, e, h1, h2, h3, h4⟩ := packetWalk_spec packets i 0 h
  have hq : (packetWalk packets i 0).2 = q := by omega
  refine ⟨?_, ?_, ?_⟩
  · simp only [payloadElements, List.getElem?_map, Option.map_eq_some'] at h2
    obtain ⟨p, hp, hpe⟩ := h2
    exact ⟨p, by rw [hq]; exact hp, by rw [hpe]; exact h3, by rw [hpe]; omega⟩
  · rw [hq]; exact h4
  · intro i2 h2lt heq
    obtain ⟨q2, e2, g1, -, -, g4⟩ := packetWalk_spec packets i2 0 h2lt
    have hq2 : (packetWalk packets i2 0).2 = q2 := by omega
    rw [heq] at g4 hq2
    have : q2 = q := by omega
    subst this
    omega

/-- C22, witness: in three packets of 2, 0 and 3 elements the absolute index 2 is
translated to the relative index 0 of the packet of ordinal 2, past the empty packet. -/
theorem packet_addressing_invertible_witness :
    packetWalk threePackets 2 0 = (0, 2) ∧
    2 < (payloadElements threePackets).sum ∧
    ((∃ p, threePackets[(packetWalk threePackets 2 0).2]? = some p ∧
      (packetWalk threePackets 2 0).1 < p.payload.elements ∧ 0 < p.payload.elements) ∧
    packetOffset threePackets (packetWalk threePackets 2 0).2 +
      (packetWalk threePackets 2 0).1 = 2 ∧
    (∀ i2, i2 < (payloadElements threePackets).sum →
      packetWalk threePackets i2 0 = packetWalk threePackets 2 0 → i2 = 2)) :=
  ⟨by decide, by decide, packet_addressing_invertible threePackets 2 (by decide)⟩

end FeederSource

namespace Repeat

/-! ## Lemmas on the `Repeat` block -/

/-- The inner loop appends `remaining` copies of the element. -/
theorem innerLoop_eq {α : Type} (x : α) :
    ∀ (remaining : Nat) (buffOut : List α),
      innerLoop x remaining buffOut = buffOut ++ List.replicate remaining x := by
  intro remaining
  induction remaining with
  | zero => intro buffOut; simp [innerLoop]
  | succ n ih =>
    intro buffOut
    rw [innerLoop, ih, List.append_assoc, List.replicate_succ]
    rfl

/-- The outer loop appends, for each input element in order, its copies. -/
theorem outerLoop_eq {α : Type} (repeatCount : Nat) :
    ∀ (buffIn buffOut : List α),
      outerLoop repeatCount buffIn buffOut =
        buffOut ++ (buffIn.map (List.replicate repeatCount)).flatten := by
  intro buffIn
  induction buffIn with
  | nil => intro buffOut; simp [outerLoop]
  | cons x rest ih =>
    intro buffOut
    rw [outerLoop, ih, innerLoop_eq]
    simp

/-- Element `k` of the repeated list is element `k / r` of the list. -/
theorem getElem?_flatten_replicate {α : Type} (r : Nat) :
    ∀ (l : List α) (k : Nat), k < l.length * r →
      (l.map (List.replicate r)).flatten[k]? = l[k / r]? := by
  intro l
  induction l with
  | nil => intro k hk; simp at hk
  | cons x rest ih =>
    intro k hk
    have hr : 0 < r := by
      rcases Nat.eq_zero_or_pos r with h | h
      · rw [h] at hk; simp at hk
      · exact h
    simp only [List.map_cons, List.flatten_cons]
    by_cases hkr : k < r
    · rw [List.getElem?_append_left (by simpa using hkr), Nat.div_eq_of_lt hkr]
      simp [List.getElem?_replicate, hkr]
    · have hge : r ≤ k := by omega
      rw [List.getElem?_append_right (by simpa using hge)]
      simp only [List.length_replicate]
      rw [ih (k - r) (by
        simp only [List.length_cons] at hk
        have : (rest.length + 1) * r = rest.length * r + r := by ring
        omega)]
      have hdiv : k / r = (k - r) / r + 1 := by
        rw [← Nat.sub_add_cancel hge, Nat.add_div_right _ hr, Nat.add_sub_cancel]
      rw [hdiv, List.getElem?_cons_succ]

/-! ## C19: the repeated stream -/

/-- C19: for every input of `elemsIn ≥ 1` elements and every repeat count `r`, one
`Repeat::work` call consumes all `elemsIn` input elements and posts one output buffer of
exactly `elemsIn * r` elements in which, for every `k < elemsIn * r`, element `k` is the
input element `k / r`; with `r = 1` the output is the input. -/
theorem repeat_work {α : Type} (self : Repeat) (input : List α) (h : 1 ≤ input.length) :
    (work self input).consumed = input.length ∧
    ∃ out : List α, (work self input).posted = [out] ∧
      out.length = input.length * self._repeatCount ∧
      (∀ k, k < input.length * self._repeatCount → out[k]? = input[k / self._repeatCount]?) ∧
      (self._repeatCount = 1 → out = input) := by
  have hne : ¬ 0 = input.length := by omega
  have hout : outerLoop self._repeatCount (input.take input.length) [] =
      (input.map (List.replicate self._repeatCount)).flatten := by
    rw [outerLoop_eq, List.take_length, List.nil_append]
  unfold work
  simp only [if_neg hne, hout]
  refine ⟨trivial, _, rfl, ?_, ?_, ?_⟩
  · rw [List.length_flatten, List.map_map]
    have : (List.length ∘ List.replicate self._repeatCount : α → Nat) =
        fun _ => self._repeatCount := by
      funext x; simp
    rw [this, List.map_const', List.sum_replicate, smul_eq_mul]
  · exact getElem?_flatten_replicate _ _
  · intro h1
    rw [h1]
    induction input with
    | nil => rfl
    | cons x rest ih =>
      simp only [List.map_cons, List.flatten_cons, List.replicate_one, List.singleton_append,
        List.cons.injEq, true_and]
      cases rest with
      | nil => rfl
      | cons y ys => exact ih (by simp) (by simp) (by rw [List.take_length, outerLoop_eq]; simp)

/-- C19, witness: the input `[7, 8]` repeated 3 times. -/
theorem repeat_work_witness :
    (work ⟨4, 3⟩ [7, 8]).posted = [[7, 7, 7, 8, 8, 8]] ∧
    ((work ⟨4, 3⟩ [7, 8]).consumed = [7, 8].length ∧
    ∃ out : List Nat, (work ⟨4, 3⟩ [7, 8]).posted = [out] ∧
      out.length = [7, 8].length * (Repeat.mk 4 3)._repeatCount ∧
      (∀ k, k < [7, 8].length * (Repeat.mk 4 3)._repeatCount →
        out[k]? = [7, 8][k / (Repeat.mk 4 3)._repeatCount]?) ∧
      ((Repeat.mk 4 3)._repeatCount = 1 → out = [7, 8])) :=
  ⟨by decide, repeat_work ⟨4, 3⟩ [7, 8] (by decide)⟩

end Repeat

namespace BinaryFileSource

/-! ## Lemmas on the binary file source -/

/-- A `work` call without a mapped file throws and leaves the block as it was. -/
theorem call_work_none (fs : FileSystem) (self : BinaryFileSource) (minElements : Nat)
    (h : self._mmapSharedBuff = none) :
    call fs self (Call.work minElements) = (self, Outcome.raised FileError.runtimeException) := by
  simp [call, work, h]

/-- A `work` call with a mapped file that posts nothing: the hint is zero, or rewind is
disabled and the block has posted before. -/
theorem call_work_skip (fs : FileSystem) (self : BinaryFileSource) (minElements : Nat)
    (buff : SharedBuffer) (h : self._mmapSharedBuff = some buff)
    (hskip : minElements = 0 ∨ (self._rewind = false ∧ self._workedOnce = true)) :
    call fs self (Call.work minElements) = (self, Outcome.returned) := by
  rcases hskip with h0 | ⟨hr, hw⟩
  · simp [call, work, h, h0]
  · by_cases h0 : 0 = minElements
    · simp [call, work, h, h0]
    · simp [call, work, h, h0, hr, hw]

/-- A `work` call with a mapped file and a non-zero hint, when rewind is enabled or the
block has not posted before, posts the whole mapped buffer and sets `_workedOnce`. -/
theorem call_work_post (fs : FileSystem) (self : BinaryFileSource) (minElements : Nat)
    (buff : SharedBuffer) (h : self._mmapSharedBuff = some buff) (h0 : minElements ≠ 0)
    (hpost : self._rewind = true ∨ self._workedOnce = false) :
    call fs self (Call.work minElements) =
      ({ self with _workedOnce := true }, Outcome.posted ⟨buff, self._dtype⟩) := by
  have h0' : ¬ (0 = minElements) := fun e => h0 e.symm
  rcases hpost with hr | hw
  · simp [call, work, h, h0', hr]
  · simp [call, work, h, h0', hw]

/-- A `setFilePath` call changes neither `_rewind` nor `_workedOnce` nor `_dtype`. -/
theorem setFilePath_keeps (fs : FileSystem) (self : BinaryFileSource) (path : String) :
    (setFilePath fs self path).1._rewind = self._rewind ∧
    (setFilePath fs self path).1._workedOnce = self._workedOnce ∧
    (setFilePath fs self path).1._dtype = self._dtype := by
  simp only [setFilePath, activate, deactivate]
  split <;> simp

/-- A `setFilePath` call posts nothing and changes neither `_rewind` nor `_workedOnce`. -/
theorem call_setFilePath (fs : FileSystem) (self : BinaryFileSource) (path : String) :
    (call fs self (Call.setFilePath path)).1 = (setFilePath fs self path).1 ∧
    postedChunks ((call fs self (Call.setFilePath path)).2 :: []) = [] := by
  simp only [call]
  split <;> rename_i heq <;> simp [heq, postedChunks]

/-- What a `work` call does to the flags, and how many buffers it posts, when rewind is
disabled. -/
theorem call_work_rewind_off (fs : FileSystem) (self : BinaryFileSource) (minElements : Nat)
    (hr : self._rewind = false) :
    (call fs self (Call.work minElements)).1._rewind = false ∧
    (self._workedOnce = true →
      (call fs self (Call.work minElements)).1._workedOnce = true ∧
      postedChunks [(call fs self (Call.work minElements)).2] = []) ∧
    (self._workedOnce = false →
      ((call fs self (Call.work minElements)).1._workedOnce = false ∧
        postedChunks [(call fs self (Call.work minElements)).2] = []) ∨
      ((call fs self (Call.work minElements)).1._workedOnce = true ∧
        (postedChunks [(call fs self (Call.work minElements)).2]).length = 1)) := by
  cases hm : self._mmapSharedBuff with
  | none =>
    rw [call_work_none fs self minElements hm]
    refine ⟨hr, fun hw => ⟨hw, rfl⟩, fun hw => Or.inl ⟨hw, rfl⟩⟩
  | some buff =>
    by_cases h0 : minElements = 0
    · rw [call_work_skip fs self minElements buff hm (Or.inl h0)]
      exact ⟨hr, fun hw => ⟨hw, rfl⟩, fun hw => Or.inl ⟨hw, rfl⟩⟩
    · cases hw : self._workedOnce with
      | true =>
        rw [call_work_skip fs self minElements buff hm (Or.inr ⟨hr, hw⟩)]
        exact ⟨hr, fun _ => ⟨hw, rfl⟩, fun h => Bool.noConfusion h⟩
      | false =>
        rw [call_work_post fs self minElements buff hm h0 (Or.inr hw)]
        exact ⟨hr, fun h => Bool.noConfusion h, fun _ => Or.inr ⟨rfl, rfl⟩⟩

/-- The buffers posted by a sequence of calls: those of the first call, then those of
the rest. -/
theorem postedChunks_cons (o : Outcome) (rest : List Outcome) :
    postedChunks (o :: rest) = postedChunks [o] ++ postedChunks rest := by
  cases o <;> simp [postedChunks]

/-- With rewind disabled and never enabled, a sequence of calls posts at most one
buffer, and none when the block has posted before. -/
theorem run_rewind_off (fs : FileSystem) :
    ∀ (calls : List Call) (self : BinaryFileSource), self._rewind = false →
      (∀ c ∈ calls, c ≠ Call.setAutoRewind true) →
      (postedChunks (run fs self calls).2).length ≤ 1 ∧
      (self._workedOnce = true → postedChunks (run fs self calls).2 = []) := by
  intro calls
  induction calls with
  | nil => intro self _ _; simp [run, postedChunks]
  | cons c rest ih =>
    intro self hr hno
    have hrest : ∀ c ∈ rest, c ≠ Call.setAutoRewind true :=
      fun c hc => hno c (List.mem_cons_of_mem _ hc)
    simp only [run]
    rw [postedChunks_cons]
    cases c with
    | work minElements =>
      obtain ⟨h1, h2, h3⟩ := call_work_rewind_off fs self minElements hr
      obtain ⟨i1, i2⟩ := ih (call fs self (Call.work minElements)).1 h1 hrest
      constructor
      · cases hw : self._workedOnce with
        | true =>
          obtain ⟨_, g2⟩ := h2 hw
          rw [g2]; simpa using i1
        | false =>
          rcases h3 hw with ⟨_, g2⟩ | ⟨g1, g2⟩
          · rw [g2]; simpa using i1
          · rw [List.length_append, g2, i2 g1]; simp
      · intro hw
        obtain ⟨g1, g2⟩ := h2 hw
        rw [g2, i2 g1]; rfl
    | setFilePath path =>
      obtain ⟨h1, h2⟩ := call_setFilePath fs self path
      obtain ⟨k1, k2, _⟩ := setFilePath_keeps fs self path
      rw [h2, h1]
      obtain ⟨i1, i2⟩ := ih (setFilePath fs self path).1 (k1.trans hr) hrest
      exact ⟨by simpa using i1, fun hw => by simpa using i2 (k2.trans hw)⟩
    | setAutoRewind rewind =>
      have hrw : rewind = false := by
        cases rewind with
        | false => rfl
        | true => exact absurd rfl (hno _ (List.mem_cons_self _ _))
      subst hrw
      have hc : call fs self (Call.setAutoRewind false) = (self, Outcome.returned) := by
        simp only [call, setAutoRewind]
        rw [← hr]
      rw [hc]
      obtain ⟨i1, i2⟩ := ih self hr hrest
      exact ⟨by simpa [postedChunks] using i1, fun hw => by simpa [postedChunks] using i2 hw⟩

/-- With rewind disabled and a file mapped, a sequence of `work` calls posts the mapped
buffer at the first call with a non-zero hint, when the block has not posted before, and
returns plainly at every other call. -/
theorem run_work_outcomes (fs : FileSystem) (buff : SharedBuffer) :
    ∀ (hints : List Nat) (self : BinaryFileSource), self._rewind = false →
      self._mmapSharedBuff = some buff → ∀ (k m : Nat), hints[k]? = some m →
      (run fs self (hints.map Call.work)).2[k]? =
        some (if m ≠ 0 ∧ self._workedOnce = false ∧ ∀ j ∈ hints.take k, j = 0
          then Outcome.posted ⟨buff, self._dtype⟩ else Outcome.returned) := by
  intro hints
  induction hints with
  | nil => intro self _ _ k m h; simp at h
  | cons h0 rest ih =>
    intro self hr hm k m hk
    simp only [List.map_cons, run]
    cases k with
    | zero =>
      simp only [List.getElem?_cons_zero, Option.some.injEq] at hk
      subst hk
      simp only [List.getElem?_cons_zero, List.take_zero, List.not_mem_nil, false_implies,
        implies_true, and_true, Option.some.injEq]
      by_cases hz : h0 = 0
      · rw [call_work_skip fs self h0 buff hm (Or.inl hz)]
        simp [hz]
      · cases hw : self._workedOnce with
        | true =>
          rw [call_work_skip fs self h0 buff hm (Or.inr ⟨hr, hw⟩)]
          simp
        | false =>
          rw [call_work_post fs self h0 buff hm hz (Or.inr hw)]
          simp [hz]
    | succ k =>
      simp only [List.getElem?_cons_succ] at hk ⊢
      by_cases hskip : h0 = 0 ∨ (self._rewind = false ∧ self._workedOnce = true)
      · rw [call_work_skip fs self h0 buff hm hskip]
        rw [ih self hr hm k m hk]
        congr 1
        rcases hskip with hz | ⟨_, hw⟩
        · simp [hz]
        · simp [hw]
      · have hz : h0 ≠ 0 := fun e => hskip (Or.inl e)
        have hw : self._workedOnce = false := by
          cases hw : self._workedOnce with
          | false => rfl
          | true => exact absurd (Or.inr ⟨hr, hw⟩) hskip
        rw [call_work_post fs self h0 buff hm hz (Or.inr hw)]
        rw [ih { self with _workedOnce := true } hr hm k m hk]
        simp [hz]

/-! ## C23: the binary file source posts the file once, or at every call with rewind -/

/-- C23: for every block state and file system. (1) With auto-rewind disabled and never
enabled, every sequence of `work`, `setFilePath` and `setAutoRewind` calls posts at most
one buffer in total, and none when the block has posted before, also after a
`setFilePath` call that maps another file. (2) With auto-rewind disabled, a file mapped
and nothing posted before, in a sequence of `work` calls the call of position `k` posts
the whole mapped buffer exactly when its hint is non-zero and the hints of all earlier
calls are zero; every other call returns without posting. (3) With auto-rewind enabled
and a file mapped, every `work` call with a non-zero hint posts the whole mapped buffer.
(4) Without a mapped file every `work` call throws the runtime exception, which is the
state after construction and after a `setFilePath` call that fails; a `setFilePath` call
that returns maps the whole file, which is not empty. -/
theorem work_posts_file (fs : FileSystem) (self : BinaryFileSource) :
    (self._rewind = false → ∀ calls : List Call,
      (∀ c ∈ calls, c ≠ Call.setAutoRewind true) →
      (postedChunks (run fs self calls).2).length ≤ 1 ∧
      (self._workedOnce = true → postedChunks (run fs self calls).2 = [])) ∧
    (self._rewind = false → self._workedOnce = false →
      ∀ buff, self._mmapSharedBuff = some buff → ∀ (hints : List Nat) (k m : Nat),
        hints[k]? = some m →
        (run fs self (hints.map Call.work)).2[k]? =
          some (if m ≠ 0 ∧ ∀ j ∈ hints.take k, j = 0
            then Outcome.posted ⟨buff, self._dtype⟩ else Outcome.returned)) ∧
    (self._rewind = true → ∀ buff, self._mmapSharedBuff = some buff →
      ∀ minElements, minElements ≠ 0 →
        work self minElements =
          .ok ⟨{ self with _workedOnce := true }, [⟨buff, self._dtype⟩]⟩) ∧
    (self._mmapSharedBuff = none →
      ∀ minElements, work self minElements = .error FileError.runtimeException) ∧
    (∀ dtype minElements, work (make dtype) minElements = .error FileError.runtimeException) ∧
    (∀ path e, (setFilePath fs self path).2 = .error e →
      (setFilePath fs self path).1._mmapSharedBuff = none ∧
      ∀ minElements,
        work (setFilePath fs self path).1 minElements = .error FileError.runtimeException) ∧
    (∀ path, (setFilePath fs self path).2 = .ok () →
      (setFilePath fs self path).1._mmapSharedBuff =
        some ⟨(fs path).mmapResult true false, (fs path).getSize⟩ ∧
      0 < (fs path).getSize) := by
  refine ⟨fun hr calls hno => run_rewind_off fs calls self hr hno, ?_, ?_, ?_, ?_, ?_, ?_⟩
  · intro hr hw buff hm hints k m hk
    rw [run_work_outcomes fs buff hints self hr hm k m hk]
    simp [hw]
  · intro hr buff hm minElements h0
    have h0' : ¬ (0 = minElements) := fun e => h0 e.symm
    simp [work, hm, h0', hr]
  · intro hm minElements
    simp [work, hm]
  · intro dtype minElements
    rfl
  · intro path e he
    have hnone : (setFilePath fs self path).1._mmapSharedBuff = none := by
      simp only [setFilePath, activate, deactivate] at he ⊢
      split
      · rfl
      · rename_i heq
        rw [heq] at he
        cases he
    exact ⟨hnone, fun minElements => by simp [work, hnone]⟩
  · intro path hok
    simp only [setFilePath, activate, deactivate] at hok ⊢
    split
    · rename_i heq
      rw [heq] at hok
      cases hok
    · rename_i c heq
      simp only [MemoryMappedBufferContainer.make, MemoryMappedBufferContainer.Impl] at heq
      split_ifs at heq with h1 h2 h3 h4 h5 h6 h7
      simp only [Except.ok.injEq] at heq
      subst heq
      exact ⟨rfl, Nat.pos_of_ne_zero h4⟩

/-- C23, witness: the block made for `int32` with the file `"a"` of `twoFiles` mapped.
With rewind disabled, the calls `work` with the hints 0, 3 and 2, `setFilePath "b"` and
`work` with the hint 4 post that file once, at the call with the hint 3, and the file
`"b"` is never posted; with rewind enabled a `work` call with the hint 5 posts the file;
the block as constructed throws. -/
theorem work_posts_file_witness :
    (run twoFiles mappedA
      [Call.work 0, Call.work 3, Call.work 2, Call.setFilePath "b", Call.work 4]).2 =
      [Outcome.returned, Outcome.posted ⟨⟨4096, 16⟩, FeederSource.int32⟩, Outcome.returned,
        Outcome.returned, Outcome.returned] ∧
    (postedChunks (run twoFiles mappedA
      [Call.work 0, Call.work 3, Call.work 2, Call.setFilePath "b", Call.work 4]).2).length
        ≤ 1 ∧
    (run twoFiles mappedA ([0, 3, 2].map Call.work)).2[1]? =
      some (if 3 ≠ 0 ∧ ∀ j ∈ [0, 3, 2].take 1, j = 0
        then Outcome.posted ⟨⟨4096, 16⟩, mappedA._dtype⟩ else Outcome.returned) ∧
    work (setAutoRewind mappedA true) 5 =
      .ok ⟨{ setAutoRewind mappedA true with _workedOnce := true },
        [⟨⟨4096, 16⟩, (setAutoRewind mappedA true)._dtype⟩]⟩ ∧
    work (make FeederSource.int32) 1 = .error FileError.runtimeException :=
  ⟨by decide,
    ((work_posts_file twoFiles mappedA).1 (by decide)
      [Call.work 0, Call.work 3, Call.work 2, Call.setFilePath "b", Call.work 4]
      (by decide)).1,
    (work_posts_file twoFiles mappedA).2.1 (by decide) (by decide) ⟨4096, 16⟩ (by decide)
      [0, 3, 2] 1 3 rfl,
    (work_posts_file twoFiles (setAutoRewind mappedA true)).2.2.1 (by decide) ⟨4096, 16⟩
      (by decide) 5 (by decide),
    (work_posts_file twoFiles (make FeederSource.int32)).2.2.2.1 rfl 1⟩

end BinaryFileSource

end Pothos
